import Mathlib

/-!
# Virtual-terminal renderer of btop4WinResonite

A shallow embedding of `src/vt_renderer.cpp` (the `VT::Renderer` class) and of the
functions `processToResoniteHTML`, `sendFrame`, `parseFrame`, `base64Encode`,
`sha1Hash`, `generateAcceptKey`, `extractHeader`, `performHandshake`, `broadcast` and
of the start of `handleClient` of `src/btop_websocket.cpp`, followed by theorems
about them.

Conventions of the embedding

* `std::string` is a list of bytes, `List Nat`, every byte below 256.
* `int` is `Int`; where a parameter taken from the input enters an addition or
  subtraction the result is reduced to 32-bit two's complement by `wrap32`.
  (`++` on a cursor coordinate is only executed on a value below `width` or
  `height`, which are themselves `int`, so it is written without `wrap32`.)
* `uint32_t` and `char32_t` are `Nat`; `size_t` and `uint64_t` are `Nat` with the
  reduction modulo 2^64 written where a sum or a shift can leave the range.
* The member functions of `Renderer` take the object as an explicit argument and
  return the new object.
* A `for` loop over an index is a recursion on explicit fuel that carries the
  index; a loop that assigns `Cell()` to a range of positions is a positional map.
-/

namespace VT

/-! ## Data model (`vt_renderer.hpp`) -/

/-- The struct `Cell` with its default member initialisers. -/
structure Cell where
  ch : Nat := 0x20
  bold : Bool := false
  italic : Bool := false
  underline : Bool := false
  reverse : Bool := false
  fg_color : Nat := 0xCCCCCC
  bg_color : Nat := 0x000000
  has_fg_color : Bool := false
  has_bg_color : Bool := false
deriving DecidableEq, Repr

/-- The value of the expression `Cell()`. -/
def defaultCell : Cell := {}

/-- The data members of the class `Renderer`. -/
structure Renderer where
  grid : List (List Cell)
  width : Int
  height : Int
  cursor_x : Int
  cursor_y : Int
  current_style : Cell
deriving DecidableEq, Repr

/-- Reduction of an integer to the range of a 32-bit `int` (two's complement). -/
def wrap32 (x : Int) : Int := (x + 2147483648) % 4294967296 - 2147483648

/-- Conversion of an `int` to `uint32_t`. -/
def toU32 (x : Int) : Nat := (x % 4294967296).toNat

/-- The element `grid[y][x]`, read with a default outside the vectors. -/
def getCell (grid : List (List Cell)) (x y : Int) : Cell :=
  if 0 ≤ x ∧ 0 ≤ y then ((grid.getD y.toNat []).getD x.toNat defaultCell) else defaultCell

/-- The assignment `grid[y][x] = cell`. -/
def setCell (grid : List (List Cell)) (x y : Int) (cell : Cell) : List (List Cell) :=
  if 0 ≤ x ∧ 0 ≤ y then grid.set y.toNat ((grid.getD y.toNat []).set x.toNat cell) else grid

/-- A grid of `h` rows of `w` default cells, as built by `resize` on the vectors. -/
def blankGrid (w h : Int) : List (List Cell) :=
  List.replicate h.toNat (List.replicate w.toNat defaultCell)

/-! ## Constructor, resize, clear, ensureValidCursor -/

/-- The constructor `Renderer::Renderer(int w, int h)`. -/
def Renderer.new (w h : Int) : Renderer :=
  { grid := blankGrid w h
    width := w
    height := h
    cursor_x := 0
    cursor_y := 0
    current_style :=
      { ch := 0x20, bold := false, italic := false, underline := false, reverse := false,
        fg_color := 0xCCCCCC, bg_color := 0x000000, has_fg_color := false,
        has_bg_color := false } }

/-- The member function `Renderer::resize`. -/
def resize (w h : Int) (r : Renderer) : Renderer :=
  { r with width := w, height := h, grid := blankGrid w h, cursor_x := 0, cursor_y := 0 }

/-- The local `empty_cell` of `Renderer::clear`. -/
def empty_cell : Cell :=
  { ch := 0x20, bold := false, italic := false, underline := false, reverse := false,
    fg_color := 0xCCCCCC, bg_color := 0x000000, has_fg_color := false, has_bg_color := false }

/-- The member function `Renderer::clear`: every row is filled with `empty_cell`. -/
def clear (r : Renderer) : Renderer :=
  { r with grid := r.grid.map (fun row => row.map (fun _ => empty_cell)),
           cursor_x := 0, cursor_y := 0 }

/-- The member function `Renderer::ensureValidCursor`. -/
def ensureValidCursor (r : Renderer) : Renderer :=
  { r with cursor_x := max 0 (min r.cursor_x (r.width - 1)),
           cursor_y := max 0 (min r.cursor_y (r.height - 1)) }

/-! ## Colour tables and encoders -/

/-- The static table `colors16` of `ansi256ToRgb`. -/
def colors16 : List Nat :=
  [0x000000, 0x800000, 0x008000, 0x808000, 0x000080, 0x800080, 0x008080, 0xC0C0C0,
   0x808080, 0xFF0000, 0x00FF00, 0xFFFF00, 0x0000FF, 0xFF00FF, 0x00FFFF, 0xFFFFFF]

/-- The read `colors16[color]`: `none` when the index is outside the table. -/
def colors16At (color : Int) : Option Nat :=
  if 0 ≤ color then colors16.get? color.toNat else none

/-- The lambda `component` of `ansi256ToRgb`. -/
def component (val : Nat) : Nat := if val = 0 then 0 else 55 + val * 40

/-- The member function `Renderer::ansi256ToRgb`. A read outside `colors16`
(negative `color`) has no defined value in the source; it is given the value 0 here. -/
def ansi256ToRgb (color : Int) : Nat :=
  if color < 16 then (colors16At color).getD 0
  else if 16 ≤ color ∧ color ≤ 231 then
    let c := (color - 16).toNat
    let r := c / 36
    let g := (c % 36) / 6
    let b := c % 6
    (component r <<< 16) ||| (component g <<< 8) ||| component b
  else if 232 ≤ color ∧ color ≤ 255 then
    let gray := 8 + (color - 232).toNat * 10
    (gray <<< 16) ||| (gray <<< 8) ||| gray
  else 0xCCCCCC

/-- One lowercase hexadecimal digit as an ASCII byte. -/
def hexDigit (d : Nat) : Nat := if d < 10 then 48 + d else 87 + d

/-- The base-16 digits of `v`, most significant first, at least one digit
(what `std::hex` prints); `fuel` bounds the number of digits. -/
def hexDigits : Nat → Nat → List Nat → List Nat
  | 0, _, acc => acc
  | fuel + 1, v, acc =>
    if v / 16 = 0 then hexDigit (v % 16) :: acc
    else hexDigits fuel (v / 16) (hexDigit (v % 16) :: acc)

/-- The member function `Renderer::rgbToHex`: `#`, then the hexadecimal digits of
`rgb & 0xFFFFFF` padded on the left with `0` to width 6. -/
def rgbToHex (rgb : Nat) : List Nat :=
  let ds := hexDigits 8 (rgb &&& 0xFFFFFF) []
  35 :: (List.replicate (6 - ds.length) 48 ++ ds)

/-- The member function `Renderer::utf8FromCodepoint`; `% 256` is the
`static_cast<char>`. -/
def utf8FromCodepoint (cp : Nat) : List Nat :=
  if cp ≤ 0x7F then [cp % 256]
  else if cp ≤ 0x7FF then
    [(0xC0 ||| (cp >>> 6)) % 256, (0x80 ||| (cp &&& 0x3F)) % 256]
  else if cp ≤ 0xFFFF then
    [(0xE0 ||| (cp >>> 12)) % 256, (0x80 ||| ((cp >>> 6) &&& 0x3F)) % 256,
     (0x80 ||| (cp &&& 0x3F)) % 256]
  else if cp ≤ 0x10FFFF then
    [(0xF0 ||| (cp >>> 18)) % 256, (0x80 ||| ((cp >>> 12) &&& 0x3F)) % 256,
     (0x80 ||| ((cp >>> 6) &&& 0x3F)) % 256, (0x80 ||| (cp &&& 0x3F)) % 256]
  else []

/-! ## parseSGR -/

/-- The value stored by `(params[i+2] << 16) | (params[i+3] << 8) | params[i+4]`
into a `uint32_t`: shifts and `|` commute with the reduction modulo 2^32. -/
def rgbFromParams (r g b : Int) : Nat :=
  ((toU32 r <<< 16) ||| (toU32 g <<< 8) ||| toU32 b) % 4294967296

/-- The body of the `for` loop of `parseSGR` at index `i`: the `switch` on
`params[i]`. Returns the amount the body adds to `i` (the `i += 4` and `i += 2` of
the extended colours, otherwise 0) and the new current style. -/
def sgrStep (params : List Int) (i : Nat) (st : Cell) : Nat × Cell :=
  if params.getD i 0 = 0 then
    (0, { st with bold := false, italic := false, underline := false, reverse := false,
                  has_fg_color := false, has_bg_color := false })
  else if params.getD i 0 = 1 then (0, { st with bold := true })
  else if params.getD i 0 = 3 then (0, { st with italic := true })
  else if params.getD i 0 = 4 then (0, { st with underline := true })
  else if params.getD i 0 = 7 then (0, { st with reverse := true })
  else if params.getD i 0 = 22 then (0, { st with bold := false })
  else if params.getD i 0 = 23 then (0, { st with italic := false })
  else if params.getD i 0 = 24 then (0, { st with underline := false })
  else if params.getD i 0 = 27 then (0, { st with reverse := false })
  else if params.getD i 0 = 39 then (0, { st with has_fg_color := false })
  else if params.getD i 0 = 49 then (0, { st with has_bg_color := false })
  else if params.getD i 0 = 38 then
    if i + 1 < params.length then
      if params.getD (i + 1) 0 = 2 ∧ i + 4 < params.length then
        (4, { st with
          fg_color := rgbFromParams (params.getD (i + 2) 0) (params.getD (i + 3) 0)
            (params.getD (i + 4) 0),
          has_fg_color := true })
      else if params.getD (i + 1) 0 = 5 ∧ i + 2 < params.length then
        (2, { st with fg_color := ansi256ToRgb (params.getD (i + 2) 0),
                      has_fg_color := true })
      else (0, st)
    else (0, st)
  else if params.getD i 0 = 48 then
    if i + 1 < params.length then
      if params.getD (i + 1) 0 = 2 ∧ i + 4 < params.length then
        (4, { st with
          bg_color := rgbFromParams (params.getD (i + 2) 0) (params.getD (i + 3) 0)
            (params.getD (i + 4) 0),
          has_bg_color := true })
      else if params.getD (i + 1) 0 = 5 ∧ i + 2 < params.length then
        (2, { st with bg_color := ansi256ToRgb (params.getD (i + 2) 0),
                      has_bg_color := true })
      else (0, st)
    else (0, st)
  else (0, st)

/-- The `for (size_t i = 0; i < params.size(); ++i)` loop of `parseSGR`, started
at index `i`; every iteration increases `i`, so `params.length` is enough fuel. -/
def sgrLoop : Nat → List Int → Nat → Cell → Cell
  | 0, _, _, st => st
  | fuel + 1, params, i, st =>
    if i < params.length then
      sgrLoop fuel params (i + (sgrStep params i st).1 + 1) (sgrStep params i st).2
    else st

/-- The member function `Renderer::parseSGR`. -/
def parseSGR (params : List Int) (r : Renderer) : Renderer :=
  { r with current_style := sgrLoop params.length params 0 r.current_style }

/-! ## parseCSI -/

/-- The predicate `isspace` of the C locale, used by `std::stoi` to skip blanks. -/
def isSpaceByte (b : Nat) : Bool := b == 0x20 || (decide (0x09 ≤ b) && decide (b ≤ 0x0D))

/-- An ASCII decimal digit. -/
def isDigitByte (b : Nat) : Bool := decide (0x30 ≤ b) && decide (b ≤ 0x39)

/-- The number written by a list of ASCII digits. -/
def digitsValue (ds : List Nat) : Nat := ds.foldl (fun a d => a * 10 + (d - 48)) 0

/-- The library function `std::stoi` on a token: blanks are skipped, then an optional
sign and the longest run of digits are read, anything after it is not looked at.
`none` stands for a thrown exception: `std::invalid_argument` when there is no digit,
`std::out_of_range` when the number does not fit an `int`. -/
def stoi (token : List Nat) : Option Int :=
  let t := token.dropWhile isSpaceByte
  let t1 := if t.head? = some 45 ∨ t.head? = some 43 then t.tail else t
  let ds := t1.takeWhile isDigitByte
  if ds = [] then none
  else
    let v : Int := if t.head? = some 45 then -(digitsValue ds : Int) else (digitsValue ds : Int)
    if -2147483648 ≤ v ∧ v ≤ 2147483647 then some v else none

/-- The tokens read by `while (std::getline(ss, token, ';'))`: the pieces between
semicolons, where an empty piece at the very end of the text is not a token.
`acc` holds the bytes of the token being read, last byte first. -/
def getlineTokens : List Nat → List Nat → List (List Nat)
  | [], acc => if acc = [] then [] else [acc.reverse]
  | c :: rest, acc =>
    if c = 59 then acc.reverse :: getlineTokens rest []
    else getlineTokens rest (c :: acc)

/-- The vector `nums` that `parseCSI` builds from the parameter text. -/
def parseParams (params : List Nat) : List Int :=
  let nums := (getlineTokens params []).map
    (fun token => if token ≠ [] then (stoi token).getD 0 else 1)
  if nums = [] then [1] else nums

/-- Positions `x` of a row with `lo ≤ x < hi` receive `Cell()`; `x` is the index of
the head of the list. Embeds `for (x = lo; x < hi; ++x) row[x] = Cell();` for a row
that has all the positions `lo ≤ x < hi`. A position that the row does not have is
skipped here, where the source writes outside the vector (no defined behaviour); in
the loops of `parseCSI` every position exists when the cursor is inside a grid of
the declared extent, see `CursorOk` and `GridOk`. -/
def clearCells (lo hi : Int) : Int → List Cell → List Cell
  | _, [] => []
  | x, c :: cs => (if lo ≤ x ∧ x < hi then defaultCell else c) :: clearCells lo hi (x + 1) cs

/-- Applies `f y` to row `y` of a grid; `y` is the index of the head of the list. -/
def mapRows (f : Int → List Cell → List Cell) : Int → List (List Cell) → List (List Cell)
  | _, [] => []
  | y, row :: rows => f y row :: mapRows f (y + 1) rows

/-- The case `'J'` (Erase in Display) of the `switch` of `parseCSI`, `n0` being
`nums[0]`. The loops `grid[y][x] = Cell()` are written as a map over the rows and
cells that exist: this is the source when the cursor is inside a grid of the declared
extent (`0 ≤ cursor_x < width`, `0 ≤ cursor_y < height`, `height` rows of `width`
cells). On a grid of width or height 0 the source indexes past the vectors, which
has no defined behaviour and is not described by this definition. -/
def eraseInDisplay (n0 : Int) (r : Renderer) : Renderer :=
  if n0 = 0 then
    { r with grid := mapRows (fun y row =>
        if y = r.cursor_y then clearCells r.cursor_x r.width 0 row
        else if r.cursor_y + 1 ≤ y ∧ y < r.height then clearCells 0 r.width 0 row
        else row) 0 r.grid }
  else if n0 = 1 then
    { r with grid := mapRows (fun y row =>
        if 0 ≤ y ∧ y < r.cursor_y then clearCells 0 r.width 0 row
        else if y = r.cursor_y then clearCells 0 (r.cursor_x + 1) 0 row
        else row) 0 r.grid }
  else if n0 = 2 then clear r
  else r

/-- The case `'K'` (Erase in Line) of the `switch` of `parseCSI`, `n0` being
`nums[0]`. The loops `grid[cursor_y][x] = Cell()` are written as a map over the cells
that exist: this is the source when the cursor is inside a grid of the declared
extent. On a grid of width or height 0 the source writes past an empty vector, which
has no defined behaviour and is not described by this definition. -/
def eraseInLine (n0 : Int) (r : Renderer) : Renderer :=
  if n0 = 0 then
    { r with grid := mapRows (fun y row =>
        if y = r.cursor_y then clearCells r.cursor_x r.width 0 row else row) 0 r.grid }
  else if n0 = 1 then
    { r with grid := mapRows (fun y row =>
        if y = r.cursor_y then clearCells 0 (r.cursor_x + 1) 0 row else row) 0 r.grid }
  else if n0 = 2 then
    { r with grid := mapRows (fun y row =>
        if y = r.cursor_y then clearCells 0 r.width 0 row else row) 0 r.grid }
  else r

/-- The `switch (final_byte)` of `parseCSI`, on the parsed vector `nums`
(`nums[0]` exists: `nums` is never empty there). The cases are `'H'`/`'f'`, `'A'`
to `'G'`, `'J'`, `'K'`, `'s'`, `'u'` and `'m'`. -/
def csiDispatch (final_byte : Nat) (nums : List Int) (r : Renderer) : Renderer :=
  if final_byte = 72 ∨ final_byte = 102 then
    ensureValidCursor { r with
      cursor_y := wrap32 ((if nums.length > 0 then nums.getD 0 0 else 1) - 1),
      cursor_x := wrap32 ((if nums.length > 1 then nums.getD 1 0 else 1) - 1) }
  else if final_byte = 65 then
    ensureValidCursor { r with cursor_y := wrap32 (r.cursor_y - nums.getD 0 0) }
  else if final_byte = 66 then
    ensureValidCursor { r with cursor_y := wrap32 (r.cursor_y + nums.getD 0 0) }
  else if final_byte = 67 then
    ensureValidCursor { r with cursor_x := wrap32 (r.cursor_x + nums.getD 0 0) }
  else if final_byte = 68 then
    ensureValidCursor { r with cursor_x := wrap32 (r.cursor_x - nums.getD 0 0) }
  else if final_byte = 69 then
    ensureValidCursor { r with cursor_y := wrap32 (r.cursor_y + nums.getD 0 0), cursor_x := 0 }
  else if final_byte = 70 then
    ensureValidCursor { r with cursor_y := wrap32 (r.cursor_y - nums.getD 0 0), cursor_x := 0 }
  else if final_byte = 71 then
    ensureValidCursor { r with cursor_x := wrap32 (nums.getD 0 0 - 1) }
  else if final_byte = 74 then eraseInDisplay (nums.getD 0 0) r
  else if final_byte = 75 then eraseInLine (nums.getD 0 0) r
  else if final_byte = 115 then r
  else if final_byte = 117 then r
  else if final_byte = 109 then parseSGR nums r
  else r

/-- The member function `Renderer::parseCSI`: `sequence` is the parameter text
followed by the final byte. -/
def parseCSI (sequence : List Nat) (r : Renderer) : Renderer :=
  if sequence = [] then r
  else csiDispatch (sequence.getLastD 0) (parseParams sequence.dropLast) r

/-! ## processSequence -/

/-- The `while` loop that looks for the final byte: `rest` is the text from index
`e` on; the result is the index of the first byte in `0x40..0x7E`, or the length of
the text when there is none. -/
def scanFinal : List Nat → Nat → Nat
  | [], e => e
  | t :: rest, e => if 0x40 ≤ t ∧ t ≤ 0x7E then e else scanFinal rest (e + 1)

/-- The UTF-8 decoder inside `processSequence`, at index `i` of the text `s`:
the pair `(codepoint, utf8_len)`. -/
def decodeUtf8 (s : List Nat) (i : Nat) : Nat × Nat :=
  let ch := s.getD i 0
  if ch &&& 0x80 = 0 then (ch, 1)
  else if ch &&& 0xE0 = 0xC0 then
    if i + 1 < s.length then
      let ch2 := s.getD (i + 1) 0
      if ch2 &&& 0xC0 = 0x80 then (((ch &&& 0x1F) <<< 6) ||| (ch2 &&& 0x3F), 2)
      else (0xFFFD, 1)
    else (0xFFFD, 1)
  else if ch &&& 0xF0 = 0xE0 then
    if i + 2 < s.length then
      let ch2 := s.getD (i + 1) 0
      let ch3 := s.getD (i + 2) 0
      if ch2 &&& 0xC0 = 0x80 ∧ ch3 &&& 0xC0 = 0x80 then
        (((ch &&& 0x0F) <<< 12) ||| ((ch2 &&& 0x3F) <<< 6) ||| (ch3 &&& 0x3F), 3)
      else (0xFFFD, 1)
    else (0xFFFD, 1)
  else if ch &&& 0xF8 = 0xF0 then
    if i + 3 < s.length then
      let ch2 := s.getD (i + 1) 0
      let ch3 := s.getD (i + 2) 0
      let ch4 := s.getD (i + 3) 0
      if ch2 &&& 0xC0 = 0x80 ∧ ch3 &&& 0xC0 = 0x80 ∧ ch4 &&& 0xC0 = 0x80 then
        (((ch &&& 0x07) <<< 18) ||| ((ch2 &&& 0x3F) <<< 12) ||| ((ch3 &&& 0x3F) <<< 6)
          ||| (ch4 &&& 0x3F), 4)
      else (0xFFFD, 1)
    else (0xFFFD, 1)
  else (0xFFFD, 1)

/-- The block "Place the character in the grid" of `processSequence`. -/
def placeChar (codepoint : Nat) (r : Renderer) : Renderer :=
  if 0 ≤ r.cursor_y ∧ r.cursor_y < r.height ∧ 0 ≤ r.cursor_x ∧ r.cursor_x < r.width then
    let r1 : Renderer :=
      { r with grid := setCell r.grid r.cursor_x r.cursor_y { r.current_style with ch := codepoint },
               cursor_x := r.cursor_x + 1 }
    if r1.cursor_x ≥ r1.width then
      ensureValidCursor { r1 with cursor_x := 0, cursor_y := r1.cursor_y + 1 }
    else r1
  else r

/-- The body of the `for` loop of `processSequence` at index `i`. Returns the
index as the body leaves it (before `++i`) and the new renderer. -/
def processStep (s : List Nat) (i : Nat) (r : Renderer) : Nat × Renderer :=
  let ch := s.getD i 0
  if ch = 0x1B ∧ i + 1 < s.length ∧ s.getD (i + 1) 0 = 0x5B then
    let start := i + 2
    let e := scanFinal (s.drop start) start
    if e < s.length then (e, parseCSI ((s.drop start).take (e - start + 1)) r)
    else (i, r)
  else if ch = 0x0A then
    (i, ensureValidCursor { r with cursor_y := r.cursor_y + 1, cursor_x := 0 })
  else if ch = 0x0D then (i, { r with cursor_x := 0 })
  else if ch ≥ 0x20 then (i + ((decodeUtf8 s i).2 - 1), placeChar (decodeUtf8 s i).1 r)
  else (i, r)

/-- The `for (size_t i = 0; i < ansi_text.length(); ++i)` loop of `processSequence`,
started at index `i` and run for at most `fuel` iterations. -/
def processLoop : Nat → List Nat → Nat → Renderer → Renderer
  | 0, _, _, r => r
  | fuel + 1, s, i, r =>
    if i < s.length then
      processLoop fuel s ((processStep s i r).1 + 1) (processStep s i r).2
    else r

/-- The member function `Renderer::processSequence`; every iteration increases the
index, so `s.length` iterations are enough. -/
def processSequence (s : List Nat) (r : Renderer) : Renderer :=
  processLoop s.length s 0 r

/-! ## renderToResoniteHTML -/

/-- The bytes of an ASCII string literal. -/
def ascii (s : String) : List Nat := s.data.map Char.toNat

/-- The inner loop of the search for the last line with content: some cell of the
row at a column below `width` is not a space or has a background colour. -/
def lineHasContent (width : Int) (row : List Cell) : Bool :=
  (row.take width.toNat).any (fun c => c.ch != 0x20 || c.has_bg_color)

/-- The loop `for (int y = height - 1; y >= 0; --y)` with `n` rows left to look at
(the next one is row `n - 1`); `d` is the value `last_content_line` keeps when no
row has content. -/
def scanContent (grid : List (List Cell)) (width : Int) : Nat → Int → Int
  | 0, d => d
  | n + 1, d =>
    if lineHasContent width (grid.getD n []) then (n : Int)
    else scanContent grid width n d

/-- The variable `last_content_line` after the search. -/
def lastContentLine (r : Renderer) : Int :=
  scanContent r.grid r.width r.height.toNat (r.height - 1)

/-- The condition `style_changed`. -/
def styleChanged (cell last_style : Cell) (first_char_in_line : Bool) : Bool :=
  first_char_in_line ||
    (cell.bold != last_style.bold ||
     cell.italic != last_style.italic ||
     cell.underline != last_style.underline ||
     cell.reverse != last_style.reverse ||
     (cell.has_fg_color != last_style.has_fg_color) ||
     (cell.has_bg_color != last_style.has_bg_color) ||
     (cell.has_fg_color && last_style.has_fg_color && cell.fg_color != last_style.fg_color) ||
     (cell.has_bg_color && last_style.has_bg_color && cell.bg_color != last_style.bg_color))

/-- The condition under which a style is opened for a cell. -/
def hasStyle (cell : Cell) : Bool :=
  cell.bold || cell.italic || cell.underline || cell.reverse ||
    cell.has_fg_color || cell.has_bg_color

/-- The opening tags written for a cell, in the order of the source. -/
def openTags (cell : Cell) : List Nat :=
  (if cell.has_fg_color then ascii "<color=" ++ rgbToHex cell.fg_color ++ ascii ">" else []) ++
  (if cell.has_bg_color then ascii "<mark=" ++ rgbToHex cell.bg_color ++ ascii ">" else []) ++
  (if cell.bold then ascii "<b>" else []) ++
  (if cell.italic then ascii "<i>" else []) ++
  (if cell.underline then ascii "<u>" else []) ++
  (if cell.reverse then ascii "<reverse>" else [])

/-- The text written for a cell ("Add the character"). -/
def cellText (cell : Cell) : List Nat :=
  if cell.ch = 0x20 then ascii " " else utf8FromCodepoint cell.ch

/-- The loop over the cells of one row, with the loop-carried variables
`last_style`, `style_open` and `first_char_in_line`, followed by the closing of an
open style at the end of the line. The result is what the row appends to `result`. -/
def renderCells : List Cell → Cell → Bool → Bool → List Nat
  | [], _, style_open, _ => if style_open then ascii "</closeall>" else []
  | cell :: rest, last_style, style_open, first_char_in_line =>
    if styleChanged cell last_style first_char_in_line then
      (if style_open && !first_char_in_line then ascii "</closeall>" else []) ++
      (if hasStyle cell then
        openTags cell ++ cellText cell ++ renderCells rest cell true false
       else cellText cell ++ renderCells rest cell false false)
    else cellText cell ++ renderCells rest last_style style_open first_char_in_line

/-- What one iteration of the loop over `y` appends, the line break apart. -/
def renderRow (width : Int) (row : List Cell) : List Nat :=
  renderCells (row.take width.toNat) defaultCell false true

/-- The loop `for (int y = 0; y <= last_content_line; ++y)` started at row `y`
with `n` rows left to write. -/
def renderRows (grid : List (List Cell)) (width last_content_line : Int) :
    Nat → Int → List Nat
  | 0, _ => []
  | n + 1, y =>
    renderRow width (grid.getD y.toNat []) ++
      (if y < last_content_line then ascii "<br>" else []) ++
      renderRows grid width last_content_line n (y + 1)

/-- The member function `Renderer::renderToResoniteHTML`. -/
def renderToResoniteHTML (r : Renderer) : List Nat :=
  renderRows r.grid r.width (lastContentLine r) (lastContentLine r + 1).toNat 0

end VT

namespace WebSocket

open VT

/-- The test `haystack.find(needle) == 0`. -/
def startsWith (needle haystack : List Nat) : Bool := needle.isPrefixOf haystack

/-- The test `haystack.find(needle) != string::npos`. -/
def containsBytes (needle : List Nat) : List Nat → Bool
  | [] => needle.isPrefixOf []
  | c :: rest => needle.isPrefixOf (c :: rest) || containsBytes needle rest

/-- The function `processToResoniteHTML` of `btop_websocket.cpp`. The global
`vt_renderer` is passed in and returned; `termWidth` and `termHeight` are the values
of `Term::width` and `Term::height`, which are declared outside the sources at hand. -/
def processToResoniteHTML (termWidth termHeight : Int) (ansi_output : List Nat)
    (vt_renderer : Renderer) : List Nat × Renderer :=
  let r1 :=
    if vt_renderer.width ≠ termWidth ∨ vt_renderer.height ≠ termHeight then
      resize termWidth termHeight vt_renderer
    else vt_renderer
  let has_clear :=
    containsBytes (0x1B :: ascii "[2J") ansi_output ||
    containsBytes (0x1B :: ascii "[0J") ansi_output ||
    containsBytes (0x1B :: ascii "[1J") ansi_output
  let starts_with_home :=
    startsWith (0x1B :: ascii "[1;1") ansi_output ||
    startsWith (0x1B :: ascii "[0;0") ansi_output ||
    startsWith (0x1B :: ascii "[;") ansi_output
  let r2 := if has_clear || starts_with_home then clear r1 else r1
  let r3 := processSequence ansi_output r2
  (renderToResoniteHTML r3, r3)

/-- The global `vt_renderer(120, 30)` as constructed at start-up. -/
def vt_renderer0 : Renderer := Renderer.new 120 30

end WebSocket

/-! # Specification-side definitions -/

namespace VT

/-- The bytes of `ESC` followed by an ASCII text, e.g. `esc "[2J"` for `ESC[2J`. -/
def esc (s : String) : List Nat := 0x1B :: ascii s

/-- The renderer has the declared size `w × h` and its cursor lies inside it:
`0 ≤ cursor_x < width` and `0 ≤ cursor_y < height`. -/
def CursorOk (w h : Int) (r : Renderer) : Prop :=
  r.width = w ∧ r.height = h ∧
    0 ≤ r.cursor_x ∧ r.cursor_x < w ∧ 0 ≤ r.cursor_y ∧ r.cursor_y < h

instance (w h : Int) (r : Renderer) : Decidable (CursorOk w h r) := by
  unfold CursorOk
  infer_instance

end VT

namespace WebSocket

open VT

/-- The input of the scenario "Hello, styled":
`ESC[2J`, `ESC[1;1H`, `ESC[31m`, `ABC`, `ESC[0m`. -/
def helloStyled : List Nat :=
  esc "[2J" ++ esc "[1;1H" ++ esc "[31m" ++ ascii "ABC" ++ esc "[0m"

end WebSocket

namespace VT

/-! ## Reference semantics of SGR parameters (specification, section 4.3.1) -/

/-- The effect of one SGR code that is not an extended colour, as the table of the
specification gives it; any code that is not listed leaves the style unchanged. -/
def sgrSimple (code : Int) (st : Cell) : Cell :=
  if code = 0 then
    { st with bold := false, italic := false, underline := false, reverse := false,
              has_fg_color := false, has_bg_color := false }
  else if code = 1 then { st with bold := true }
  else if code = 22 then { st with bold := false }
  else if code = 3 then { st with italic := true }
  else if code = 23 then { st with italic := false }
  else if code = 4 then { st with underline := true }
  else if code = 24 then { st with underline := false }
  else if code = 7 then { st with reverse := true }
  else if code = 27 then { st with reverse := false }
  else if code = 39 then { st with has_fg_color := false }
  else if code = 49 then { st with has_bg_color := false }
  else st

/-- The reference left-to-right fold of the SGR table: `38;5;N` and `48;5;N` set the
foreground or background to `ansi256ToRgb N` and consume 2 more parameters,
`38;2;R;G;B` and `48;2;R;G;B` set it to `R*65536 + G*256 + B` and consume 4 more;
after a truncated extended colour the remaining parameters are ignored. -/
def sgrRef : List Int → Cell → Cell
  | [], st => st
  | code :: rest, st =>
    if code = 38 then
      match rest with
      | m :: n :: rest2 =>
        if m = 5 then sgrRef rest2 { st with fg_color := ansi256ToRgb n, has_fg_color := true }
        else
          match rest2 with
          | g :: b :: rest4 =>
            if m = 2 then
              sgrRef rest4
                { st with fg_color := (n * 65536 + g * 256 + b).toNat, has_fg_color := true }
            else st
          | _ => st
      | _ => st
    else if code = 48 then
      match rest with
      | m :: n :: rest2 =>
        if m = 5 then sgrRef rest2 { st with bg_color := ansi256ToRgb n, has_bg_color := true }
        else
          match rest2 with
          | g :: b :: rest4 =>
            if m = 2 then
              sgrRef rest4
                { st with bg_color := (n * 65536 + g * 256 + b).toNat, has_bg_color := true }
            else st
          | _ => st
      | _ => st
    else sgrRef rest (sgrSimple code st)

/-- A value between 0 and 255. -/
def isByteParam (n : Int) : Bool := decide (0 ≤ n) && decide (n ≤ 255)

/-- Every 38 or 48 that stands at the place of a code is followed by a complete
sub-sequence: `5;N` with `0 ≤ N ≤ 255`, or `2;R;G;B` with `R`, `G`, `B` in `0..255`. -/
def sgrComplete : List Int → Bool
  | [] => true
  | code :: rest =>
    if code = 38 ∨ code = 48 then
      match rest with
      | m :: n :: rest2 =>
        if m = 5 then isByteParam n && sgrComplete rest2
        else
          match rest2 with
          | g :: b :: rest4 =>
            decide (m = 2) && isByteParam n && isByteParam g && isByteParam b &&
              sgrComplete rest4
          | _ => false
      | _ => false
    else sgrComplete rest

/-- The parameters after a 38 or 48 are an incomplete sub-sequence: nothing at all,
a `2` followed by fewer than three values, or a `5` followed by no value. -/
def sgrTruncated : List Int → Bool
  | [] => true
  | m :: rest => (decide (m = 2) && decide (rest.length < 3)) ||
      (decide (m = 5) && decide (rest.length < 1))

end VT

namespace VT

/-- The grid has the declared extent: `h` rows of `w` cells each. -/
def GridOk (w h : Int) (grid : List (List Cell)) : Prop :=
  grid.length = h.toNat ∧ ∀ row ∈ grid, row.length = w.toNat

instance (w h : Int) (grid : List (List Cell)) : Decidable (GridOk w h grid) := by
  unfold GridOk
  infer_instance

end VT

namespace VT

/-! ## UTF-8 (specification, section 4.2) -/

/-- A continuation byte `10xxxxxx`. -/
def isContByte (c : Nat) : Bool := decide (0x80 ≤ c) && decide (c ≤ 0xBF)

/-- The byte at index `i` of `s` is an invalid lead byte (`0x80..0xBF` or
`0xF8..0xFF`), or the lead byte of a 2-, 3- or 4-byte sequence that is cut by the end
of the text or whose following bytes are not all continuation bytes. -/
def invalidUtf8At (s : List Nat) (i : Nat) : Bool :=
  (decide (0x80 ≤ s.getD i 0) && decide (s.getD i 0 ≤ 0xBF)) ||
  (decide (0xF8 ≤ s.getD i 0) && decide (s.getD i 0 ≤ 0xFF)) ||
  (decide (0xC0 ≤ s.getD i 0) && decide (s.getD i 0 ≤ 0xDF) &&
    !(decide (i + 1 < s.length) && isContByte (s.getD (i + 1) 0))) ||
  (decide (0xE0 ≤ s.getD i 0) && decide (s.getD i 0 ≤ 0xEF) &&
    !(decide (i + 2 < s.length) && isContByte (s.getD (i + 1) 0) &&
      isContByte (s.getD (i + 2) 0))) ||
  (decide (0xF0 ≤ s.getD i 0) && decide (s.getD i 0 ≤ 0xF7) &&
    !(decide (i + 3 < s.length) && isContByte (s.getD (i + 1) 0) &&
      isContByte (s.getD (i + 2) 0) && isContByte (s.getD (i + 3) 0)))

/-- The length of the well-formed UTF-8 sequence that starts at index `i` of `s` and
encodes, in shortest form, a Unicode scalar value of at least U+0020 (the byte ranges
of RFC 3629, section 4, with the one-byte range cut at `0x20`); 0 when there is
none. -/
def utf8ItemLength (s : List Nat) (i : Nat) : Nat :=
  if i < s.length ∧ 0x20 ≤ s.getD i 0 ∧ s.getD i 0 ≤ 0x7F then 1
  else if i + 1 < s.length ∧ 0xC2 ≤ s.getD i 0 ∧ s.getD i 0 ≤ 0xDF ∧
      isContByte (s.getD (i + 1) 0) = true then 2
  else if i + 2 < s.length ∧ 0xE0 ≤ s.getD i 0 ∧ s.getD i 0 ≤ 0xEF ∧
      isContByte (s.getD (i + 1) 0) = true ∧ isContByte (s.getD (i + 2) 0) = true ∧
      (s.getD i 0 = 0xE0 → 0xA0 ≤ s.getD (i + 1) 0) ∧
      (s.getD i 0 = 0xED → s.getD (i + 1) 0 ≤ 0x9F) then 3
  else if i + 3 < s.length ∧ 0xF0 ≤ s.getD i 0 ∧ s.getD i 0 ≤ 0xF4 ∧
      isContByte (s.getD (i + 1) 0) = true ∧ isContByte (s.getD (i + 2) 0) = true ∧
      isContByte (s.getD (i + 3) 0) = true ∧
      (s.getD i 0 = 0xF0 → 0x90 ≤ s.getD (i + 1) 0) ∧
      (s.getD i 0 = 0xF4 → s.getD (i + 1) 0 ≤ 0x8F) then 4
  else 0

/-- From index `i` on, `s` is a concatenation of well-formed sequences in the sense of
`utf8ItemLength`; `fuel` bounds the number of sequences. -/
def validUtf8From : Nat → List Nat → Nat → Bool
  | 0, s, i => decide (s.length ≤ i)
  | fuel + 1, s, i =>
    if s.length ≤ i then true
    else decide (utf8ItemLength s i ≠ 0) && validUtf8From fuel s (i + utf8ItemLength s i)

/-- Well-formed UTF-8 text without control characters: a concatenation of
shortest-form encodings of Unicode scalar values that are all at least U+0020. -/
def validUtf8Text (s : List Nat) : Bool := validUtf8From s.length s 0

/-- A Unicode scalar value: at most U+10FFFF and not a surrogate. -/
def isScalar (cp : Nat) : Bool := decide (cp ≤ 0x10FFFF) && !(decide (0xD800 ≤ cp) && decide (cp ≤ 0xDFFF))

/-- The codepoints that the decoder inside `processSequence` reads from a text
without control characters, from index `i` on: the decoder is applied at `i`, its
codepoint is kept, and the index advances by its `utf8_len`
(`i += utf8_len - 1` and the `++i` of the loop). -/
def decodeText : Nat → List Nat → Nat → List Nat
  | 0, _, _ => []
  | fuel + 1, s, i =>
    if i < s.length then
      (decodeUtf8 s i).1 :: decodeText fuel s (i + ((decodeUtf8 s i).2 - 1) + 1)
    else []

/-- The decoder of `processSequence` with the masks and shifts written as
comparisons, remainders and products (equal to `decodeUtf8` on bytes). -/
def decodeArith (s : List Nat) (i : Nat) : Nat × Nat :=
  if s.getD i 0 < 0x80 then (s.getD i 0, 1)
  else if 0xC0 ≤ s.getD i 0 ∧ s.getD i 0 ≤ 0xDF then
    if i + 1 < s.length then
      if isContByte (s.getD (i + 1) 0) = true then
        (s.getD i 0 % 32 * 64 + s.getD (i + 1) 0 % 64, 2)
      else (0xFFFD, 1)
    else (0xFFFD, 1)
  else if 0xE0 ≤ s.getD i 0 ∧ s.getD i 0 ≤ 0xEF then
    if i + 2 < s.length then
      if isContByte (s.getD (i + 1) 0) = true ∧ isContByte (s.getD (i + 2) 0) = true then
        (s.getD i 0 % 16 * 4096 + s.getD (i + 1) 0 % 64 * 64 + s.getD (i + 2) 0 % 64, 3)
      else (0xFFFD, 1)
    else (0xFFFD, 1)
  else if 0xF0 ≤ s.getD i 0 ∧ s.getD i 0 ≤ 0xF7 then
    if i + 3 < s.length then
      if isContByte (s.getD (i + 1) 0) = true ∧ isContByte (s.getD (i + 2) 0) = true ∧
          isContByte (s.getD (i + 3) 0) = true then
        (s.getD i 0 % 8 * 262144 + s.getD (i + 1) 0 % 64 * 4096 +
          s.getD (i + 2) 0 % 64 * 64 + s.getD (i + 3) 0 % 64, 4)
      else (0xFFFD, 1)
    else (0xFFFD, 1)
  else (0xFFFD, 1)

/-- The encoder `utf8FromCodepoint` with the masks and shifts written as quotients
and remainders (equal to `utf8FromCodepoint`). -/
def encodeArith (cp : Nat) : List Nat :=
  if cp ≤ 0x7F then [cp]
  else if cp ≤ 0x7FF then [0xC0 + cp / 64, 0x80 + cp % 64]
  else if cp ≤ 0xFFFF then [0xE0 + cp / 4096, 0x80 + cp / 64 % 64, 0x80 + cp % 64]
  else if cp ≤ 0x10FFFF then
    [0xF0 + cp / 262144, 0x80 + cp / 4096 % 64, 0x80 + cp / 64 % 64, 0x80 + cp % 64]
  else []

end VT

namespace VT

/-- The renderer `q` is `r` with exactly the cells of `region` reset to the default
`Cell` on a `w × h` grid: size, cursor and current style are those of `r`, the grid
keeps its extent, a cell of the region equals `Cell()` and every other cell is the
cell of `r`. -/
def ErasedTo (w h : Int) (region : Int → Int → Prop) [∀ x y, Decidable (region x y)]
    (r q : Renderer) : Prop :=
  q.width = r.width ∧ q.height = r.height ∧
  q.cursor_x = r.cursor_x ∧ q.cursor_y = r.cursor_y ∧
  q.current_style = r.current_style ∧ GridOk w h q.grid ∧
  ∀ x y : Int, 0 ≤ x → x < w → 0 ≤ y → y < h →
    getCell q.grid x y = if region x y then defaultCell else getCell r.grid x y

end VT

namespace VT

/-! ## Colours (specification, sections on the 256-colour palette and hex form) -/


/-- The system-16 palette of the specification, as (red, green, blue). -/
def system16 : List (Nat × Nat × Nat) :=
  [(0x00, 0x00, 0x00), (0x80, 0x00, 0x00), (0x00, 0x80, 0x00), (0x80, 0x80, 0x00),
   (0x00, 0x00, 0x80), (0x80, 0x00, 0x80), (0x00, 0x80, 0x80), (0xc0, 0xc0, 0xc0),
   (0x80, 0x80, 0x80), (0xff, 0x00, 0x00), (0x00, 0xff, 0x00), (0xff, 0xff, 0x00),
   (0x00, 0x00, 0xff), (0xff, 0x00, 0xff), (0x00, 0xff, 0xff), (0xff, 0xff, 0xff)]

/-- The level of a colour-cube coordinate: `f(0) = 0`, `f(x) = 55 + 40x` otherwise. -/
def cubeLevel (x : Nat) : Nat := if x = 0 then 0 else 55 + 40 * x

/-- The (red, green, blue) channels of colour `n` in the ANSI 256-colour definition. -/
def ansi256Channels (n : Nat) : Nat × Nat × Nat :=
  if n ≤ 15 then system16.getD n (0, 0, 0)
  else if n ≤ 231 then
    (cubeLevel ((n - 16) / 36), cubeLevel ((n - 16) % 36 / 6), cubeLevel ((n - 16) % 6))
  else (8 + 10 * (n - 232), 8 + 10 * (n - 232), 8 + 10 * (n - 232))

/-- The number `0xRRGGBB` made of three channels. -/
def packRgb (c : Nat × Nat × Nat) : Nat := c.1 * 65536 + c.2.1 * 256 + c.2.2

/-- The six hexadecimal digits of a number below 2^24, most significant first. -/
def sixHexDigits (v : Nat) : List Nat :=
  [v / 1048576 % 16, v / 65536 % 16, v / 4096 % 16, v / 256 % 16, v / 16 % 16, v % 16]

/-- A byte that is a lowercase hexadecimal digit, `0`..`9` or `a`..`f`. -/
def isLowerHex (b : Nat) : Bool :=
  (decide (48 ≤ b) && decide (b ≤ 57)) || (decide (97 ≤ b) && decide (b ≤ 102))

/-- The ASCII character of a hexadecimal digit value, lowercase. -/
def lowerHexChar (d : Nat) : Nat := (ascii "0123456789abcdef").getD d 0

end VT

namespace VT

/-! ## Rows with content (specification, trimming of trailing rows) -/

/-- A row has content when some cell of it is not U+0020 or has its background
colour flag set. -/
def rowHasContent (row : List Cell) : Bool :=
  row.any (fun c => c.ch != 0x20 || c.has_bg_color)

/-- A renderer of two columns and three rows: row 1 holds a space with a background
colour, row 2 a bold space with a foreground colour. -/
def trimExample : Renderer :=
  { grid := [[defaultCell, defaultCell],
             [{ defaultCell with has_bg_color := true, bg_color := 0x0000FF }, defaultCell],
             [{ defaultCell with bold := true, has_fg_color := true, fg_color := 0xFF0000 },
              defaultCell]]
    width := 2
    height := 3
    cursor_x := 0
    cursor_y := 0
    current_style := defaultCell }

end VT

namespace VT

/-! ## Extents and full-redraw detection (specification side) -/

end VT

namespace WebSocket

open VT

/-- The condition of the full-redraw detection: the text contains `ESC[2J`, `ESC[0J`
or `ESC[1J`, or begins with one of the home-cursor prefixes `ESC[1;1`, `ESC[0;0`,
`ESC[;`. -/
def triggersFullRedraw (s : List Nat) : Bool :=
  (containsBytes (esc "[2J") s || containsBytes (esc "[0J") s || containsBytes (esc "[1J") s) ||
  (startsWith (esc "[1;1") s || startsWith (esc "[0;0") s || startsWith (esc "[;") s)

end WebSocket

namespace WebSocket

open VT

/-! ## Frames (`sendFrame`, `parseFrame`) -/

/-- The bytes pushed by the loop
`for (int i = 7; i >= 0; i--) frame.push_back((uint8_t)(payload_len >> (i * 8)))`. -/
def pushLength8 (payload_len : Nat) : List Nat :=
  [7, 6, 5, 4, 3, 2, 1, 0].map (fun i => (payload_len >>> (i * 8)) % 256)

/-- The vector `frame` that `sendFrame` builds from `data`; `payload_len` is a
`size_t` of 64 bits, `% 256` is the cast to `uint8_t`. -/
def frameOf (data : List Nat) : List Nat :=
  let payload_len := data.length
  [0x81] ++
    (if payload_len < 126 then [payload_len % 256]
     else if payload_len < 65536 then
       [126, (payload_len >>> 8) % 256, (payload_len &&& 0xFF) % 256]
     else 127 :: pushLength8 payload_len) ++
    data

/-- The bytes that the call `send(client_socket, (char*)frame.data(),
(int)frame.size(), 0)` offers to the socket: the first `(int)frame.size()` bytes of
the frame, the cast being the reduction to 32 bits; with a negative length nothing
is offered. -/
def sentBytes (data : List Nat) : List Nat :=
  (frameOf data).take (wrap32 ((frameOf data).length : Int)).toNat

/-- The function `sendFrame`: its result, `bytes_sent` being the value that `send`
returns. -/
def sendFrame (bytes_sent : Int) (data : List Nat) : Bool :=
  bytes_sent == wrap32 ((frameOf data).length : Int)

/-- The loop `for (int i = 0; i < 8; i++) payload_len = (payload_len << 8) |
(uint8_t)data[offset + i]` of `parseFrame`, on a `uint64_t`. -/
def readLength8 (data : List Nat) (offset : Nat) : Nat :=
  (List.range 8).foldl
    (fun payload_len i => ((payload_len <<< 8) % 18446744073709551616) ||| data.getD (offset + i) 0)
    0

/-- The function `parseFrame`. `payload_len` is a `uint64_t` and `offset` a `size_t`
of 64 bits, so `offset + payload_len` is reduced modulo 2^64; `substr` is `drop`
followed by `take`. -/
def parseFrame (data : List Nat) : List Nat :=
  if data.length < 2 then []
  else
    let second_byte := data.getD 1 0
    let masked : Bool := (second_byte &&& 0x80) != 0
    let len7 := second_byte &&& 0x7F
    if len7 = 126 ∧ data.length < 2 + 2 then []
    else if len7 = 127 ∧ data.length < 2 + 8 then []
    else
      let payload_len :=
        if len7 = 126 then (data.getD 2 0 <<< 8) ||| data.getD (2 + 1) 0
        else if len7 = 127 then readLength8 data 2
        else len7
      let offset := if len7 = 126 then 2 + 2 else if len7 = 127 then 2 + 8 else 2
      if masked = true ∧ data.length < offset + 4 then []
      else
        let offset2 := if masked = true then offset + 4 else offset
        if data.length < (offset2 + payload_len) % 18446744073709551616 then []
        else (data.drop offset2).take payload_len

end WebSocket

namespace WebSocket

/-! ## Frames of RFC 6455 (specification, frame codec) -/

/-- The `k` bytes of `n` in big-endian order, most significant first. -/
def bigEndian : Nat → Nat → List Nat
  | 0, _ => []
  | k + 1, n => (n / 256 ^ k % 256) :: bigEndian k n

/-- The number written by a list of bytes in big-endian order. -/
def fromBigEndian (bs : List Nat) : Nat := bs.foldl (fun a b => a * 256 + b) 0

/-- The length field of a frame without mask for a payload of `n` bytes. -/
def wsLengthField (n : Nat) : List Nat :=
  if n < 126 then [n]
  else if n < 65536 then 0x7E :: bigEndian 2 n
  else 0x7F :: bigEndian 8 n

/-- A complete frame with the MASK bit set: first byte `b0`, the length field of the
payload with bit 7 of its first byte set, the masking key, the payload bytes as they
are on the wire. -/
def maskedFrame (b0 : Nat) (key p : List Nat) : List Nat :=
  b0 :: ((wsLengthField p.length).headD 0 + 0x80) :: (wsLengthField p.length).tail ++ key ++ p

/-- The payload with byte `i` combined by XOR with byte `i mod 4` of the key. -/
def xorMask (key p : List Nat) : List Nat :=
  (List.range p.length).map (fun i => p.getD i 0 ^^^ key.getD (i % 4) 0)

/-- The masking key and the masked payload of the frame `81 85 37 fa 21 3d 7f 9f 4d
51 58`, which carries the text `Hello`. -/
def helloKey : List Nat := [0x37, 0xfa, 0x21, 0x3d]

/-- The payload bytes of that frame as they are on the wire. -/
def helloMasked : List Nat := [0x7f, 0x9f, 0x4d, 0x51, 0x58]

end WebSocket

namespace WebSocket

open VT

/-! ## base64Encode -/

/-- The constant `chars` of `base64Encode`. -/
def chars : List Nat :=
  ascii "ABCDEFGHIJKLMNOPQRSTUVWXYZabcdefghijklmnopqrstuvwxyz0123456789+/"

/-- The expression `chars[v & 0x3F]` for an `int` `v`: the low six bits of the two's
complement representation of `v` are `v mod 64`. -/
def charsAt (v : Int) : Nat := chars.getD (v % 64).toNat 0

/-- The loop `while (valb >= 0) { result.push_back(chars[(val >> valb) & 0x3F]);
valb -= 6; }`; `>>` on an `int` is the arithmetic shift. Returns `valb` and `result`. -/
def emitLoop : Nat → Int → Int → List Nat → Int × List Nat
  | 0, _, valb, result => (valb, result)
  | fuel + 1, val, valb, result =>
    if valb ≥ 0 then emitLoop fuel val (valb - 6) (result ++ [charsAt (val >>> valb.toNat)])
    else (valb, result)

/-- The loop `for (unsigned char c : input)` of `base64Encode`, with the variables
`val`, `valb` and `result`; `val` is an `int` of 32 bits, so `(val << 8) + c` is
reduced by `wrap32`. The inner loop runs `valb / 6 + 1` times. -/
def encodeLoop : List Nat → Int → Int → List Nat → Int × Int × List Nat
  | [], val, valb, result => (val, valb, result)
  | c :: rest, val, valb, result =>
    encodeLoop rest (wrap32 (wrap32 (val * 256) + (c : Int)))
      (emitLoop ((valb + 8) / 6 + 1).toNat (wrap32 (wrap32 (val * 256) + (c : Int)))
        (valb + 8) result).1
      (emitLoop ((valb + 8) / 6 + 1).toNat (wrap32 (wrap32 (val * 256) + (c : Int)))
        (valb + 8) result).2

/-- The loop `while (result.size() % 4) result.push_back('=')`. -/
def padLoop : Nat → List Nat → List Nat
  | 0, result => result
  | fuel + 1, result =>
    if result.length % 4 ≠ 0 then padLoop fuel (result ++ [61]) else result

/-- The statements of `base64Encode` after the `for` loop. -/
def encodeEnd (st : Int × Int × List Nat) : List Nat :=
  padLoop 3
    (if st.2.1 > -6 then
      st.2.2 ++ [charsAt (wrap32 (st.1 * 256) >>> (st.2.1 + 8).toNat)]
     else st.2.2)

/-- The function `base64Encode`. -/
def base64Encode (input : List Nat) : List Nat :=
  encodeEnd (encodeLoop input 0 (-6) [])

end WebSocket

namespace WebSocket

/-! ## Base64 of RFC 4648 (specification) -/

/-- The character of a 6-bit value in the Base64 alphabet: `A`..`Z`, `a`..`z`,
`0`..`9`, `+`, `/`. -/
def base64Alphabet (v : Nat) : Nat :=
  if v < 26 then 65 + v
  else if v < 52 then 97 + (v - 26)
  else if v < 62 then 48 + (v - 52)
  else if v = 62 then 43
  else 47

/-- The 6-bit value of a character of the Base64 alphabet. -/
def base64Value (ch : Nat) : Option Nat :=
  if 65 ≤ ch ∧ ch ≤ 90 then some (ch - 65)
  else if 97 ≤ ch ∧ ch ≤ 122 then some (ch - 97 + 26)
  else if 48 ≤ ch ∧ ch ≤ 57 then some (ch - 48 + 52)
  else if ch = 43 then some 62
  else if ch = 47 then some 63
  else none

/-- The standard Base64 encoding with `=` padding: three bytes give four characters,
a last group of one or two bytes gives two or three characters and padding. -/
def base64Ref : List Nat → List Nat
  | [] => []
  | [a] => [base64Alphabet (a / 4), base64Alphabet (a % 4 * 16), 61, 61]
  | [a, b] =>
    [base64Alphabet (a / 4), base64Alphabet (a % 4 * 16 + b / 16),
     base64Alphabet (b % 16 * 4), 61]
  | a :: b :: c :: rest =>
    base64Alphabet (a / 4) :: base64Alphabet (a % 4 * 16 + b / 16) ::
      base64Alphabet (b % 16 * 4 + c / 64) :: base64Alphabet (c % 64) :: base64Ref rest

/-- A standard Base64 decoder: groups of four characters give three bytes, a last
group ending in `=` or `==` gives two bytes or one; `none` on anything else. -/
def base64Decode : List Nat → Option (List Nat)
  | [] => some []
  | c1 :: c2 :: c3 :: c4 :: rest =>
    if c3 = 61 ∧ c4 = 61 ∧ rest = [] then
      match base64Value c1, base64Value c2 with
      | some v1, some v2 => some [(v1 * 4 + v2 / 16) % 256]
      | _, _ => none
    else if c4 = 61 ∧ rest = [] then
      match base64Value c1, base64Value c2, base64Value c3 with
      | some v1, some v2, some v3 =>
        some [(v1 * 4 + v2 / 16) % 256, (v2 % 16 * 16 + v3 / 4) % 256]
      | _, _, _ => none
    else
      match base64Value c1, base64Value c2, base64Value c3, base64Value c4,
        base64Decode rest with
      | some v1, some v2, some v3, some v4, some bytes =>
        some ((v1 * 4 + v2 / 16) % 256 :: (v2 % 16 * 16 + v3 / 4) % 256 ::
          (v3 % 4 * 64 + v4) % 256 :: bytes)
      | _, _, _, _, _ => none
  | _ => none

/-- A text of six bytes whose first four bytes already make the accumulator leave
the range of a 32-bit `int`. -/
def wrapSample : List Nat := [0xFF, 0xFE, 0xFD, 0xFC, 0x80, 0x01]

end WebSocket

namespace WebSocket

open VT

/-! ## SHA-1 and the accept key -/

/-- Rotation of a 32-bit word to the left by `n` bits. -/
def rotl32 (n x : Nat) : Nat := ((x <<< n) ||| (x >>> (32 - n))) % 4294967296

/-- The padded message of SHA-1: the message, the byte `0x80`, zero bytes up to 56
modulo 64, and the length of the message in bits as 8 big-endian bytes. -/
def sha1Pad (msg : List Nat) : List Nat :=
  msg ++ [0x80] ++ List.replicate ((119 - msg.length % 64) % 64) 0 ++
    bigEndian 8 (msg.length * 8 % 18446744073709551616)

/-- The 32-bit word made of the four bytes at index `i`, big-endian. -/
def word32 (bs : List Nat) (i : Nat) : Nat :=
  bs.getD i 0 * 16777216 + bs.getD (i + 1) 0 * 65536 + bs.getD (i + 2) 0 * 256 +
    bs.getD (i + 3) 0

/-- The message schedule of SHA-1 extended by `n` words:
`W(t) = ROTL1(W(t-3) xor W(t-8) xor W(t-14) xor W(t-16))`. -/
def sha1Schedule : Nat → List Nat → List Nat
  | 0, w => w
  | n + 1, w =>
    sha1Schedule n
      (w ++ [rotl32 1 (w.getD (w.length - 3) 0 ^^^ w.getD (w.length - 8) 0 ^^^
        w.getD (w.length - 14) 0 ^^^ w.getD (w.length - 16) 0)])

/-- The function `f(t; b, c, d)` of SHA-1: Ch, Parity, Maj, Parity. -/
def sha1F (t b c d : Nat) : Nat :=
  if t < 20 then (b &&& c) ||| ((b ^^^ 0xFFFFFFFF) &&& d)
  else if t < 40 then b ^^^ c ^^^ d
  else if t < 60 then (b &&& c) ||| (b &&& d) ||| (c &&& d)
  else b ^^^ c ^^^ d

/-- The constant `K(t)` of SHA-1. -/
def sha1K (t : Nat) : Nat :=
  if t < 20 then 0x5A827999
  else if t < 40 then 0x6ED9EBA1
  else if t < 60 then 0x8F1BBCDC
  else 0xCA62C1D6

/-- Round `t` of SHA-1 on the working variables `[a, b, c, d, e]`. -/
def sha1Round (w : List Nat) (s : List Nat) (t : Nat) : List Nat :=
  [(rotl32 5 (s.getD 0 0) + sha1F t (s.getD 1 0) (s.getD 2 0) (s.getD 3 0) + s.getD 4 0 +
      sha1K t + w.getD t 0) % 4294967296,
   s.getD 0 0, rotl32 30 (s.getD 1 0), s.getD 2 0, s.getD 3 0]

/-- The hash value after the block of 64 bytes that starts at index `i` of the padded
message. -/
def sha1Block (padded : List Nat) (h : List Nat) (i : Nat) : List Nat :=
  List.zipWith (fun x y => (x + y) % 4294967296) h
    ((List.range 80).foldl
      (sha1Round (sha1Schedule 64 ((List.range 16).map (fun j => word32 padded (i + 4 * j)))))
      h)

/-- Modelled from the spec: the digest that the Windows CryptoAPI computes for
`CALG_SHA1` (`CryptHashData`, `CryptGetHashParam`) is not part of the sources; it is
SHA-1 of FIPS 180, the 20 bytes of the five 32-bit words of the final hash value. -/
def sha1 (msg : List Nat) : List Nat :=
  (((List.range ((sha1Pad msg).length / 64)).foldl
      (fun h k => sha1Block (sha1Pad msg) h (64 * k))
      [0x67452301, 0xEFCDAB89, 0x98BADCFE, 0x10325476, 0xC3D2E1F0]).map
    (bigEndian 4)).flatten

/-- The constant `WS_GUID`. -/
def WS_GUID : List Nat := ascii "258EAFA5-E914-47DA-95CA-C5AB0DC85B11"

/-- The function `sha1Hash`: `api_ok` says that the four calls of the CryptoAPI
succeed; when one fails the function returns the empty string. -/
def sha1Hash (api_ok : Bool) (input : List Nat) : List Nat :=
  if api_ok then sha1 input else []

/-- The function `generateAcceptKey`. -/
def generateAcceptKey (api_ok : Bool) (client_key : List Nat) : List Nat :=
  base64Encode (sha1Hash api_ok (client_key ++ WS_GUID))

/-- The client key of the sample handshake of RFC 6455. -/
def sampleKey : List Nat := ascii "dGhlIHNhbXBsZSBub25jZQ=="

end WebSocket

namespace VT

/-! ## The declared extent (specification, invariant of the grid) -/

end VT

namespace VT

/-! ## Runs of style-equal cells (specification, tag compression) -/

/-- Two styles are equal when the four flags agree, both foreground flags agree (and
the foreground colour agrees when both are set) and likewise for the background. -/
def styleEq (a b : Cell) : Bool :=
  a.bold == b.bold && a.italic == b.italic && a.underline == b.underline &&
  a.reverse == b.reverse &&
  a.has_fg_color == b.has_fg_color &&
  (!(a.has_fg_color && b.has_fg_color) || a.fg_color == b.fg_color) &&
  a.has_bg_color == b.has_bg_color &&
  (!(a.has_bg_color && b.has_bg_color) || a.bg_color == b.bg_color)

/-- The markup of one run: the cell `c` and the cells `run` after it that have its
style. Opening tags and `</closeall>` are written when the style has an attribute. -/
def runMarkup (c : Cell) (run : List Cell) : List Nat :=
  if hasStyle c then
    openTags c ++ (c :: run).flatMap cellText ++ ascii "</closeall>"
  else (c :: run).flatMap cellText

/-- The markup of a row as the concatenation of the markup of its maximal runs of
style-equal cells, left to right; `fuel` bounds the number of runs. -/
def rowMarkup : Nat → List Cell → List Nat
  | 0, _ => []
  | _, [] => []
  | fuel + 1, c :: rest =>
    runMarkup c (rest.takeWhile (styleEq c)) ++ rowMarkup fuel (rest.dropWhile (styleEq c))

/-- A row of five cells: two bold red `A`, a plain `B`, two spaces on blue. -/
def runsExample : List Cell :=
  [{ defaultCell with ch := 65, bold := true, has_fg_color := true, fg_color := 0xFF0000 },
   { defaultCell with ch := 65, bold := true, has_fg_color := true, fg_color := 0xFF0000 },
   { defaultCell with ch := 66 },
   { defaultCell with has_bg_color := true, bg_color := 0x0000FF },
   { defaultCell with has_bg_color := true, bg_color := 0x0000FF, fg_color := 0x123456 }]

end VT

namespace WebSocket

open VT

/-! ## The opening handshake (`extractHeader`, `performHandshake`, `handleClient`) -/

/-- The search of `std::string::find` through `rest`, the text from index `i` on:
the lowest index at which `needle` occurs, `none` for `npos`. -/
def findAt (needle : List Nat) : List Nat → Nat → Option Nat
  | [], i => if needle.isPrefixOf [] then some i else none
  | c :: rest, i =>
    if needle.isPrefixOf (c :: rest) then some i else findAt needle rest (i + 1)

/-- The call `haystack.find(needle, pos)`. -/
def findFrom (haystack needle : List Nat) (pos : Nat) : Option Nat :=
  if pos ≤ haystack.length then findAt needle (haystack.drop pos) pos else none

/-- The function `extractHeader`; `[0x0D, 0x0A]` is the literal `"\r\n"`. -/
def extractHeader (request header_name : List Nat) : List Nat :=
  match findFrom request (header_name ++ ascii ": ") 0 with
  | none => []
  | some pos =>
    match findFrom request [0x0D, 0x0A] (pos + header_name.length + 2) with
    | none => []
    | some e =>
      (request.drop (pos + header_name.length + 2)).take (e - (pos + header_name.length + 2))

/-- The string `response` of `performHandshake`. -/
def handshakeResponse (accept_key : List Nat) : List Nat :=
  ascii "HTTP/1.1 101 Switching Protocols" ++ [0x0D, 0x0A] ++
  ascii "Upgrade: websocket" ++ [0x0D, 0x0A] ++
  ascii "Connection: Upgrade" ++ [0x0D, 0x0A] ++
  ascii "Sec-WebSocket-Accept: " ++ accept_key ++ [0x0D, 0x0A] ++
  [0x0D, 0x0A]

/-- The function `performHandshake`: the bytes offered to `send` (`none` when `send`
is not called) and the result. `bytes_sent` is the value that `send` returns,
`api_ok` says whether the calls of `sha1Hash` succeed; the length passed to `send` is
`(int)response.length()`. -/
def performHandshake (api_ok : Bool) (bytes_sent : Int) (request : List Nat) :
    Option (List Nat) × Bool :=
  if extractHeader request (ascii "Sec-WebSocket-Key") = [] then (none, false)
  else
    (some ((handshakeResponse
        (generateAcceptKey api_ok (extractHeader request (ascii "Sec-WebSocket-Key")))).take
        (wrap32 ((handshakeResponse (generateAcceptKey api_ok
          (extractHeader request (ascii "Sec-WebSocket-Key")))).length : Int)).toNat),
     !(bytes_sent != wrap32 ((handshakeResponse (generateAcceptKey api_ok
          (extractHeader request (ascii "Sec-WebSocket-Key")))).length : Int)))

/-- The struct `Client` (its `buffer` member is never used). -/
structure Client where
  socket : Nat
  connected : Bool
deriving DecidableEq, Repr

/-- The start of `handleClient`, up to the registration of the client: `buffer` holds
the bytes that `recv` wrote, `bytes_received` is its result, and `string
request(buffer)` is the text up to the first zero byte. Returns the vector `clients`
and whether the socket was closed. -/
def handleClientOpen (api_ok : Bool) (bytes_sent : Int) (buffer : List Nat)
    (bytes_received : Int) (client_socket : Nat) (clients : List Client) :
    List Client × Bool :=
  if bytes_received ≤ 0 then (clients, true)
  else if !(performHandshake api_ok bytes_sent
      ((buffer.take bytes_received.toNat).takeWhile (fun b => b != 0))).2 then (clients, true)
  else (clients ++ [{ socket := client_socket, connected := true }], false)

end WebSocket

namespace WebSocket

open VT

/-! ## Sample requests (specification, handshake) -/

/-- The name of the key header. -/
def keyHeader : List Nat := ascii "Sec-WebSocket-Key"

/-- A request whose key header is written in lower case. -/
def lowerCaseRequest : List Nat :=
  ascii "GET / HTTP/1.1\r\nsec-websocket-key: dGhlIHNhbXBsZSBub25jZQ==\r\n\r\n"

/-- A request whose key value has blanks around it. -/
def paddedRequest : List Nat :=
  ascii "GET / HTTP/1.1\r\nSec-WebSocket-Key:   dGhlIHNhbXBsZSBub25jZQ== \r\n\r\n"

/-- The sample request of RFC 6455, shortened to the request line and the key. -/
def sampleRequest : List Nat :=
  ascii "GET /chat HTTP/1.1\r\nSec-WebSocket-Key: dGhlIHNhbXBsZSBub25jZQ==\r\n\r\n"

end WebSocket
namespace WebSocket

open VT

/-! ## broadcast and the threads of the server -/

/-- The `while` loop of `broadcast` over the vector `clients`; `send_result s` is the
value that `send` returns on socket `s`. Returns the calls of `sendFrame` made
(socket and data, in order), the sockets closed, and the vector after the loop:
a record that is not connected is erased, a record whose send fails is closed and
erased, the others are kept. -/
def broadcastLoop (send_result : Nat → Int) (data : List Nat) :
    List Client → List (Nat × List Nat) × List Nat × List Client
  | [] => ([], [], [])
  | c :: rest =>
    if !c.connected then broadcastLoop send_result data rest
    else if !sendFrame (send_result c.socket) data then
      ((c.socket, data) :: (broadcastLoop send_result data rest).1,
       c.socket :: (broadcastLoop send_result data rest).2.1,
       (broadcastLoop send_result data rest).2.2)
    else
      ((c.socket, data) :: (broadcastLoop send_result data rest).1,
       (broadcastLoop send_result data rest).2.1,
       c :: (broadcastLoop send_result data rest).2.2)

/-- The function `broadcast`, with the value of `server_running`. -/
def broadcast (server_running : Bool) (send_result : Nat → Int) (data : List Nat)
    (clients : List Client) : List (Nat × List Nat) × List Nat × List Client :=
  if !server_running then ([], [], clients)
  else broadcastLoop send_result data clients

end WebSocket
namespace WebSocket

/-! ## The threads of the server on the vector of clients

The vector `clients` is a global of `btop_websocket.cpp` without any lock. The
definitions below follow two threads statement by statement on the shared vector: the
thread that runs the `while` loop of `broadcast`, and a thread that runs the end of
`handleClient` (the statements after the receive loop). Whole statements are
interleaved, which describes the most orderly executions the source can have. -/

/-- A call made on a socket: `sendFrame(socket, data)` by `broadcast`, or
`closesocket(socket)`. -/
inductive Effect where
  | sent (socket : Nat) (data : List Nat)
  | closed (socket : Nat)
deriving DecidableEq, Repr

/-- Where the thread that runs `broadcast` is in its `while` loop, `it` being
`clients.begin() + i`: before the tests `it != clients.end()` and
`!it->connected`; after them, before the call `sendFrame(it->socket, html_data)`; or
after the loop. -/
inductive BroadcastAt where
  | check (i : Nat)
  | send (i : Nat)
  | finished
deriving DecidableEq, Repr

/-- Where a thread that runs `handleClient` is after its receive loop: before the
`find_if` with `it->connected = false`, before `closesocket(client_socket)`, or at
the end. -/
inductive ClientAt where
  | mark
  | close
  | finished
deriving DecidableEq, Repr

/-- The vector `clients`, the calls made on sockets so far (in order), and the place
of each of the two threads. -/
structure Shared where
  clients : List Client
  effects : List Effect
  broadcast_at : BroadcastAt
  client_at : ClientAt
deriving DecidableEq, Repr

/-- The statements `it = find_if(clients.begin(), clients.end(), socket ==
client_socket); if (it != clients.end()) it->connected = false;` of `handleClient`. -/
def markDisconnected (client_socket : Nat) : List Client → List Client
  | [] => []
  | c :: rest =>
    if c.socket = client_socket then { c with connected := false } :: rest
    else c :: markDisconnected client_socket rest

/-- The next statement of the thread in `broadcast`. At `check i`: the loop ends when
`it` is `clients.end()`; a record that is not connected is erased and the loop
continues at the same position; otherwise the thread goes on to the call. At
`send i`: `sendFrame(it->socket, html_data)` is called; when it fails the socket is
closed and the record erased, otherwise `++it`. `send_result s` is the value that
`send` returns on socket `s`. The two threads followed here never shorten the vector
between `check i` and `send i`, so that the record `it` points to exists at
`send i`. -/
def broadcastStep (send_result : Nat → Int) (data : List Nat) (w : Shared) : Shared :=
  match w.broadcast_at with
  | BroadcastAt.check i =>
    match w.clients[i]? with
    | none => { w with broadcast_at := BroadcastAt.finished }
    | some c =>
      if !c.connected then { w with clients := w.clients.eraseIdx i }
      else { w with broadcast_at := BroadcastAt.send i }
  | BroadcastAt.send i =>
    match w.clients[i]? with
    | none => w
    | some c =>
      if !sendFrame (send_result c.socket) data then
        { w with effects := w.effects ++ [Effect.sent c.socket data, Effect.closed c.socket],
                 clients := w.clients.eraseIdx i,
                 broadcast_at := BroadcastAt.check i }
      else
        { w with effects := w.effects ++ [Effect.sent c.socket data],
                 broadcast_at := BroadcastAt.check (i + 1) }
  | BroadcastAt.finished => w

/-- The next statement of the thread at the end of `handleClient(client_socket)`. -/
def clientStep (client_socket : Nat) (w : Shared) : Shared :=
  match w.client_at with
  | ClientAt.mark =>
    { w with clients := markDisconnected client_socket w.clients, client_at := ClientAt.close }
  | ClientAt.close =>
    { w with effects := w.effects ++ [Effect.closed client_socket],
             client_at := ClientAt.finished }
  | ClientAt.finished => w

/-- The thread that executes its next statement. -/
inductive ThreadId where
  | broadcaster
  | clientTask
deriving DecidableEq, Repr

/-- One statement of the given thread; nothing makes a thread wait for the other. -/
def stepThread (send_result : Nat → Int) (data : List Nat) (client_socket : Nat) :
    ThreadId → Shared → Shared
  | ThreadId.broadcaster, w => broadcastStep send_result data w
  | ThreadId.clientTask, w => clientStep client_socket w

/-- The state after a schedule, the list of the threads that step, in order. -/
def runSchedule (send_result : Nat → Int) (data : List Nat) (client_socket : Nat)
    (schedule : List ThreadId) (w : Shared) : Shared :=
  schedule.foldl (fun st t => stepThread send_result data client_socket t st) w

/-- The state in which `broadcast` has passed the test of `server_running` and set
`it = clients.begin()`, and the client thread has left its receive loop. -/
def startOf (clients : List Client) : Shared :=
  { clients := clients, effects := [], broadcast_at := BroadcastAt.check 0,
    client_at := ClientAt.mark }

/-- The calls of `sendFrame` among the calls made. -/
def sendsOf : List Effect → List (Nat × List Nat)
  | [] => []
  | Effect.sent s d :: rest => (s, d) :: sendsOf rest
  | Effect.closed _ :: rest => sendsOf rest

/-- The calls of `closesocket` among the calls made. -/
def closesOf : List Effect → List Nat
  | [] => []
  | Effect.sent _ _ :: rest => closesOf rest
  | Effect.closed s :: rest => s :: closesOf rest

end WebSocket

namespace VT

/-! ## Styles up to the colours that are not set (specification, repeated snapshots) -/

/-- The cell with the colour values that are not set replaced by the defaults: what
the markup of a cell can depend on. -/
def normCell (c : Cell) : Cell :=
  { c with fg_color := if c.has_fg_color then c.fg_color else 0xCCCCCC,
           bg_color := if c.has_bg_color then c.bg_color else 0x000000 }

/-- The same for the current style, whose character is never read. -/
def normStyle (c : Cell) : Cell := { normCell c with ch := 0x20 }

/-- The renderer with every cell and the current style so normalised. -/
def normRenderer (r : Renderer) : Renderer :=
  { r with grid := r.grid.map (fun row => row.map normCell),
           current_style := normStyle r.current_style }

end VT

namespace WebSocket

open VT

end WebSocket

/-! # Theorems -/

namespace VT

/-! ## The cursor invariant -/

/-- A property of both branches of a conditional holds of the conditional. -/
theorem ite_ind {α : Type} (P : α → Prop) (c : Prop) [Decidable c] (a b : α)
    (ha : c → P a) (hb : ¬c → P b) : P (if c then a else b) := by
  split_ifs with hc
  · exact ha hc
  · exact hb hc

theorem ensureValidCursor_ok (w h : Int) (r : Renderer) (hw : 1 ≤ w) (hh : 1 ≤ h)
    (hrw : r.width = w) (hrh : r.height = h) : CursorOk w h (ensureValidCursor r) := by
  subst hrw hrh
  refine ⟨rfl, rfl, ?_⟩
  simp only [ensureValidCursor]
  omega

theorem ensureValidCursor_of_ok (w h : Int) (r : Renderer) (hr : CursorOk w h r) :
    ensureValidCursor r = r := by
  obtain ⟨hrw, hrh, h1, h2, h3, h4⟩ := hr
  have hx : max 0 (min r.cursor_x (r.width - 1)) = r.cursor_x := by omega
  have hy : max 0 (min r.cursor_y (r.height - 1)) = r.cursor_y := by omega
  simp only [ensureValidCursor, hx, hy]

theorem clear_ok (w h : Int) (r : Renderer) (hw : 1 ≤ w) (hh : 1 ≤ h)
    (hrw : r.width = w) (hrh : r.height = h) : CursorOk w h (clear r) := by
  subst hrw hrh
  refine ⟨rfl, rfl, ?_⟩
  simp only [clear]
  omega

theorem eraseInDisplay_ok (w h : Int) (n0 : Int) (r : Renderer)
    (hw : 1 ≤ w) (hh : 1 ≤ h) (hr : CursorOk w h r) :
    CursorOk w h (eraseInDisplay n0 r) := by
  unfold eraseInDisplay
  split_ifs
  · exact hr
  · exact hr
  · exact clear_ok w h r hw hh hr.1 hr.2.1
  · exact hr

theorem eraseInLine_ok (w h : Int) (n0 : Int) (r : Renderer) (hr : CursorOk w h r) :
    CursorOk w h (eraseInLine n0 r) := by
  unfold eraseInLine
  split_ifs <;> exact hr

theorem parseSGR_ok (w h : Int) (nums : List Int) (r : Renderer) (hr : CursorOk w h r) :
    CursorOk w h (parseSGR nums r) := hr

theorem csiDispatch_ok (w h : Int) (fb : Nat) (nums : List Int) (r : Renderer)
    (hw : 1 ≤ w) (hh : 1 ≤ h) (hr : CursorOk w h r) :
    CursorOk w h (csiDispatch fb nums r) := by
  have hrw := hr.1
  have hrh := hr.2.1
  unfold csiDispatch
  repeat' refine ite_ind (CursorOk w h) _ _ _ (fun _ => ?_) (fun _ => ?_)
  all_goals first
    | exact hr
    | exact ensureValidCursor_ok w h _ hw hh hrw hrh
    | exact eraseInDisplay_ok w h _ r hw hh hr
    | exact eraseInLine_ok w h _ r hr
    | exact clear_ok w h _ hw hh hrw hrh

theorem parseCSI_ok (w h : Int) (sequence : List Nat) (r : Renderer)
    (hw : 1 ≤ w) (hh : 1 ≤ h) (hr : CursorOk w h r) :
    CursorOk w h (parseCSI sequence r) := by
  unfold parseCSI
  split_ifs
  · exact hr
  · exact csiDispatch_ok w h _ _ r hw hh hr

theorem placeChar_ok (w h : Int) (cp : Nat) (r : Renderer)
    (hw : 1 ≤ w) (hh : 1 ≤ h) (hr : CursorOk w h r) :
    CursorOk w h (placeChar cp r) := by
  have hrw := hr.1
  have hrh := hr.2.1
  unfold placeChar
  dsimp only
  split_ifs with h1 h2
  · exact ensureValidCursor_ok w h _ hw hh hrw hrh
  · obtain ⟨_, _, h3, h4, h5, h6⟩ := hr
    simp only [ge_iff_le, not_le] at h2
    exact ⟨hrw, hrh, by show 0 ≤ r.cursor_x + 1; omega, by rw [← hrw]; exact h2, h5, h6⟩
  · exact hr

theorem processStep_ok (w h : Int) (s : List Nat) (i : Nat) (r : Renderer)
    (hw : 1 ≤ w) (hh : 1 ≤ h) (hr : CursorOk w h r) :
    CursorOk w h (processStep s i r).2 := by
  have hrw := hr.1
  have hrh := hr.2.1
  unfold processStep
  dsimp only
  split_ifs
  · exact parseCSI_ok w h _ r hw hh hr
  · exact hr
  · exact ensureValidCursor_ok w h _ hw hh hrw hrh
  · obtain ⟨_, _, h3, h4, h5, h6⟩ := hr
    exact ⟨hrw, hrh, le_refl 0, by show (0 : Int) < w; omega, h5, h6⟩
  · exact placeChar_ok w h _ r hw hh hr
  · exact hr

theorem processLoop_ok (w h : Int) (s : List Nat) (hw : 1 ≤ w) (hh : 1 ≤ h) :
    ∀ (fuel i : Nat) (r : Renderer), CursorOk w h r → CursorOk w h (processLoop fuel s i r) := by
  intro fuel
  induction fuel with
  | zero => intro i r hr; exact hr
  | succ n ih =>
    intro i r hr
    unfold processLoop
    split_ifs
    · exact ih _ _ (processStep_ok w h s i r hw hh hr)
    · exact hr

end VT

namespace VT

/-- C1: for every renderer with width and height at least 1 whose cursor is in
bounds and every byte string `s`, each single iteration of the loop of
`processSequence` (a CSI operation, a line feed, a printed character, ...) keeps
`0 ≤ cursor_x < width` and `0 ≤ cursor_y < height`, so does every intermediate
state of the loop (the state after `fuel` iterations), and so does the state
after `processSequence s`; width and height themselves never change. -/
theorem C1_cursor_in_bounds (r : Renderer) (s : List Nat)
    (hw : 1 ≤ r.width) (hh : 1 ≤ r.height)
    (hx : 0 ≤ r.cursor_x ∧ r.cursor_x < r.width)
    (hy : 0 ≤ r.cursor_y ∧ r.cursor_y < r.height) :
    (∀ (i : Nat) (q : Renderer), CursorOk r.width r.height q →
        CursorOk r.width r.height (processStep s i q).2) ∧
    (∀ fuel : Nat, CursorOk r.width r.height (processLoop fuel s 0 r)) ∧
    CursorOk r.width r.height (processSequence s r) := by
  have hr : CursorOk r.width r.height r := ⟨rfl, rfl, hx.1, hx.2, hy.1, hy.2⟩
  exact ⟨fun i q hq => processStep_ok _ _ s i q hw hh hq,
    fun fuel => processLoop_ok _ _ s hw hh fuel 0 r hr,
    processLoop_ok _ _ s hw hh s.length 0 r hr⟩

/-- Witness for C1: on an 80×24 grid the cursor is in bounds after
`ESC[999;999H*` followed by a line feed and `ESC[5A`. -/
theorem C1_cursor_in_bounds_witness :
    CursorOk 80 24
      (processSequence (esc "[999;999H" ++ ascii "*" ++ [0x0A] ++ esc "[5A")
        (Renderer.new 80 24)) :=
  (C1_cursor_in_bounds (Renderer.new 80 24)
    (esc "[999;999H" ++ ascii "*" ++ [0x0A] ++ esc "[5A")
    (by decide) (by decide) (by decide) (by decide)).2.2

end VT

namespace WebSocket

open VT

/-- C2, as stated, fails: from the freshly constructed 120×30 renderer (terminal size
120×30) the markup returned for "Hello, styled" is not
`<color=#800000>ABC</closeall>`. -/
theorem C2_hello_styled_counterexample :
    (processToResoniteHTML 120 30 helloStyled vt_renderer0).1
      ≠ ascii "<color=#800000>ABC</closeall>" := by
  decide!

end WebSocket

namespace VT

/-! ## parseSGR against the reference fold -/

/-- A left shift followed by `|||` with a value below the shifted-in zeros is a sum. -/
theorem shiftLeft_or_eq_add (a b k : Nat) (hb : b < 2 ^ k) :
    (a <<< k) ||| b = a * 2 ^ k + b := by
  rw [Nat.shiftLeft_eq, Nat.mul_comm, ← Nat.mul_add_lt_is_or hb]

theorem rgbFromParams_eq (r g b : Int) (hr : isByteParam r = true) (hg : isByteParam g = true)
    (hb : isByteParam b = true) : rgbFromParams r g b = (r * 65536 + g * 256 + b).toNat := by
  simp only [isByteParam, Bool.and_eq_true, decide_eq_true_eq] at hr hg hb
  lift r to ℕ using hr.1
  lift g to ℕ using hg.1
  lift b to ℕ using hb.1
  have h1 : toU32 (r : Int) = r := by unfold toU32; omega
  have h2 : toU32 (g : Int) = g := by unfold toU32; omega
  have h3 : toU32 (b : Int) = b := by unfold toU32; omega
  have hr' : r ≤ 255 := by omega
  have hg' : g ≤ 255 := by omega
  have hb' : b ≤ 255 := by omega
  unfold rgbFromParams
  rw [h1, h2, h3, Nat.or_assoc, shiftLeft_or_eq_add g b 8 (by omega),
    shiftLeft_or_eq_add r (g * 2 ^ 8 + b) 16 (by omega)]
  omega

theorem sgrStep_append (pre l : List Int) (i : Nat) (st : Cell) :
    sgrStep (pre ++ l) (pre.length + i) st = sgrStep l i st := by
  have g0 : (pre ++ l).getD (pre.length + i) 0 = l.getD i 0 := by
    rw [List.getD_append_right _ _ _ _ (by omega)]; congr 1; omega
  have g1 : (pre ++ l).getD (pre.length + i + 1) 0 = l.getD (i + 1) 0 := by
    rw [List.getD_append_right _ _ _ _ (by omega)]; congr 1; omega
  have g2 : (pre ++ l).getD (pre.length + i + 2) 0 = l.getD (i + 2) 0 := by
    rw [List.getD_append_right _ _ _ _ (by omega)]; congr 1; omega
  have g3 : (pre ++ l).getD (pre.length + i + 3) 0 = l.getD (i + 3) 0 := by
    rw [List.getD_append_right _ _ _ _ (by omega)]; congr 1; omega
  have g4 : (pre ++ l).getD (pre.length + i + 4) 0 = l.getD (i + 4) 0 := by
    rw [List.getD_append_right _ _ _ _ (by omega)]; congr 1; omega
  have l1 : (pre.length + i + 1 < (pre ++ l).length) = (i + 1 < l.length) := by
    rw [List.length_append]; apply propext; omega
  have l2 : (pre.length + i + 2 < (pre ++ l).length) = (i + 2 < l.length) := by
    rw [List.length_append]; apply propext; omega
  have l4 : (pre.length + i + 4 < (pre ++ l).length) = (i + 4 < l.length) := by
    rw [List.length_append]; apply propext; omega
  unfold sgrStep
  simp only [g0, g1, g2, g3, g4, l1, l2, l4]

theorem sgrLoop_append (pre l : List Int) :
    ∀ (fuel i : Nat) (st : Cell),
      sgrLoop fuel (pre ++ l) (pre.length + i) st = sgrLoop fuel l i st := by
  intro fuel
  induction fuel with
  | zero => intro i st; rfl
  | succ n ih =>
    intro i st
    unfold sgrLoop
    rw [sgrStep_append]
    have hlen : (pre.length + i < (pre ++ l).length) = (i < l.length) := by
      rw [List.length_append]; apply propext; omega
    simp only [hlen]
    split_ifs
    · have := ih (i + (sgrStep l i st).1 + 1) (sgrStep l i st).2
      rw [← this]
      congr 1
      omega
    · rfl

theorem sgrLoop_drop (l : List Int) (k fuel : Nat) (st : Cell) (hk : k ≤ l.length) :
    sgrLoop fuel l k st = sgrLoop fuel (l.drop k) 0 st := by
  have h := sgrLoop_append (l.take k) (l.drop k) fuel 0 st
  rw [List.take_append_drop, List.length_take, Nat.min_eq_left hk] at h
  exact h

theorem sgrStep_simple (code : Int) (rest : List Int) (st : Cell)
    (h38 : code ≠ 38) (h48 : code ≠ 48) :
    sgrStep (code :: rest) 0 st = (0, sgrSimple code st) := by
  by_cases h0 : code = 0
  · subst h0; rfl
  by_cases h1 : code = 1
  · subst h1; rfl
  by_cases h3 : code = 3
  · subst h3; rfl
  by_cases h4 : code = 4
  · subst h4; rfl
  by_cases h7 : code = 7
  · subst h7; rfl
  by_cases h22 : code = 22
  · subst h22; rfl
  by_cases h23 : code = 23
  · subst h23; rfl
  by_cases h24 : code = 24
  · subst h24; rfl
  by_cases h27 : code = 27
  · subst h27; rfl
  by_cases h39 : code = 39
  · subst h39; rfl
  by_cases h49 : code = 49
  · subst h49; rfl
  unfold sgrStep sgrSimple
  rw [List.getD_cons_zero]
  simp only [if_neg h0, if_neg h1, if_neg h3, if_neg h4, if_neg h7, if_neg h22, if_neg h23, if_neg h24, if_neg h27, if_neg h39, if_neg h49, if_neg h38, if_neg h48]

end VT

namespace VT

theorem sgrLoop_past_end (l : List Int) (k fuel : Nat) (st : Cell) (hk : ¬k < l.length) :
    sgrLoop fuel l k st = st := by
  cases fuel with
  | zero => rfl
  | succ n => unfold sgrLoop; rw [if_neg hk]

theorem sgrLoop_drop_any (l : List Int) (k fuel : Nat) (st : Cell) :
    sgrLoop fuel l k st = sgrLoop fuel (l.drop k) 0 st := by
  by_cases hk : k ≤ l.length
  · exact sgrLoop_drop l k fuel st hk
  · rw [sgrLoop_past_end l k fuel st (by omega),
      sgrLoop_past_end (l.drop k) 0 fuel st (by simp; omega)]

/-- The loop of `parseSGR` as a recursion on the list of parameters: after the code
at the head, the loop continues on the parameters left after the ones the code
consumed. -/
theorem sgrLoop_succ_cons (f : Nat) (c : Int) (rest : List Int) (st : Cell) :
    sgrLoop (f + 1) (c :: rest) 0 st =
      sgrLoop f (rest.drop (sgrStep (c :: rest) 0 st).1) 0 (sgrStep (c :: rest) 0 st).2 := by
  conv_lhs => unfold sgrLoop
  rw [if_pos (by simp), sgrLoop_drop_any]
  simp only [Nat.zero_add, List.drop_succ_cons]

theorem sgrLoop_nil (fuel : Nat) (st : Cell) : sgrLoop fuel [] 0 st = st :=
  sgrLoop_past_end [] 0 fuel st (by simp)

theorem sgrStep_fg256 (v : Int) (rest : List Int) (st : Cell) :
    sgrStep (38 :: 5 :: v :: rest) 0 st =
      (2, { st with fg_color := ansi256ToRgb v, has_fg_color := true }) := by
  simp [sgrStep]

theorem sgrStep_bg256 (v : Int) (rest : List Int) (st : Cell) :
    sgrStep (48 :: 5 :: v :: rest) 0 st =
      (2, { st with bg_color := ansi256ToRgb v, has_bg_color := true }) := by
  simp [sgrStep]

theorem sgrStep_fgRgb (r g b : Int) (rest : List Int) (st : Cell) :
    sgrStep (38 :: 2 :: r :: g :: b :: rest) 0 st =
      (4, { st with fg_color := rgbFromParams r g b, has_fg_color := true }) := by
  simp [sgrStep]

theorem sgrStep_bgRgb (r g b : Int) (rest : List Int) (st : Cell) :
    sgrStep (48 :: 2 :: r :: g :: b :: rest) 0 st =
      (4, { st with bg_color := rgbFromParams r g b, has_bg_color := true }) := by
  simp [sgrStep]

end VT

namespace VT

theorem sgrRef_simple (c : Int) (rest : List Int) (st : Cell) (h38 : c ≠ 38) (h48 : c ≠ 48) :
    sgrRef (c :: rest) st = sgrRef rest (sgrSimple c st) := by
  conv_lhs => unfold sgrRef
  rw [if_neg h38, if_neg h48]

theorem sgrComplete_simple (c : Int) (rest : List Int) (h38 : c ≠ 38) (h48 : c ≠ 48) :
    sgrComplete (c :: rest) = sgrComplete rest := by
  conv_lhs => unfold sgrComplete
  rw [if_neg (by simp [h38, h48])]

theorem sgrComplete_256 (c v : Int) (rest : List Int) (hc : c = 38 ∨ c = 48) :
    sgrComplete (c :: 5 :: v :: rest) = (isByteParam v && sgrComplete rest) := by
  conv_lhs => unfold sgrComplete
  rw [if_pos hc]
  simp only [if_true]

theorem sgrComplete_rgb (c m v g b : Int) (rest : List Int) (hc : c = 38 ∨ c = 48)
    (h5 : m ≠ 5) :
    sgrComplete (c :: m :: v :: g :: b :: rest) =
      (decide (m = 2) && isByteParam v && isByteParam g && isByteParam b &&
        sgrComplete rest) := by
  conv_lhs => unfold sgrComplete
  rw [if_pos hc]
  simp only [h5, if_false]

theorem sgrComplete_short2 (c m v : Int) (hc : c = 38 ∨ c = 48) (h5 : m ≠ 5) :
    sgrComplete [c, m, v] = false := by
  conv_lhs => unfold sgrComplete
  rw [if_pos hc]
  simp only [h5, if_false]

theorem sgrComplete_short3 (c m v g : Int) (hc : c = 38 ∨ c = 48) (h5 : m ≠ 5) :
    sgrComplete [c, m, v, g] = false := by
  conv_lhs => unfold sgrComplete
  rw [if_pos hc]
  simp only [h5, if_false]

theorem sgrLoop_fuel (l : List Int) :
    ∀ (f1 f2 i : Nat) (st : Cell), l.length ≤ f1 + i → l.length ≤ f2 + i →
      sgrLoop f1 l i st = sgrLoop f2 l i st := by
  intro f1
  induction f1 with
  | zero =>
    intro f2 i st h1 _
    rw [sgrLoop_past_end l i 0 st (by omega), sgrLoop_past_end l i f2 st (by omega)]
  | succ n ih =>
    intro f2 i st h1 h2
    by_cases hi : i < l.length
    · cases f2 with
      | zero => omega
      | succ m =>
        unfold sgrLoop
        rw [if_pos hi, if_pos hi]
        exact ih m _ _ (by omega) (by omega)
    · rw [sgrLoop_past_end l i _ st hi, sgrLoop_past_end l i f2 st hi]

/-- On a list whose extended colours are complete, followed by any further
parameters, the loop of `parseSGR` first computes the reference fold of the list
and then continues on the further parameters. -/
theorem sgrLoop_append_ref :
    ∀ (n : Nat) (l suffix : List Int) (st : Cell), l.length ≤ n → sgrComplete l = true →
      ∀ fuel : Nat, (l ++ suffix).length ≤ fuel →
        sgrLoop fuel (l ++ suffix) 0 st = sgrLoop fuel suffix 0 (sgrRef l st) := by
  intro n
  induction n with
  | zero =>
    intro l suffix st hl _ fuel _
    have : l = [] := List.length_eq_zero.mp (by omega)
    subst this
    rfl
  | succ n ih =>
    intro l suffix st hl hc fuel hf
    cases l with
    | nil => rfl
    | cons c rest =>
      cases fuel with
      | zero => simp at hf
      | succ f =>
        simp only [List.length_cons, List.length_append, List.cons_append] at hl hf
        have hfuel : ∀ st2 : Cell, sgrLoop f suffix 0 st2 = sgrLoop (f + 1) suffix 0 st2 :=
          fun st2 => sgrLoop_fuel suffix f (f + 1) 0 st2 (by omega) (by omega)
        rw [List.cons_append, sgrLoop_succ_cons, ← hfuel]
        by_cases h38 : c = 38
        · subst h38
          cases rest with
          | nil => simp [sgrComplete] at hc
          | cons m rest1 =>
            cases rest1 with
            | nil => simp [sgrComplete] at hc
            | cons v rest2 =>
              simp only [List.length_cons, List.length_append, List.cons_append] at hl hf
              by_cases h5 : m = 5
              · subst h5
                rw [sgrComplete_256 _ _ _ (Or.inl rfl), Bool.and_eq_true] at hc
                simp only [List.cons_append]
                rw [sgrStep_fg256]
                simp only [List.drop_succ_cons, List.drop_zero]
                rw [ih rest2 suffix _ (by omega) hc.2 f (by simp only [List.length_append]; omega)]
                conv_rhs => unfold sgrRef
                simp
              · cases rest2 with
                | nil => rw [sgrComplete_short2 _ _ _ (Or.inl rfl) h5] at hc; cases hc
                | cons g rest3 =>
                  cases rest3 with
                  | nil => rw [sgrComplete_short3 _ _ _ _ (Or.inl rfl) h5] at hc; cases hc
                  | cons b rest4 =>
                    simp only [List.length_cons, List.length_append, List.cons_append] at hl hf
                    rw [sgrComplete_rgb _ _ _ _ _ _ (Or.inl rfl) h5] at hc
                    simp only [Bool.and_eq_true, decide_eq_true_eq] at hc
                    obtain ⟨⟨⟨⟨h2, hv⟩, hg⟩, hb⟩, hrest⟩ := hc
                    subst h2
                    simp only [List.cons_append]
                    rw [sgrStep_fgRgb]
                    simp only [List.drop_succ_cons, List.drop_zero]
                    rw [ih rest4 suffix _ (by omega) hrest f (by simp only [List.length_append]; omega),
                      rgbFromParams_eq v g b hv hg hb]
                    conv_rhs => unfold sgrRef
                    simp [h5]
        · by_cases h48 : c = 48
          · subst h48
            cases rest with
            | nil => simp [sgrComplete] at hc
            | cons m rest1 =>
              cases rest1 with
              | nil => simp [sgrComplete] at hc
              | cons v rest2 =>
                simp only [List.length_cons, List.length_append, List.cons_append] at hl hf
                by_cases h5 : m = 5
                · subst h5
                  rw [sgrComplete_256 _ _ _ (Or.inr rfl), Bool.and_eq_true] at hc
                  simp only [List.cons_append]
                  rw [sgrStep_bg256]
                  simp only [List.drop_succ_cons, List.drop_zero]
                  rw [ih rest2 suffix _ (by omega) hc.2 f (by simp only [List.length_append]; omega)]
                  conv_rhs => unfold sgrRef
                  simp
                · cases rest2 with
                  | nil => rw [sgrComplete_short2 _ _ _ (Or.inr rfl) h5] at hc; cases hc
                  | cons g rest3 =>
                    cases rest3 with
                    | nil => rw [sgrComplete_short3 _ _ _ _ (Or.inr rfl) h5] at hc; cases hc
                    | cons b rest4 =>
                      simp only [List.length_cons, List.length_append, List.cons_append] at hl hf
                      rw [sgrComplete_rgb _ _ _ _ _ _ (Or.inr rfl) h5] at hc
                      simp only [Bool.and_eq_true, decide_eq_true_eq] at hc
                      obtain ⟨⟨⟨⟨h2, hv⟩, hg⟩, hb⟩, hrest⟩ := hc
                      subst h2
                      simp only [List.cons_append]
                      rw [sgrStep_bgRgb]
                      simp only [List.drop_succ_cons, List.drop_zero]
                      rw [ih rest4 suffix _ (by omega) hrest f
                          (by simp only [List.length_append]; omega),
                        rgbFromParams_eq v g b hv hg hb]
                      conv_rhs => unfold sgrRef
                      simp [h5]
          · rw [sgrStep_simple c (rest ++ suffix) st h38 h48]
            simp only [List.drop_zero]
            rw [sgrComplete_simple c rest h38 h48] at hc
            rw [ih rest suffix _ (by omega) hc f (by simp only [List.length_append]; omega),
              sgrRef_simple c rest st h38 h48]

end VT

namespace VT

theorem sgrLoop_eq_ref (l : List Int) (st : Cell) (hc : sgrComplete l = true) :
    sgrLoop l.length l 0 st = sgrRef l st := by
  have h := sgrLoop_append_ref l.length l [] st (le_refl _) hc l.length (by simp)
  rw [List.append_nil, sgrLoop_nil] at h
  exact h

theorem sgrStep_truncated (c : Int) (rest : List Int) (st : Cell) (hc : c = 38 ∨ c = 48)
    (ht : sgrTruncated rest = true) : sgrStep (c :: rest) 0 st = (0, st) := by
  cases rest with
  | nil => rcases hc with h | h <;> subst h <;> rfl
  | cons m t =>
    simp only [sgrTruncated, Bool.or_eq_true, Bool.and_eq_true, decide_eq_true_eq] at ht
    rcases ht with ⟨hm, hlen⟩ | ⟨hm, hlen⟩
    · subst hm
      rcases hc with h | h <;> subst h <;>
        simp only [sgrStep, List.getD_cons_zero, List.getD_cons_succ, List.length_cons] <;>
        simp <;> omega
    · subst hm
      have : t = [] := List.length_eq_zero.mp (by omega)
      subst this
      rcases hc with h | h <;> subst h <;> rfl

end VT

namespace WebSocket

open VT

/-- C3: `parseSGR` equals the reference left-to-right fold `sgrRef` of the SGR table
on every parameter list in which each 38 or 48 standing at the place of a code is
followed by a complete sub-sequence (`5;N` with `0 ≤ N ≤ 255`, or `2;R;G;B` with
`R`, `G`, `B` in `0..255`); it changes the current style only, not the grid, the
cursor or the size. The two scenarios: from the fresh 120×30 renderer,
`ESC[38;5;196m` then `X` renders to a markup that contains
`<color=#ff0000>X</closeall>`, and `ESC[48;2;10;20;30m` then a space renders to a
markup that begins with `<mark=#0a141e> </closeall>`. -/
theorem C3_parseSGR_reference (params : List Int) (r : Renderer)
    (hc : sgrComplete params = true) :
    parseSGR params r = { r with current_style := sgrRef params r.current_style } ∧
    (parseSGR params r).grid = r.grid ∧
    (parseSGR params r).cursor_x = r.cursor_x ∧
    (parseSGR params r).cursor_y = r.cursor_y ∧
    containsBytes (ascii "<color=#ff0000>X</closeall>")
      (processToResoniteHTML 120 30 (esc "[38;5;196m" ++ ascii "X") vt_renderer0).1 = true ∧
    startsWith (ascii "<mark=#0a141e> </closeall>")
      (processToResoniteHTML 120 30 (esc "[48;2;10;20;30m" ++ ascii " ") vt_renderer0).1
        = true := by
  refine ⟨?_, rfl, rfl, rfl, by decide!, by decide!⟩
  unfold parseSGR
  rw [sgrLoop_eq_ref params r.current_style hc]

/-- Witness for C3: the parameters `1;38;5;196;48;2;10;20;30;4;0;7` on the fresh
renderer. -/
theorem C3_parseSGR_reference_witness :
    sgrComplete [1, 38, 5, 196, 48, 2, 10, 20, 30, 4, 0, 7] = true ∧
    parseSGR [1, 38, 5, 196, 48, 2, 10, 20, 30, 4, 0, 7] vt_renderer0 =
      { vt_renderer0 with
        current_style :=
          sgrRef [1, 38, 5, 196, 48, 2, 10, 20, 30, 4, 0, 7] vt_renderer0.current_style } :=
  ⟨by decide,
   (C3_parseSGR_reference [1, 38, 5, 196, 48, 2, 10, 20, 30, 4, 0, 7] vt_renderer0
      (by decide)).1⟩

end WebSocket

namespace VT

/-- C8, evaluation of the code at `ESC[m`: the empty parameter is read as 1, so
for every renderer `ESC[m` does what `ESC[1m` does: it turns bold on and changes
nothing else; an empty parameter inside an SGR sequence (`ESC[;m`) is read as 1 as
well. On a style with italic and a foreground colour set the result differs from
that of `ESC[0m`, which clears them. -/
theorem C8_empty_sgr_is_bold (r : Renderer) :
    parseParams (ascii "") = [1] ∧
    parseParams (ascii ";") = [1] ∧
    parseCSI (ascii "m") r = parseCSI (ascii "1m") r ∧
    parseCSI (ascii "m") r =
      { r with current_style := { r.current_style with bold := true } } ∧
    parseCSI (ascii "0m") r =
      { r with
        current_style :=
          { r.current_style with
            bold := false, italic := false, underline := false,
            reverse := false, has_fg_color := false, has_bg_color := false } } ∧
    (parseCSI (ascii "m")
        { Renderer.new 80 24 with
          current_style := { defaultCell with italic := true, has_fg_color := true } }
      ).current_style
      = { defaultCell with bold := true, italic := true, has_fg_color := true } ∧
    (parseCSI (ascii "0m")
        { Renderer.new 80 24 with
          current_style := { defaultCell with italic := true, has_fg_color := true } }
      ).current_style
      = defaultCell := by
  refine ⟨by decide, by decide, rfl, rfl, rfl, by decide, by decide⟩

/-- C9, as stated, fails: after the truncated extended colour `38;2;1` the current
style is not the one obtained from the parameters before the 38 (none here): the
trailing `1` has been read as a code and bold is on. -/
theorem C9_truncated_counterexample :
    parseSGR [38, 2, 1] (Renderer.new 80 24) ≠ parseSGR [] (Renderer.new 80 24) ∧
    (parseSGR [38, 2, 1] (Renderer.new 80 24)).current_style.bold = true ∧
    (parseSGR [38, 2, 1, 4] (Renderer.new 80 24)).current_style.underline = true := by
  decide

/-- C9, amended: when a 38 or 48 at the place of a code (the parameters `pre`
before it have complete extended colours) is followed by an incomplete
sub-sequence `rest`, the 38 or 48 alone is without effect and the loop goes on
with the parameter right after it: the style after `parseSGR` is the one that
`parseSGR rest` gives from the style after `parseSGR pre`. -/
theorem C9_truncated_resumes (pre rest : List Int) (c : Int) (r : Renderer)
    (hpre : sgrComplete pre = true) (hc : c = 38 ∨ c = 48)
    (ht : sgrTruncated rest = true) :
    parseSGR (pre ++ c :: rest) r = parseSGR rest (parseSGR pre r) := by
  unfold parseSGR
  simp only
  have h1 := sgrLoop_append_ref pre.length pre (c :: rest) r.current_style (le_refl _) hpre
    (pre ++ c :: rest).length (le_refl _)
  rw [h1, sgrLoop_eq_ref pre r.current_style hpre]
  have h2 : (pre ++ c :: rest).length = (pre.length + rest.length) + 1 := by
    simp only [List.length_append, List.length_cons]; omega
  rw [h2, sgrLoop_succ_cons, sgrStep_truncated c rest _ hc ht]
  simp only [List.drop_zero]
  rw [sgrLoop_fuel rest (pre.length + rest.length) rest.length 0 _ (by omega) (by omega)]

/-- Witness for C9 (amended): `1;38;2;1;4` gives what `2;1;4` gives after `1`. -/
theorem C9_truncated_resumes_witness :
    parseSGR ([1] ++ 38 :: [2, 1, 4]) (Renderer.new 80 24) =
      parseSGR [2, 1, 4] (parseSGR [1] (Renderer.new 80 24)) :=
  C9_truncated_resumes [1] [2, 1, 4] 38 (Renderer.new 80 24) (by decide) (Or.inl rfl)
    (by decide)

end VT

namespace VT

/-! ## Cursor motion -/

theorem wrap32_of_range (x : Int) (h1 : -2147483648 ≤ x) (h2 : x ≤ 2147483647) :
    wrap32 x = x := by
  unfold wrap32
  omega

/-- The table of the cursor-motion sequences, for parameters whose sums and
differences with a cursor coordinate stay inside a 32-bit `int`: with `p0 = nums[0]`,
`A`/`B` subtract/add `p0` to `cursor_y`, `C`/`D` add/subtract it to `cursor_x`,
`E`/`F` do as `B`/`A` and set `cursor_x = 0`, `G` sets `cursor_x = p0 - 1`, `H` and
`f` set `cursor_y = p0 - 1` and `cursor_x = p1 - 1` (`p1` read as 1 when missing),
each result clamped to the grid; nothing but the cursor changes. -/
theorem cursor_motion_table (w h : Int) (nums : List Int) (r : Renderer)
    (hr : CursorOk w h r) (hw : w ≤ 1073741824) (hh : h ≤ 1073741824)
    (h0 : -1073741824 ≤ nums.getD 0 0 ∧ nums.getD 0 0 ≤ 1073741824)
    (h1 : -1073741824 ≤ nums.getD 1 0 ∧ nums.getD 1 0 ≤ 1073741824)
    (hn : 0 < nums.length) :
    csiDispatch 65 nums r =
      { r with cursor_y := max 0 (min (r.cursor_y - nums.getD 0 0) (h - 1)) } ∧
    csiDispatch 66 nums r =
      { r with cursor_y := max 0 (min (r.cursor_y + nums.getD 0 0) (h - 1)) } ∧
    csiDispatch 67 nums r =
      { r with cursor_x := max 0 (min (r.cursor_x + nums.getD 0 0) (w - 1)) } ∧
    csiDispatch 68 nums r =
      { r with cursor_x := max 0 (min (r.cursor_x - nums.getD 0 0) (w - 1)) } ∧
    csiDispatch 69 nums r =
      { r with cursor_y := max 0 (min (r.cursor_y + nums.getD 0 0) (h - 1)), cursor_x := 0 } ∧
    csiDispatch 70 nums r =
      { r with cursor_y := max 0 (min (r.cursor_y - nums.getD 0 0) (h - 1)), cursor_x := 0 } ∧
    csiDispatch 71 nums r =
      { r with cursor_x := max 0 (min (nums.getD 0 0 - 1) (w - 1)) } ∧
    csiDispatch 72 nums r =
      { r with cursor_y := max 0 (min (nums.getD 0 0 - 1) (h - 1)),
               cursor_x := max 0 (min ((if 1 < nums.length then nums.getD 1 0 else 1) - 1)
                 (w - 1)) } ∧
    csiDispatch 102 nums r = csiDispatch 72 nums r := by
  obtain ⟨hrw, hrh, hx0, hx1, hy0, hy1⟩ := hr
  have eA := wrap32_of_range (r.cursor_y - nums.getD 0 0) (by omega) (by omega)
  have eB := wrap32_of_range (r.cursor_y + nums.getD 0 0) (by omega) (by omega)
  have eC := wrap32_of_range (r.cursor_x + nums.getD 0 0) (by omega) (by omega)
  have eD := wrap32_of_range (r.cursor_x - nums.getD 0 0) (by omega) (by omega)
  have eG := wrap32_of_range (nums.getD 0 0 - 1) (by omega) (by omega)
  have eH : wrap32 ((if 1 < nums.length then nums.getD 1 0 else 1) - 1) =
      (if 1 < nums.length then nums.getD 1 0 else 1) - 1 := by
    apply wrap32_of_range <;> split_ifs <;> omega
  have hx : max 0 (min r.cursor_x (w - 1)) = r.cursor_x := by omega
  have hy : max 0 (min r.cursor_y (h - 1)) = r.cursor_y := by omega
  have hz : max 0 (min 0 (w - 1)) = (0 : Int) := by omega
  refine ⟨?_, ?_, ?_, ?_, ?_, ?_, ?_, ?_, ?_⟩
  · unfold csiDispatch
    rw [if_neg (by decide), if_pos rfl, eA]
    simp only [ensureValidCursor, hrw, hrh, hx]
  · unfold csiDispatch
    rw [if_neg (by decide), if_neg (by decide), if_pos rfl, eB]
    simp only [ensureValidCursor, hrw, hrh, hx]
  · unfold csiDispatch
    rw [if_neg (by decide), if_neg (by decide), if_neg (by decide), if_pos rfl, eC]
    simp only [ensureValidCursor, hrw, hrh, hy]
  · unfold csiDispatch
    rw [if_neg (by decide), if_neg (by decide), if_neg (by decide), if_neg (by decide), if_pos rfl, eD]
    simp only [ensureValidCursor, hrw, hrh, hy]
  · unfold csiDispatch
    rw [if_neg (by decide), if_neg (by decide), if_neg (by decide), if_neg (by decide), if_neg (by decide), if_pos rfl, eB]
    simp only [ensureValidCursor, hrw, hrh, hz]
  · unfold csiDispatch
    rw [if_neg (by decide), if_neg (by decide), if_neg (by decide), if_neg (by decide), if_neg (by decide), if_neg (by decide), if_pos rfl, eA]
    simp only [ensureValidCursor, hrw, hrh, hz]
  · unfold csiDispatch
    rw [if_neg (by decide), if_neg (by decide), if_neg (by decide), if_neg (by decide), if_neg (by decide), if_neg (by decide), if_neg (by decide), if_pos rfl, eG]
    simp only [ensureValidCursor, hrw, hrh, hy]
  · unfold csiDispatch
    rw [if_pos (Or.inl rfl), if_pos hn, eG, eH]
    simp only [ensureValidCursor, hrw, hrh, gt_iff_lt]
  · unfold csiDispatch
    rw [if_pos (Or.inl rfl), if_pos (Or.inr rfl)]

/-- C4, evaluation of the code at a failing input: on an 80×24 grid, after `a` the
cursor is at column 1, and `ESC[2147483647C` (the parameter is `INT_MAX`, which
`std::stoi` returns) makes `cursor_x += nums[0]` leave the range of `int`; with
two's complement wrap-around the sum is negative and is clamped to column 0, where
the table of the claim gives `clamp(1 + 2147483647, 0, 79) = 79`. In the same way
`ESC[-2147483648;1H` puts the cursor on row 23, where the table gives row 0. -/
theorem C4_cursor_motion_overflow :
    parseParams (ascii "2147483647") = [2147483647] ∧
    (processSequence (ascii "a") (Renderer.new 80 24)).cursor_x = 1 ∧
    (processSequence (ascii "a" ++ esc "[2147483647C") (Renderer.new 80 24)).cursor_x = 0 ∧
    max (0 : Int) (min (1 + 2147483647) (80 - 1)) = 79 ∧
    (processSequence (esc "[-2147483648;1H") (Renderer.new 80 24)).cursor_y = 23 ∧
    max (0 : Int) (min (-2147483648 - 1) (24 - 1)) = 0 ∧
    getCell (processSequence (esc "[999;999H" ++ ascii "*") (Renderer.new 80 24)).grid 79 23
      = { (Renderer.new 80 24).current_style with ch := 42 } := by
  decide!

end VT

namespace VT

/-! ## Reading and writing grid cells -/

theorem getD_set_same {α : Type} (l : List α) (i : Nat) (a d : α) (hi : i < l.length) :
    (l.set i a).getD i d = a := by
  rw [List.getD_eq_getElem?_getD, List.getElem?_set, if_pos rfl, if_pos hi]
  rfl

theorem getD_set_other {α : Type} (l : List α) (i j : Nat) (a d : α) (hij : i ≠ j) :
    (l.set i a).getD j d = l.getD j d := by
  rw [List.getD_eq_getElem?_getD, List.getD_eq_getElem?_getD, List.getElem?_set, if_neg hij]

theorem getD_mem {α : Type} (l : List α) (i : Nat) (d : α) (hi : i < l.length) :
    l.getD i d ∈ l := by
  rw [List.getD_eq_getElem?_getD, List.getElem?_eq_getElem hi]
  exact List.getElem_mem hi

theorem GridOk_row_length (w h : Int) (grid : List (List Cell)) (hg : GridOk w h grid)
    (y : Int) (hy0 : 0 ≤ y) (hy1 : y < h) : (grid.getD y.toNat []).length = w.toNat :=
  hg.2 _ (getD_mem grid y.toNat [] (by rw [hg.1]; omega))

theorem getCell_setCell_same (w h : Int) (grid : List (List Cell)) (hg : GridOk w h grid)
    (x y : Int) (c : Cell) (hx0 : 0 ≤ x) (hx1 : x < w) (hy0 : 0 ≤ y) (hy1 : y < h) :
    getCell (setCell grid x y c) x y = c := by
  unfold getCell setCell
  rw [if_pos ⟨hx0, hy0⟩, if_pos ⟨hx0, hy0⟩,
    getD_set_same grid y.toNat _ [] (by rw [hg.1]; omega),
    getD_set_same _ x.toNat c defaultCell
      (by rw [GridOk_row_length w h grid hg y hy0 hy1]; omega)]

theorem getCell_setCell_other (grid : List (List Cell)) (x y x2 y2 : Int) (c : Cell)
    (hne : ¬(x2 = x ∧ y2 = y)) :
    getCell (setCell grid x y c) x2 y2 = getCell grid x2 y2 := by
  unfold getCell setCell
  by_cases h2 : 0 ≤ x2 ∧ 0 ≤ y2
  · rw [if_pos h2, if_pos h2]
    by_cases h1 : 0 ≤ x ∧ 0 ≤ y
    · rw [if_pos h1]
      by_cases hy : y.toNat = y2.toNat
      · have hyy : y2 = y := by omega
        have hxx : x.toNat ≠ x2.toNat := by
          intro hx
          apply hne
          constructor <;> omega
        by_cases hlen : y.toNat < grid.length
        · rw [← hy, getD_set_same grid y.toNat _ [] hlen, getD_set_other _ _ _ _ _ hxx]
        · rw [List.set_eq_of_length_le (by omega)]
      · rw [getD_set_other grid _ _ _ [] hy]
    · rw [if_neg h1]
  · rw [if_neg h2, if_neg h2]

theorem GridOk_setCell (w h : Int) (grid : List (List Cell)) (hg : GridOk w h grid)
    (x y : Int) (c : Cell) : GridOk w h (setCell grid x y c) := by
  unfold setCell
  split_ifs with h1
  · by_cases hlen : y.toNat < grid.length
    · refine ⟨by rw [List.length_set]; exact hg.1, ?_⟩
      intro row hrow
      rcases List.mem_or_eq_of_mem_set hrow with hm | he
      · exact hg.2 row hm
      · subst he
        rw [List.length_set]
        exact hg.2 _ (getD_mem grid y.toNat [] hlen)
    · rw [List.set_eq_of_length_le (by omega)]
      exact hg
  · exact hg

end VT

namespace VT

/-! ## Printing a character -/

/-- The effect of `placeChar` with the cursor inside the grid: the cell under the
cursor becomes the current style with the codepoint, no other cell changes, and
the cursor moves one column to the right, or, from the last column, to column 0
of the next row, the last row being kept when there is no next row. -/
theorem placeChar_spec (w h : Int) (cp : Nat) (r : Renderer) (hg : GridOk w h r.grid)
    (hr : CursorOk w h r) :
    (placeChar cp r).current_style = r.current_style ∧
    GridOk w h (placeChar cp r).grid ∧
    CursorOk w h (placeChar cp r) ∧
    (∀ x y : Int, getCell (placeChar cp r).grid x y =
      if x = r.cursor_x ∧ y = r.cursor_y then { r.current_style with ch := cp }
      else getCell r.grid x y) ∧
    (placeChar cp r).cursor_x = (if r.cursor_x + 1 < w then r.cursor_x + 1 else 0) ∧
    (placeChar cp r).cursor_y =
      (if r.cursor_x + 1 < w then r.cursor_y else min (r.cursor_y + 1) (h - 1)) := by
  obtain ⟨hrw, hrh, hx0, hx1, hy0, hy1⟩ := hr
  have hin : 0 ≤ r.cursor_y ∧ r.cursor_y < r.height ∧ 0 ≤ r.cursor_x ∧ r.cursor_x < r.width := by
    rw [hrw, hrh]; exact ⟨hy0, hy1, hx0, hx1⟩
  have hcell : ∀ x y : Int,
      getCell (setCell r.grid r.cursor_x r.cursor_y { r.current_style with ch := cp }) x y =
        if x = r.cursor_x ∧ y = r.cursor_y then { r.current_style with ch := cp }
        else getCell r.grid x y := by
    intro x y
    split_ifs with hxy
    · rw [hxy.1, hxy.2]
      exact getCell_setCell_same w h r.grid hg _ _ _ hx0 hx1 hy0 hy1
    · exact getCell_setCell_other r.grid _ _ x y _ hxy
  have hgrid := GridOk_setCell w h r.grid hg r.cursor_x r.cursor_y
    { r.current_style with ch := cp }
  unfold placeChar
  rw [if_pos hin]
  dsimp only
  by_cases hwrap : r.cursor_x + 1 ≥ r.width
  · rw [if_pos hwrap]
    have hlt : ¬(r.cursor_x + 1 < w) := by omega
    rw [if_neg hlt, if_neg hlt]
    refine ⟨rfl, hgrid, ensureValidCursor_ok w h _ (by omega) (by omega) hrw hrh, hcell, ?_, ?_⟩
    · simp only [ensureValidCursor, hrw]; omega
    · simp only [ensureValidCursor, hrh]; omega
  · rw [if_neg hwrap]
    have hlt : r.cursor_x + 1 < w := by omega
    rw [if_pos hlt, if_pos hlt]
    exact ⟨rfl, hgrid, ⟨hrw, hrh, by show 0 ≤ r.cursor_x + 1; omega, hlt, hy0, hy1⟩, hcell,
      rfl, rfl⟩

end VT

namespace VT

/-! ## Bit masks on bytes -/

theorem byte_and80 : ∀ b : Nat, b < 256 → (b &&& 0x80 = 0 ↔ b < 0x80) := by decide!

theorem byte_andE0 : ∀ b : Nat, b < 256 → (b &&& 0xE0 = 0xC0 ↔ (0xC0 ≤ b ∧ b ≤ 0xDF)) := by
  decide!

theorem byte_andF0 : ∀ b : Nat, b < 256 → (b &&& 0xF0 = 0xE0 ↔ (0xE0 ≤ b ∧ b ≤ 0xEF)) := by
  decide!

theorem byte_andF8 : ∀ b : Nat, b < 256 → (b &&& 0xF8 = 0xF0 ↔ (0xF0 ≤ b ∧ b ≤ 0xF7)) := by
  decide!

theorem byte_andC0 : ∀ b : Nat, b < 256 → (b &&& 0xC0 = 0x80 ↔ (0x80 ≤ b ∧ b ≤ 0xBF)) := by
  decide!

/-- A byte from `0x20` to `0x7F` outside an escape sequence is printed as itself. -/
theorem processStep_ascii (s : List Nat) (i : Nat) (r : Renderer)
    (h1 : 0x20 ≤ s.getD i 0) (h2 : s.getD i 0 < 0x80) :
    processStep s i r = (i, placeChar (s.getD i 0) r) := by
  have hd : decodeUtf8 s i = (s.getD i 0, 1) := by
    unfold decodeUtf8
    rw [if_pos ((byte_and80 _ (by omega)).mpr h2)]
  unfold processStep
  rw [if_neg (by omega), if_neg (by omega), if_neg (by omega), if_pos (by omega), hd]
  rfl

theorem processSequence_two_ascii (b1 b2 : Nat) (r : Renderer)
    (h1 : 0x20 ≤ b1 ∧ b1 < 0x80) (h2 : 0x20 ≤ b2 ∧ b2 < 0x80) :
    processSequence [b1, b2] r = placeChar b2 (placeChar b1 r) := by
  have e1 : processStep [b1, b2] 0 r = (0, placeChar b1 r) :=
    processStep_ascii [b1, b2] 0 r h1.1 h1.2
  have e2 : processStep [b1, b2] 1 (placeChar b1 r) = (1, placeChar b2 (placeChar b1 r)) :=
    processStep_ascii [b1, b2] 1 (placeChar b1 r) h2.1 h2.2
  simp [processSequence, processLoop, e1, e2]

/-- C10, as stated, fails: on the 80×24 grid, after `A` has been written at the
bottom-right cell (79, 23), the next character `B` is not written there; the
bottom-right cell still holds `A`, and `B` is at column 0 of the last row. -/
theorem C10_bottom_right_counterexample :
    (getCell (processSequence (esc "[24;80H" ++ ascii "A") (Renderer.new 80 24)).grid
      79 23).ch = 65 ∧
    (getCell (processSequence (esc "[24;80H" ++ ascii "AB") (Renderer.new 80 24)).grid
      79 23).ch ≠ 66 ∧
    (getCell (processSequence (esc "[24;80H" ++ ascii "AB") (Renderer.new 80 24)).grid
      0 23).ch = 66 := by
  decide!

/-- C10, amended: on every `w × h` grid, when a character is printed with the
cursor on the bottom-right cell `(w-1, h-1)`, the cell receives it and the cursor
goes to column 0 of the same, last row (no scrolling); the next printed character
is written at `(0, h-1)`. The bottom-right cell keeps the first character when
`w ≥ 2`; it is overwritten only when `w = 1`. Two ASCII printable bytes in
`processSequence` are two such prints. -/
theorem C10_next_char_at_row_start (w h : Int) (r : Renderer) (cp1 cp2 : Nat)
    (hg : GridOk w h r.grid) (hr : CursorOk w h r)
    (hbr : r.cursor_x = w - 1 ∧ r.cursor_y = h - 1) :
    getCell (placeChar cp1 r).grid (w - 1) (h - 1) = { r.current_style with ch := cp1 } ∧
    (placeChar cp1 r).cursor_x = 0 ∧
    (placeChar cp1 r).cursor_y = h - 1 ∧
    getCell (placeChar cp2 (placeChar cp1 r)).grid 0 (h - 1)
      = { r.current_style with ch := cp2 } ∧
    (2 ≤ w → getCell (placeChar cp2 (placeChar cp1 r)).grid (w - 1) (h - 1)
      = { r.current_style with ch := cp1 }) ∧
    (w = 1 → getCell (placeChar cp2 (placeChar cp1 r)).grid (w - 1) (h - 1)
      = { r.current_style with ch := cp2 }) ∧
    (0x20 ≤ cp1 ∧ cp1 < 0x80 → 0x20 ≤ cp2 ∧ cp2 < 0x80 →
      processSequence [cp1, cp2] r = placeChar cp2 (placeChar cp1 r)) := by
  obtain ⟨s1, g1, c1, cell1, x1, y1⟩ := placeChar_spec w h cp1 r hg hr
  obtain ⟨_, _, _, cell2, _, _⟩ := placeChar_spec w h cp2 (placeChar cp1 r) g1 c1
  have hx : (placeChar cp1 r).cursor_x = 0 := by
    rw [x1, if_neg (by omega)]
  have hy : (placeChar cp1 r).cursor_y = h - 1 := by
    rw [y1, if_neg (by omega)]; omega
  refine ⟨?_, hx, hy, ?_, ?_, ?_, fun a b => processSequence_two_ascii cp1 cp2 r a b⟩
  · rw [cell1, if_pos ⟨hbr.1.symm, hbr.2.symm⟩]
  · rw [cell2, if_pos ⟨hx.symm, hy.symm⟩, s1]
  · intro hw2
    rw [cell2, if_neg (by rw [hx]; omega), cell1, if_pos ⟨hbr.1.symm, hbr.2.symm⟩]
  · intro hw1
    rw [cell2, if_pos ⟨by rw [hx]; omega, hy.symm⟩, s1]

/-- Witness for C10 (amended): a 3×2 grid with the cursor on its bottom-right cell. -/
theorem C10_next_char_at_row_start_witness :
    getCell (placeChar 66 (placeChar 65
        { Renderer.new 3 2 with cursor_x := 2, cursor_y := 1 })).grid 0 (2 - 1)
      = { (Renderer.new 3 2).current_style with ch := 66 } :=
  (C10_next_char_at_row_start 3 2 { Renderer.new 3 2 with cursor_x := 2, cursor_y := 1 }
    65 66 (by decide) (by decide) (by decide)).2.2.2.1

end VT

namespace VT

/-! ## The UTF-8 decoder and encoder in arithmetic form -/

theorem and_mask (x k : Nat) (m : Nat) (hm : m = 2 ^ k - 1) : x &&& m = x % 2 ^ k := by
  subst hm
  exact Nat.and_pow_two_sub_one_eq_mod x k

theorem or_lead (hi z k : Nat) (c : Nat) (hc : c = hi <<< k) (hz : z < 2 ^ k) :
    c ||| z = hi * 2 ^ k + z := by
  subst hc
  exact shiftLeft_or_eq_add hi z k hz

theorem utf8FromCodepoint_arith (cp : Nat) : utf8FromCodepoint cp = encodeArith cp := by
  unfold utf8FromCodepoint encodeArith
  have m6 : cp &&& 0x3F = cp % 64 := and_mask cp 6 _ (by decide)
  have m6a : (cp >>> 6) &&& 0x3F = cp / 64 % 64 := by
    rw [and_mask _ 6 _ (by decide), Nat.shiftRight_eq_div_pow]
    rfl
  have m6b : (cp >>> 12) &&& 0x3F = cp / 4096 % 64 := by
    rw [and_mask _ 6 _ (by decide), Nat.shiftRight_eq_div_pow]
    rfl
  have o80 : ∀ z, z < 64 → 0x80 ||| z = 128 + z := fun z hz => by
    have := or_lead 2 z 6 0x80 (by decide) hz
    omega
  split_ifs with h1 h2 h3 h4
  · simp only [List.cons.injEq, and_true]; omega
  · have e1 : 0xC0 ||| (cp >>> 6) = 192 + cp / 64 := by
      have := or_lead 3 (cp >>> 6) 6 0xC0 (by decide)
        (by rw [Nat.shiftRight_eq_div_pow]; omega)
      rw [Nat.shiftRight_eq_div_pow] at this ⊢
      omega
    rw [e1, m6, o80 _ (by omega)]
    simp only [List.cons.injEq, and_true]; omega
  · have e1 : 0xE0 ||| (cp >>> 12) = 224 + cp / 4096 := by
      have := or_lead 7 (cp >>> 12) 5 0xE0 (by decide)
        (by rw [Nat.shiftRight_eq_div_pow]; omega)
      rw [Nat.shiftRight_eq_div_pow] at this ⊢
      omega
    rw [e1, m6, m6a, o80 _ (by omega), o80 _ (by omega)]
    simp only [List.cons.injEq, and_true]; omega
  · have e1 : 0xF0 ||| (cp >>> 18) = 240 + cp / 262144 := by
      have := or_lead 15 (cp >>> 18) 4 0xF0 (by decide)
        (by rw [Nat.shiftRight_eq_div_pow]; omega)
      rw [Nat.shiftRight_eq_div_pow] at this ⊢
      omega
    rw [e1, m6, m6a, m6b, o80 _ (by omega), o80 _ (by omega), o80 _ (by omega)]
    simp only [List.cons.injEq, and_true]; omega
  · rfl

end VT

namespace VT

theorem decode_cp2 (a b : Nat) :
    ((a &&& 0x1F) <<< 6) ||| (b &&& 0x3F) = a % 32 * 64 + b % 64 := by
  rw [and_mask a 5 _ (by decide), and_mask b 6 _ (by decide),
    shiftLeft_or_eq_add _ _ 6 (Nat.mod_lt _ (by decide))]
  rfl

theorem decode_cp3 (a b c : Nat) :
    ((a &&& 0x0F) <<< 12) ||| ((b &&& 0x3F) <<< 6) ||| (c &&& 0x3F) =
      a % 16 * 4096 + b % 64 * 64 + c % 64 := by
  rw [and_mask a 4 _ (by decide), and_mask b 6 _ (by decide), and_mask c 6 _ (by decide),
    Nat.or_assoc, shiftLeft_or_eq_add (b % 2 ^ 6) _ 6 (Nat.mod_lt _ (by decide)),
    shiftLeft_or_eq_add (a % 2 ^ 4) _ 12 (by
      have h1 : b % 2 ^ 6 < 64 := Nat.mod_lt _ (by decide)
      have h2 : c % 2 ^ 6 < 64 := Nat.mod_lt _ (by decide)
      show b % 2 ^ 6 * 64 + c % 2 ^ 6 < 4096
      omega)]
  show a % 16 * 4096 + (b % 64 * 64 + c % 64) = _
  omega

theorem decode_cp4 (a b c d : Nat) :
    ((a &&& 0x07) <<< 18) ||| ((b &&& 0x3F) <<< 12) ||| ((c &&& 0x3F) <<< 6) ||| (d &&& 0x3F) =
      a % 8 * 262144 + b % 64 * 4096 + c % 64 * 64 + d % 64 := by
  have h1 : b % 2 ^ 6 < 64 := Nat.mod_lt _ (by decide)
  have h2 : c % 2 ^ 6 < 64 := Nat.mod_lt _ (by decide)
  have h3 : d % 2 ^ 6 < 64 := Nat.mod_lt _ (by decide)
  rw [and_mask a 3 _ (by decide), and_mask b 6 _ (by decide), and_mask c 6 _ (by decide),
    and_mask d 6 _ (by decide), Nat.or_assoc, Nat.or_assoc,
    shiftLeft_or_eq_add (c % 2 ^ 6) _ 6 h3,
    shiftLeft_or_eq_add (b % 2 ^ 6) _ 12 (by
      show c % 2 ^ 6 * 64 + d % 2 ^ 6 < 4096
      omega),
    shiftLeft_or_eq_add (a % 2 ^ 3) _ 18 (by
      show b % 2 ^ 6 * 4096 + (c % 2 ^ 6 * 64 + d % 2 ^ 6) < 262144
      omega)]
  show a % 8 * 262144 + (b % 64 * 4096 + (c % 64 * 64 + d % 64)) = _
  omega

theorem contByte_iff (c : Nat) (hc : c < 256) :
    (c &&& 0xC0 = 0x80) = (isContByte c = true) := by
  rw [propext (byte_andC0 c hc)]
  simp [isContByte]

theorem decodeUtf8_arith (s : List Nat) (i : Nat) (hs : ∀ k : Nat, s.getD k 0 < 256) :
    decodeUtf8 s i = decodeArith s i := by
  unfold decodeUtf8 decodeArith
  simp only [propext (byte_and80 _ (hs i)), propext (byte_andE0 _ (hs i)),
    propext (byte_andF0 _ (hs i)), propext (byte_andF8 _ (hs i)),
    contByte_iff _ (hs (i + 1)), contByte_iff _ (hs (i + 2)), contByte_iff _ (hs (i + 3)),
    decode_cp2, decode_cp3, decode_cp4]

theorem getD_lt_of_bytes (s : List Nat) (hs : ∀ b ∈ s, b < 256) (k : Nat) :
    s.getD k 0 < 256 := by
  by_cases hk : k < s.length
  · exact hs _ (getD_mem s k 0 hk)
  · rw [List.getD_eq_default s 0 (by omega)]
    decide

end VT

namespace VT

theorem decodeArith_invalid (s : List Nat) (i : Nat) (hinv : invalidUtf8At s i = true) :
    decodeArith s i = (0xFFFD, 1) := by
  unfold invalidUtf8At at hinv
  simp only [Bool.or_eq_true, Bool.and_eq_true, decide_eq_true_eq, Bool.not_eq_true',
    Bool.and_eq_false_iff, decide_eq_false_iff_not] at hinv
  unfold decodeArith
  split_ifs with h1 h2 h3 h4 h5 h6 h7 h8 h9 h10
  all_goals first
    | rfl
    | (exfalso; omega)
    | (exfalso
       rcases hinv with (((hh | hh) | hh) | hh) | hh
       all_goals first
         | omega
         | (obtain ⟨_, hh2⟩ := hh
            simp_all))

end VT

namespace VT

theorem invalidUtf8At_ge (s : List Nat) (i : Nat) (hinv : invalidUtf8At s i = true) :
    0x80 ≤ s.getD i 0 := by
  unfold invalidUtf8At at hinv
  simp only [Bool.or_eq_true, Bool.and_eq_true, decide_eq_true_eq] at hinv
  rcases hinv with (((hh | hh) | hh) | hh) | hh <;> omega

/-- C7: when the byte at index `i` of a byte string is an invalid lead byte
(`0x80..0xBF` or `0xF8..0xFF`), or a 2-, 3- or 4-byte lead whose sequence is cut by
the end of the input or whose following bytes are not all of the form `10xxxxxx`,
the decoder yields `(U+FFFD, 1)`; the iteration of `processSequence` at `i` is the
printing of U+FFFD, which writes the cell under the cursor and no other cell, and
leaves the index at `i`, so that the loop continues at `i + 1`, the very next
byte. -/
theorem C7_invalid_utf8_replaced (w h : Int) (s : List Nat) (i : Nat) (r : Renderer)
    (hs : ∀ b ∈ s, b < 256) (hi : i < s.length) (hinv : invalidUtf8At s i = true)
    (hg : GridOk w h r.grid) (hr : CursorOk w h r) :
    decodeUtf8 s i = (0xFFFD, 1) ∧
    processStep s i r = (i, placeChar 0xFFFD r) ∧
    (∀ fuel : Nat,
      processLoop (fuel + 1) s i r = processLoop fuel s (i + 1) (placeChar 0xFFFD r)) ∧
    (∀ x y : Int, getCell (placeChar 0xFFFD r).grid x y =
      if x = r.cursor_x ∧ y = r.cursor_y then { r.current_style with ch := 0xFFFD }
      else getCell r.grid x y) := by
  have hd : decodeUtf8 s i = (0xFFFD, 1) := by
    rw [decodeUtf8_arith s i (getD_lt_of_bytes s hs)]
    exact decodeArith_invalid s i hinv
  have hge := invalidUtf8At_ge s i hinv
  have hstep : processStep s i r = (i, placeChar 0xFFFD r) := by
    unfold processStep
    rw [if_neg (by omega), if_neg (by omega), if_neg (by omega), if_pos (by omega), hd]
    rfl
  refine ⟨hd, hstep, ?_, (placeChar_spec w h 0xFFFD r hg hr).2.2.2.1⟩
  intro fuel
  conv_lhs => unfold processLoop
  rw [if_pos hi, hstep]

/-- Witness for C7: in `A`, `0xE2`, `0x82` the 3-byte lead at index 1 is cut by the end
of the input. -/
theorem C7_invalid_utf8_replaced_witness :
    processStep [0x41, 0xE2, 0x82] 1 (Renderer.new 4 2) =
      (1, placeChar 0xFFFD (Renderer.new 4 2)) :=
  (C7_invalid_utf8_replaced 4 2 [0x41, 0xE2, 0x82] 1 (Renderer.new 4 2)
    (by decide) (by decide) (by decide) (by decide) (by decide)).2.1

end VT

namespace VT

/-! ## Round trip of well-formed UTF-8 text -/

/-- A byte of at least `0x20` outside an escape sequence is decoded and printed. -/
theorem processStep_text (s : List Nat) (i : Nat) (r : Renderer) (h : 0x20 ≤ s.getD i 0) :
    processStep s i r = (i + ((decodeUtf8 s i).2 - 1), placeChar (decodeUtf8 s i).1 r) := by
  unfold processStep
  rw [if_neg (by omega), if_neg (by omega), if_neg (by omega), if_pos (by omega)]

theorem isContByte_range (c : Nat) (h : isContByte c = true) : 0x80 ≤ c ∧ c ≤ 0xBF := by
  simpa [isContByte] using h

theorem decode1 (s : List Nat) (i : Nat) (h2 : s.getD i 0 ≤ 0x7F) :
    decodeArith s i = (s.getD i 0, 1) ∧ encodeArith (s.getD i 0) = [s.getD i 0] := by
  unfold decodeArith encodeArith
  rw [if_pos (by omega), if_pos h2]
  exact ⟨rfl, rfl⟩

theorem decode2 (s : List Nat) (i : Nat) (hlen : i + 1 < s.length)
    (h1 : 0xC2 ≤ s.getD i 0) (h2 : s.getD i 0 ≤ 0xDF)
    (c1 : isContByte (s.getD (i + 1) 0) = true) :
    decodeArith s i = (s.getD i 0 % 32 * 64 + s.getD (i + 1) 0 % 64, 2) ∧
    encodeArith (s.getD i 0 % 32 * 64 + s.getD (i + 1) 0 % 64)
      = [s.getD i 0, s.getD (i + 1) 0] := by
  have r1 := isContByte_range _ c1
  constructor
  · unfold decodeArith
    rw [if_neg (by omega), if_pos (by omega), if_pos hlen, if_pos c1]
  · unfold encodeArith
    rw [if_neg (by omega), if_pos (by omega)]
    simp only [List.cons.injEq, and_true]
    omega

theorem decode3 (s : List Nat) (i : Nat) (hlen : i + 2 < s.length)
    (h1 : 0xE0 ≤ s.getD i 0) (h2 : s.getD i 0 ≤ 0xEF)
    (c1 : isContByte (s.getD (i + 1) 0) = true) (c2 : isContByte (s.getD (i + 2) 0) = true)
    (h3 : s.getD i 0 = 0xE0 → 0xA0 ≤ s.getD (i + 1) 0) :
    decodeArith s i =
      (s.getD i 0 % 16 * 4096 + s.getD (i + 1) 0 % 64 * 64 + s.getD (i + 2) 0 % 64, 3) ∧
    encodeArith (s.getD i 0 % 16 * 4096 + s.getD (i + 1) 0 % 64 * 64 + s.getD (i + 2) 0 % 64)
      = [s.getD i 0, s.getD (i + 1) 0, s.getD (i + 2) 0] := by
  have r1 := isContByte_range _ c1
  have r2 := isContByte_range _ c2
  constructor
  · unfold decodeArith
    rw [if_neg (by omega), if_neg (by omega), if_pos (by omega), if_pos hlen, if_pos ⟨c1, c2⟩]
  · unfold encodeArith
    rw [if_neg (by omega), if_neg (by omega), if_pos (by omega)]
    simp only [List.cons.injEq, and_true]
    omega

theorem decode4 (s : List Nat) (i : Nat) (hlen : i + 3 < s.length)
    (h1 : 0xF0 ≤ s.getD i 0) (h2 : s.getD i 0 ≤ 0xF4)
    (c1 : isContByte (s.getD (i + 1) 0) = true) (c2 : isContByte (s.getD (i + 2) 0) = true)
    (c3 : isContByte (s.getD (i + 3) 0) = true)
    (h3 : s.getD i 0 = 0xF0 → 0x90 ≤ s.getD (i + 1) 0)
    (h4 : s.getD i 0 = 0xF4 → s.getD (i + 1) 0 ≤ 0x8F) :
    decodeArith s i =
      (s.getD i 0 % 8 * 262144 + s.getD (i + 1) 0 % 64 * 4096 +
        s.getD (i + 2) 0 % 64 * 64 + s.getD (i + 3) 0 % 64, 4) ∧
    encodeArith (s.getD i 0 % 8 * 262144 + s.getD (i + 1) 0 % 64 * 4096 +
        s.getD (i + 2) 0 % 64 * 64 + s.getD (i + 3) 0 % 64)
      = [s.getD i 0, s.getD (i + 1) 0, s.getD (i + 2) 0, s.getD (i + 3) 0] := by
  have r1 := isContByte_range _ c1
  have r2 := isContByte_range _ c2
  have r3 := isContByte_range _ c3
  constructor
  · unfold decodeArith
    rw [if_neg (by omega), if_neg (by omega), if_neg (by omega), if_pos (by omega),
      if_pos hlen, if_pos ⟨c1, c2, c3⟩]
  · unfold encodeArith
    rw [if_neg (by omega), if_neg (by omega), if_neg (by omega), if_pos (by omega)]
    simp only [List.cons.injEq, and_true]
    omega

end VT

namespace VT

theorem drop_cons_getD (s : List Nat) (i : Nat) (h : i < s.length) :
    s.drop i = s.getD i 0 :: s.drop (i + 1) := by
  rw [List.drop_eq_getElem_cons h, List.getD_eq_getElem s 0 h]

/-- At a well-formed sequence the decoder reads the whole sequence, and the encoder
gives the bytes of the sequence back from the decoded codepoint. -/
theorem utf8Item_decode (s : List Nat) (i : Nat) (hk : utf8ItemLength s i ≠ 0) :
    (decodeArith s i).2 = utf8ItemLength s i ∧
    encodeArith (decodeArith s i).1 ++ s.drop (i + utf8ItemLength s i) = s.drop i ∧
    0x20 ≤ s.getD i 0 := by
  unfold utf8ItemLength at hk ⊢
  split_ifs at hk ⊢ with c1 c2 c3 c4
  · obtain ⟨e1, e2⟩ := decode1 s i c1.2.2
    rw [e1, e2, drop_cons_getD s i c1.1]
    exact ⟨rfl, rfl, c1.2.1⟩
  · obtain ⟨e1, e2⟩ := decode2 s i c2.1 c2.2.1 c2.2.2.1 c2.2.2.2
    rw [e1, e2, drop_cons_getD s i (by omega), drop_cons_getD s (i + 1) c2.1]
    exact ⟨rfl, rfl, by omega⟩
  · obtain ⟨e1, e2⟩ := decode3 s i c3.1 c3.2.1 c3.2.2.1 c3.2.2.2.1 c3.2.2.2.2.1
      c3.2.2.2.2.2.1
    rw [e1, e2, drop_cons_getD s i (by omega), drop_cons_getD s (i + 1) (by omega),
      drop_cons_getD s (i + 2) c3.1]
    exact ⟨rfl, rfl, by omega⟩
  · obtain ⟨e1, e2⟩ := decode4 s i c4.1 c4.2.1 c4.2.2.1 c4.2.2.2.1 c4.2.2.2.2.1
      c4.2.2.2.2.2.1 c4.2.2.2.2.2.2.1 c4.2.2.2.2.2.2.2
    rw [e1, e2, drop_cons_getD s i (by omega), drop_cons_getD s (i + 1) (by omega),
      drop_cons_getD s (i + 2) (by omega), drop_cons_getD s (i + 3) c4.1]
    exact ⟨rfl, rfl, by omega⟩
  · exact absurd rfl hk

theorem utf8_text_induction (s : List Nat) (hs : ∀ b ∈ s, b < 256) :
    ∀ (fuel i : Nat), validUtf8From fuel s i = true →
      (decodeText fuel s i).flatMap utf8FromCodepoint = s.drop i ∧
      ∀ r : Renderer,
        processLoop fuel s i r = (decodeText fuel s i).foldl (fun q cp => placeChar cp q) r := by
  intro fuel
  induction fuel with
  | zero =>
    intro i hv
    have hlen : s.length ≤ i := by simpa [validUtf8From] using hv
    rw [List.drop_eq_nil_of_le hlen]
    exact ⟨rfl, fun r => rfl⟩
  | succ n ih =>
    intro i hv
    by_cases hi : s.length ≤ i
    · have h1 : decodeText (n + 1) s i = [] := by
        unfold decodeText; rw [if_neg (by omega)]
      rw [List.drop_eq_nil_of_le hi, h1]
      refine ⟨rfl, fun r => ?_⟩
      unfold processLoop
      rw [if_neg (by omega)]
      rfl
    · unfold validUtf8From at hv
      rw [if_neg hi, Bool.and_eq_true, decide_eq_true_eq] at hv
      obtain ⟨hk, hv2⟩ := hv
      obtain ⟨e1, e2, e3⟩ := utf8Item_decode s i hk
      have hd := decodeUtf8_arith s i (getD_lt_of_bytes s hs)
      have hidx : i + ((decodeUtf8 s i).2 - 1) + 1 = i + utf8ItemLength s i := by
        rw [hd, e1]; omega
      obtain ⟨ih1, ih2⟩ := ih (i + utf8ItemLength s i) hv2
      have h1 : decodeText (n + 1) s i =
          (decodeUtf8 s i).1 :: decodeText n s (i + utf8ItemLength s i) := by
        conv_lhs => unfold decodeText
        rw [if_pos (by omega), hidx]
      rw [h1]
      constructor
      · rw [List.flatMap_cons, ih1, hd, utf8FromCodepoint_arith, e2]
      · intro r
        conv_lhs => unfold processLoop
        rw [if_pos (by omega), processStep_text s i r e3, List.foldl_cons]
        simp only
        rw [hidx, ih2]

theorem getD_mid (pre enc post : List Nat) (k : Nat) (hk : k < enc.length) :
    (pre ++ enc ++ post).getD (pre.length + k) 0 = enc.getD k 0 := by
  rw [List.append_assoc, List.getD_append_right _ _ _ _ (by omega),
    List.getD_append _ _ _ _ (by omega)]
  congr 1
  omega

theorem utf8FromCodepoint_bytes (cp : Nat) : ∀ b ∈ utf8FromCodepoint cp, b < 256 := by
  intro b hb
  unfold utf8FromCodepoint at hb
  split_ifs at hb
  all_goals
    simp only [List.mem_cons, List.mem_singleton, List.not_mem_nil, or_false] at hb
  all_goals omega

/-- One codepoint, encoded and placed anywhere in a byte string, is decoded to
itself together with the length of its encoding. -/
theorem decode_encode (cp : Nat) (pre post : List Nat) (hpre : ∀ b ∈ pre, b < 256)
    (hpost : ∀ b ∈ post, b < 256) (hcp : cp ≤ 0x10FFFF) :
    decodeUtf8 (pre ++ utf8FromCodepoint cp ++ post) pre.length =
      (cp, (utf8FromCodepoint cp).length) := by
  have hs : ∀ b ∈ pre ++ utf8FromCodepoint cp ++ post, b < 256 := by
    intro b hb
    simp only [List.mem_append] at hb
    rcases hb with (h | h) | h
    · exact hpre b h
    · exact utf8FromCodepoint_bytes cp b h
    · exact hpost b h
  rw [decodeUtf8_arith _ _ (getD_lt_of_bytes _ hs), utf8FromCodepoint_arith]
  by_cases h1 : cp ≤ 0x7F
  · have he : encodeArith cp = [cp] := by unfold encodeArith; rw [if_pos h1]
    have g0 : (pre ++ [cp] ++ post).getD pre.length 0 = cp :=
      getD_mid pre [cp] post 0 (by simp)
    rw [he]
    unfold decodeArith
    rw [g0, if_pos (by omega)]
    rfl
  by_cases h2 : cp ≤ 0x7FF
  · have he : encodeArith cp = [0xC0 + cp / 64, 0x80 + cp % 64] := by
      unfold encodeArith; rw [if_neg h1, if_pos h2]
    have g0 : (pre ++ [0xC0 + cp / 64, 0x80 + cp % 64] ++ post).getD pre.length 0
        = 0xC0 + cp / 64 := getD_mid pre _ post 0 (by simp)
    have g1 : (pre ++ [0xC0 + cp / 64, 0x80 + cp % 64] ++ post).getD (pre.length + 1) 0
        = 0x80 + cp % 64 := getD_mid pre _ post 1 (by simp)
    have hl : pre.length + 1 < (pre ++ [0xC0 + cp / 64, 0x80 + cp % 64] ++ post).length := by
      simp only [List.length_append, List.length_cons, List.length_nil]; omega
    have hc1 : isContByte (0x80 + cp % 64) = true := by
      simp only [isContByte, Bool.and_eq_true, decide_eq_true_eq]; omega
    rw [he]
    unfold decodeArith
    rw [g0, g1, if_neg (by omega), if_pos (by omega), if_pos hl, if_pos hc1]
    simp only [Prod.mk.injEq, List.length_cons, List.length_nil, and_true]
    omega
  by_cases h3 : cp ≤ 0xFFFF
  · have he : encodeArith cp = [0xE0 + cp / 4096, 0x80 + cp / 64 % 64, 0x80 + cp % 64] := by
      unfold encodeArith; rw [if_neg h1, if_neg h2, if_pos h3]
    have g0 : (pre ++ [0xE0 + cp / 4096, 0x80 + cp / 64 % 64, 0x80 + cp % 64] ++ post).getD
        pre.length 0 = 0xE0 + cp / 4096 := getD_mid pre _ post 0 (by simp)
    have g1 : (pre ++ [0xE0 + cp / 4096, 0x80 + cp / 64 % 64, 0x80 + cp % 64] ++ post).getD
        (pre.length + 1) 0 = 0x80 + cp / 64 % 64 := getD_mid pre _ post 1 (by simp)
    have g2 : (pre ++ [0xE0 + cp / 4096, 0x80 + cp / 64 % 64, 0x80 + cp % 64] ++ post).getD
        (pre.length + 2) 0 = 0x80 + cp % 64 := getD_mid pre _ post 2 (by simp)
    have hl : pre.length + 2 <
        (pre ++ [0xE0 + cp / 4096, 0x80 + cp / 64 % 64, 0x80 + cp % 64] ++ post).length := by
      simp only [List.length_append, List.length_cons, List.length_nil]; omega
    have hc1 : isContByte (0x80 + cp / 64 % 64) = true := by
      simp only [isContByte, Bool.and_eq_true, decide_eq_true_eq]; omega
    have hc2 : isContByte (0x80 + cp % 64) = true := by
      simp only [isContByte, Bool.and_eq_true, decide_eq_true_eq]; omega
    rw [he]
    unfold decodeArith
    rw [g0, g1, g2, if_neg (by omega), if_neg (by omega), if_pos (by omega), if_pos hl,
      if_pos ⟨hc1, hc2⟩]
    simp only [Prod.mk.injEq, List.length_cons, List.length_nil, and_true]
    omega
  · have he : encodeArith cp =
        [0xF0 + cp / 262144, 0x80 + cp / 4096 % 64, 0x80 + cp / 64 % 64, 0x80 + cp % 64] := by
      unfold encodeArith; rw [if_neg h1, if_neg h2, if_neg h3, if_pos hcp]
    have g0 : (pre ++ [0xF0 + cp / 262144, 0x80 + cp / 4096 % 64, 0x80 + cp / 64 % 64,
        0x80 + cp % 64] ++ post).getD pre.length 0 = 0xF0 + cp / 262144 :=
      getD_mid pre _ post 0 (by simp)
    have g1 : (pre ++ [0xF0 + cp / 262144, 0x80 + cp / 4096 % 64, 0x80 + cp / 64 % 64,
        0x80 + cp % 64] ++ post).getD (pre.length + 1) 0 = 0x80 + cp / 4096 % 64 :=
      getD_mid pre _ post 1 (by simp)
    have g2 : (pre ++ [0xF0 + cp / 262144, 0x80 + cp / 4096 % 64, 0x80 + cp / 64 % 64,
        0x80 + cp % 64] ++ post).getD (pre.length + 2) 0 = 0x80 + cp / 64 % 64 :=
      getD_mid pre _ post 2 (by simp)
    have g3 : (pre ++ [0xF0 + cp / 262144, 0x80 + cp / 4096 % 64, 0x80 + cp / 64 % 64,
        0x80 + cp % 64] ++ post).getD (pre.length + 3) 0 = 0x80 + cp % 64 :=
      getD_mid pre _ post 3 (by simp)
    have hl : pre.length + 3 < (pre ++ [0xF0 + cp / 262144, 0x80 + cp / 4096 % 64,
        0x80 + cp / 64 % 64, 0x80 + cp % 64] ++ post).length := by
      simp only [List.length_append, List.length_cons, List.length_nil]; omega
    have hc1 : isContByte (0x80 + cp / 4096 % 64) = true := by
      simp only [isContByte, Bool.and_eq_true, decide_eq_true_eq]; omega
    have hc2 : isContByte (0x80 + cp / 64 % 64) = true := by
      simp only [isContByte, Bool.and_eq_true, decide_eq_true_eq]; omega
    have hc3 : isContByte (0x80 + cp % 64) = true := by
      simp only [isContByte, Bool.and_eq_true, decide_eq_true_eq]; omega
    rw [he]
    unfold decodeArith
    rw [g0, g1, g2, g3, if_neg (by omega), if_neg (by omega), if_neg (by omega),
      if_pos (by omega), if_pos hl, if_pos ⟨hc1, hc2, hc3⟩]
    simp only [Prod.mk.injEq, List.length_cons, List.length_nil, and_true]
    omega

end VT

namespace VT

theorem encode_valid (cp : Nat) (hsc : isScalar cp = true) (h20 : 0x20 ≤ cp) :
    validUtf8Text (utf8FromCodepoint cp) = true := by
  simp only [isScalar, Bool.and_eq_true, decide_eq_true_eq, Bool.not_eq_true',
    Bool.and_eq_false_iff, decide_eq_false_iff_not] at hsc
  obtain ⟨hcp, hsur⟩ := hsc
  rw [utf8FromCodepoint_arith]
  unfold encodeArith
  split_ifs with h1 h2 h3
  · have hk : utf8ItemLength [cp] 0 = 1 := by
      unfold utf8ItemLength
      rw [if_pos ⟨by simp, by simpa using h20, by simpa using h1⟩]
    simp [validUtf8Text, validUtf8From, hk]
  · have hk : utf8ItemLength [0xC0 + cp / 64, 0x80 + cp % 64] 0 = 2 := by
      unfold utf8ItemLength
      simp only [List.getD_cons_zero, List.getD_cons_succ, List.length_cons, List.length_nil,
        isContByte, Bool.and_eq_true, decide_eq_true_eq]
      rw [if_neg (by omega), if_pos (by omega)]
    simp [validUtf8Text, validUtf8From, hk]
  · have hk : utf8ItemLength [0xE0 + cp / 4096, 0x80 + cp / 64 % 64, 0x80 + cp % 64] 0 = 3 := by
      unfold utf8ItemLength
      simp only [List.getD_cons_zero, List.getD_cons_succ, List.length_cons, List.length_nil,
        isContByte, Bool.and_eq_true, decide_eq_true_eq]
      rw [if_neg (by omega), if_neg (by omega), if_pos (by omega)]
    simp [validUtf8Text, validUtf8From, hk]
  · have hk : utf8ItemLength
        [0xF0 + cp / 262144, 0x80 + cp / 4096 % 64, 0x80 + cp / 64 % 64, 0x80 + cp % 64] 0
          = 4 := by
      unfold utf8ItemLength
      simp only [List.getD_cons_zero, List.getD_cons_succ, List.length_cons, List.length_nil,
        isContByte, Bool.and_eq_true, decide_eq_true_eq]
      rw [if_neg (by omega), if_neg (by omega), if_neg (by omega), if_pos (by omega)]
    simp [validUtf8Text, validUtf8From, hk]

/-- C6: for every byte string `S` that is well-formed UTF-8 with all codepoints at
least U+0020, decoding `S` codepoint by codepoint with the decoder of
`processSequence` and encoding each codepoint again with `utf8FromCodepoint` gives
exactly `S`; `processSequence S` prints exactly these decoded codepoints, one
after the other. For every Unicode scalar value `cp ≥ 0x20`, the bytes
`utf8FromCodepoint cp` are such a well-formed text, and wherever they stand in a byte
string the decoder maps them to `(cp, number of bytes)`. -/
theorem C6_utf8_round_trip (S : List Nat) (hs : ∀ b ∈ S, b < 256)
    (hv : validUtf8Text S = true) :
    (decodeText S.length S 0).flatMap utf8FromCodepoint = S ∧
    (∀ r : Renderer, processSequence S r =
      (decodeText S.length S 0).foldl (fun q cp => placeChar cp q) r) ∧
    (∀ (cp : Nat) (pre post : List Nat), (∀ b ∈ pre, b < 256) → (∀ b ∈ post, b < 256) →
      isScalar cp = true → 0x20 ≤ cp →
        decodeUtf8 (pre ++ utf8FromCodepoint cp ++ post) pre.length =
          (cp, (utf8FromCodepoint cp).length) ∧
        validUtf8Text (utf8FromCodepoint cp) = true) := by
  obtain ⟨h1, h2⟩ := utf8_text_induction S hs S.length 0 hv
  rw [List.drop_zero] at h1
  refine ⟨h1, h2, ?_⟩
  intro cp pre post hpre hpost hsc h20
  have hcp : cp ≤ 0x10FFFF := by
    simp only [isScalar, Bool.and_eq_true, decide_eq_true_eq] at hsc
    exact hsc.1
  exact ⟨decode_encode cp pre post hpre hpost hcp, encode_valid cp hsc h20⟩

/-- Witness for C6: the text `A€😀é` (1-, 3-, 4- and 2-byte sequences). -/
theorem C6_utf8_round_trip_witness :
    (decodeText 10 [0x41, 0xE2, 0x82, 0xAC, 0xF0, 0x9F, 0x98, 0x80, 0xC3, 0xA9] 0).flatMap
        utf8FromCodepoint
      = [0x41, 0xE2, 0x82, 0xAC, 0xF0, 0x9F, 0x98, 0x80, 0xC3, 0xA9] :=
  (C6_utf8_round_trip [0x41, 0xE2, 0x82, 0xAC, 0xF0, 0x9F, 0x98, 0x80, 0xC3, 0xA9]
    (by decide) (by decide)).1

end VT

namespace VT

/-! ## Erase in display and erase in line -/

theorem clearCells_length (lo hi : Int) :
    ∀ (row : List Cell) (k : Int), (clearCells lo hi k row).length = row.length := by
  intro row
  induction row with
  | nil => intro k; rfl
  | cons c cs ih => intro k; simp only [clearCells, List.length_cons, ih]

theorem clearCells_getD (lo hi : Int) :
    ∀ (row : List Cell) (k : Int) (j : Nat), j < row.length →
      (clearCells lo hi k row).getD j defaultCell =
        if lo ≤ k + j ∧ k + j < hi then defaultCell else row.getD j defaultCell := by
  intro row
  induction row with
  | nil => intro k j hj; simp at hj
  | cons c cs ih =>
    intro k j hj
    cases j with
    | zero =>
      simp only [clearCells, List.getD_cons_zero, Nat.cast_zero, add_zero]
    | succ j2 =>
      simp only [clearCells, List.getD_cons_succ]
      rw [ih (k + 1) j2 (by simpa using hj)]
      have e : k + 1 + (j2 : Int) = k + ((j2 + 1 : Nat) : Int) := by push_cast; ring
      rw [e]

theorem mapRows_length (f : Int → List Cell → List Cell) :
    ∀ (grid : List (List Cell)) (k : Int), (mapRows f k grid).length = grid.length := by
  intro grid
  induction grid with
  | nil => intro k; rfl
  | cons row rows ih => intro k; simp only [mapRows, List.length_cons, ih]

theorem mapRows_getD (f : Int → List Cell → List Cell) :
    ∀ (grid : List (List Cell)) (k : Int) (j : Nat), j < grid.length →
      (mapRows f k grid).getD j [] = f (k + j) (grid.getD j []) := by
  intro grid
  induction grid with
  | nil => intro k j hj; simp at hj
  | cons row rows ih =>
    intro k j hj
    cases j with
    | zero => simp only [mapRows, List.getD_cons_zero, Nat.cast_zero, add_zero]
    | succ j2 =>
      simp only [mapRows, List.getD_cons_succ]
      rw [ih (k + 1) j2 (by simpa using hj)]
      have e : k + 1 + (j2 : Int) = k + ((j2 + 1 : Nat) : Int) := by push_cast; ring
      rw [e]

theorem mapRows_rows (f : Int → List Cell → List Cell) (n : Nat)
    (hf : ∀ (y : Int) (row : List Cell), (f y row).length = row.length) :
    ∀ (grid : List (List Cell)) (k : Int), (∀ row ∈ grid, row.length = n) →
      ∀ row ∈ mapRows f k grid, row.length = n := by
  intro grid
  induction grid with
  | nil => intro k _ row hrow; simp [mapRows] at hrow
  | cons r0 rows ih =>
    intro k hall row hrow
    simp only [mapRows, List.mem_cons] at hrow
    rcases hrow with h | h
    · rw [h, hf]
      exact hall r0 (List.mem_cons_self _ _)
    · exact ih (k + 1) (fun q hq => hall q (List.mem_cons_of_mem _ hq)) row h

/-- A row-wise update that keeps the length of every row keeps the extent of the
grid, and the cell `(x, y)` of the result is cell `x` of the updated row `y`. -/
theorem mapRows_spec (w h : Int) (grid : List (List Cell)) (hg : GridOk w h grid)
    (f : Int → List Cell → List Cell)
    (hf : ∀ (y : Int) (row : List Cell), (f y row).length = row.length) :
    GridOk w h (mapRows f 0 grid) ∧
    ∀ x y : Int, 0 ≤ x → x < w → 0 ≤ y → y < h →
      getCell (mapRows f 0 grid) x y = (f y (grid.getD y.toNat [])).getD x.toNat defaultCell := by
  refine ⟨⟨by rw [mapRows_length]; exact hg.1, mapRows_rows f _ hf grid 0 hg.2⟩, ?_⟩
  intro x y hx0 _ hy0 hy1
  unfold getCell
  rw [if_pos ⟨hx0, hy0⟩, mapRows_getD f grid 0 y.toNat (by rw [hg.1]; omega)]
  have e : (0 : Int) + (y.toNat : Int) = y := by omega
  rw [e]

theorem row_cell (grid : List (List Cell)) (x y : Int) (hx0 : 0 ≤ x) (hy0 : 0 ≤ y) :
    (grid.getD y.toNat []).getD x.toNat defaultCell = getCell grid x y := by
  unfold getCell
  rw [if_pos ⟨hx0, hy0⟩]

theorem clearCells_cell (w h : Int) (grid : List (List Cell)) (hg : GridOk w h grid)
    (lo hi x y : Int) (hx0 : 0 ≤ x) (hx1 : x < w) (hy0 : 0 ≤ y) (hy1 : y < h) :
    (clearCells lo hi 0 (grid.getD y.toNat [])).getD x.toNat defaultCell =
      if lo ≤ x ∧ x < hi then defaultCell else getCell grid x y := by
  rw [clearCells_getD lo hi _ 0 x.toNat
    (by rw [GridOk_row_length w h grid hg y hy0 hy1]; omega)]
  have e : (0 : Int) + (x.toNat : Int) = x := by omega
  rw [e, row_cell grid x y hx0 hy0]

theorem ite_cell (A B : Prop) [Decidable A] [Decidable B] (d g : Cell) (hab : A ↔ B) :
    (if A then d else g) = (if B then d else g) := by
  by_cases hA : A
  · rw [if_pos hA, if_pos (hab.mp hA)]
  · rw [if_neg hA, if_neg (fun hB => hA (hab.mpr hB))]

end VT

namespace VT

theorem erase_rows (w h : Int) (r : Renderer) (hg : GridOk w h r.grid)
    (f : Int → List Cell → List Cell) (region : Int → Int → Prop)
    [∀ x y, Decidable (region x y)]
    (hf : ∀ (y : Int) (row : List Cell), (f y row).length = row.length)
    (hcell : ∀ x y : Int, 0 ≤ x → x < w → 0 ≤ y → y < h →
      (f y (r.grid.getD y.toNat [])).getD x.toNat defaultCell =
        if region x y then defaultCell else getCell r.grid x y) :
    ErasedTo w h region r { r with grid := mapRows f 0 r.grid } := by
  obtain ⟨hG, hC⟩ := mapRows_spec w h r.grid hg f hf
  refine ⟨rfl, rfl, rfl, rfl, rfl, hG, ?_⟩
  intro x y hx0 hx1 hy0 hy1
  show getCell (mapRows f 0 r.grid) x y = _
  rw [hC x y hx0 hx1 hy0 hy1, hcell x y hx0 hx1 hy0 hy1]

theorem eraseInDisplay_zero (w h : Int) (r : Renderer) (hg : GridOk w h r.grid)
    (hr : CursorOk w h r) :
    ErasedTo w h (fun x y => (y = r.cursor_y ∧ r.cursor_x ≤ x) ∨ r.cursor_y < y) r
      (eraseInDisplay 0 r) := by
  obtain ⟨hrw, hrh, hx0, hx1, hy0, hy1⟩ := hr
  unfold eraseInDisplay
  rw [if_pos rfl]
  apply erase_rows w h r hg
  · intro y row
    dsimp only
    split_ifs <;> first | rfl | exact clearCells_length _ _ _ _
  · intro x y gx0 gx1 gy0 gy1
    dsimp only
    by_cases c1 : y = r.cursor_y
    · rw [if_pos c1, clearCells_cell w h r.grid hg _ _ x y gx0 gx1 gy0 gy1]
      exact ite_cell _ _ _ _ (by constructor <;> intro _ <;> omega)
    · rw [if_neg c1]
      by_cases c2 : r.cursor_y + 1 ≤ y ∧ y < r.height
      · rw [if_pos c2, clearCells_cell w h r.grid hg _ _ x y gx0 gx1 gy0 gy1]
        exact ite_cell _ _ _ _ (by constructor <;> intro _ <;> omega)
      · rw [if_neg c2, row_cell r.grid x y gx0 gy0, if_neg (by omega)]

theorem eraseInDisplay_one (w h : Int) (r : Renderer) (hg : GridOk w h r.grid)
    (hr : CursorOk w h r) :
    ErasedTo w h (fun x y => y < r.cursor_y ∨ (y = r.cursor_y ∧ x ≤ r.cursor_x)) r
      (eraseInDisplay 1 r) := by
  obtain ⟨hrw, hrh, hx0, hx1, hy0, hy1⟩ := hr
  unfold eraseInDisplay
  rw [if_neg (by decide), if_pos rfl]
  apply erase_rows w h r hg
  · intro y row
    dsimp only
    split_ifs <;> first | rfl | exact clearCells_length _ _ _ _
  · intro x y gx0 gx1 gy0 gy1
    dsimp only
    by_cases c1 : 0 ≤ y ∧ y < r.cursor_y
    · rw [if_pos c1, clearCells_cell w h r.grid hg _ _ x y gx0 gx1 gy0 gy1]
      exact ite_cell _ _ _ _ (by constructor <;> intro _ <;> omega)
    · rw [if_neg c1]
      by_cases c2 : y = r.cursor_y
      · rw [if_pos c2, clearCells_cell w h r.grid hg _ _ x y gx0 gx1 gy0 gy1]
        exact ite_cell _ _ _ _ (by constructor <;> intro _ <;> omega)
      · rw [if_neg c2, row_cell r.grid x y gx0 gy0, if_neg (by omega)]

theorem eraseInLine_zero (w h : Int) (r : Renderer) (hg : GridOk w h r.grid)
    (hr : CursorOk w h r) :
    ErasedTo w h (fun x y => y = r.cursor_y ∧ r.cursor_x ≤ x) r (eraseInLine 0 r) := by
  obtain ⟨hrw, hrh, hx0, hx1, hy0, hy1⟩ := hr
  unfold eraseInLine
  rw [if_pos rfl]
  apply erase_rows w h r hg
  · intro y row
    dsimp only
    split_ifs <;> first | rfl | exact clearCells_length _ _ _ _
  · intro x y gx0 gx1 gy0 gy1
    dsimp only
    by_cases c1 : y = r.cursor_y
    · rw [if_pos c1, clearCells_cell w h r.grid hg _ _ x y gx0 gx1 gy0 gy1]
      exact ite_cell _ _ _ _ (by constructor <;> intro _ <;> omega)
    · rw [if_neg c1, row_cell r.grid x y gx0 gy0, if_neg (by omega)]

theorem eraseInLine_one (w h : Int) (r : Renderer) (hg : GridOk w h r.grid)
    (hr : CursorOk w h r) :
    ErasedTo w h (fun x y => y = r.cursor_y ∧ x ≤ r.cursor_x) r (eraseInLine 1 r) := by
  obtain ⟨hrw, hrh, hx0, hx1, hy0, hy1⟩ := hr
  unfold eraseInLine
  rw [if_neg (by decide), if_pos rfl]
  apply erase_rows w h r hg
  · intro y row
    dsimp only
    split_ifs <;> first | rfl | exact clearCells_length _ _ _ _
  · intro x y gx0 gx1 gy0 gy1
    dsimp only
    by_cases c1 : y = r.cursor_y
    · rw [if_pos c1, clearCells_cell w h r.grid hg _ _ x y gx0 gx1 gy0 gy1]
      exact ite_cell _ _ _ _ (by constructor <;> intro _ <;> omega)
    · rw [if_neg c1, row_cell r.grid x y gx0 gy0, if_neg (by omega)]

theorem eraseInLine_two (w h : Int) (r : Renderer) (hg : GridOk w h r.grid)
    (hr : CursorOk w h r) :
    ErasedTo w h (fun _ y => y = r.cursor_y) r (eraseInLine 2 r) := by
  obtain ⟨hrw, hrh, hx0, hx1, hy0, hy1⟩ := hr
  unfold eraseInLine
  rw [if_neg (by decide), if_neg (by decide), if_pos rfl]
  apply erase_rows w h r hg
  · intro y row
    dsimp only
    split_ifs <;> first | rfl | exact clearCells_length _ _ _ _
  · intro x y gx0 gx1 gy0 gy1
    dsimp only
    by_cases c1 : y = r.cursor_y
    · rw [if_pos c1, clearCells_cell w h r.grid hg _ _ x y gx0 gx1 gy0 gy1]
      exact ite_cell _ _ _ _ (by constructor <;> intro _ <;> omega)
    · rw [if_neg c1, row_cell r.grid x y gx0 gy0, if_neg (by omega)]

/-- After `clear` the grid keeps its extent and every cell is the default `Cell`. -/
theorem clear_cells (w h : Int) (r : Renderer) (hg : GridOk w h r.grid) :
    GridOk w h (clear r).grid ∧
    ∀ x y : Int, 0 ≤ x → x < w → 0 ≤ y → y < h → getCell (clear r).grid x y = defaultCell := by
  have hlen : (clear r).grid.length = h.toNat := by
    simp only [clear, List.length_map]; exact hg.1
  have hrows : ∀ row ∈ (clear r).grid, row = List.replicate w.toNat defaultCell := by
    intro row hrow
    simp only [clear, List.mem_map] at hrow
    obtain ⟨q, hq, rfl⟩ := hrow
    rw [← hg.2 q hq]
    exact List.map_const' q empty_cell
  refine ⟨⟨hlen, fun row hrow => by rw [hrows row hrow, List.length_replicate]⟩, ?_⟩
  intro x y hx0 hx1 hy0 hy1
  rw [← row_cell _ x y hx0 hy0,
    hrows _ (getD_mem (clear r).grid y.toNat [] (by rw [hlen]; omega))]
  rw [List.getD_eq_getElem?_getD, List.getElem?_replicate, if_pos (by omega)]
  rfl

end VT

namespace VT

theorem parseCSI_erase_forms (r : Renderer) :
    parseCSI (ascii "0J") r = eraseInDisplay 0 r ∧
    parseCSI (ascii "1J") r = eraseInDisplay 1 r ∧
    parseCSI (ascii "2J") r = clear r ∧
    parseCSI (ascii "J") r = eraseInDisplay 1 r ∧
    parseCSI (ascii "0K") r = eraseInLine 0 r ∧
    parseCSI (ascii "1K") r = eraseInLine 1 r ∧
    parseCSI (ascii "2K") r = eraseInLine 2 r ∧
    parseCSI (ascii "K") r = eraseInLine 1 r :=
  ⟨rfl, rfl, rfl, rfl, rfl, rfl, rfl, rfl⟩

/-- C5: on a `w × h` grid with the cursor in bounds, `ESC[0J` resets to the default
`Cell` the cursor cell through the end of its row and all rows below, `ESC[1J` all
rows above and the cursor row from column 0 through the cursor cell, `ESC[0K`,
`ESC[1K`, `ESC[2K` the cells of the cursor row from the cursor on, up to the cursor
included, and all of them; each leaves every other cell, the cursor, the size and the
current style as they were. `ESC[2J` is `clear`: every cell becomes the default
`Cell` and the cursor goes to (0,0), the style being kept. `ESC[J` and `ESC[K`, with
an empty parameter, do what parameter 1 does, and `J` or `K` with a first parameter
other than 0, 1, 2 changes nothing. -/
theorem C5_erase_operations (w h : Int) (r : Renderer) (hg : GridOk w h r.grid)
    (hr : CursorOk w h r) :
    ErasedTo w h (fun x y => (y = r.cursor_y ∧ r.cursor_x ≤ x) ∨ r.cursor_y < y) r
      (parseCSI (ascii "0J") r) ∧
    ErasedTo w h (fun x y => y < r.cursor_y ∨ (y = r.cursor_y ∧ x ≤ r.cursor_x)) r
      (parseCSI (ascii "1J") r) ∧
    (parseCSI (ascii "2J") r = clear r ∧
      (clear r).cursor_x = 0 ∧ (clear r).cursor_y = 0 ∧
      (clear r).current_style = r.current_style ∧
      (clear r).width = r.width ∧ (clear r).height = r.height ∧
      GridOk w h (clear r).grid ∧
      ∀ x y : Int, 0 ≤ x → x < w → 0 ≤ y → y < h →
        getCell (clear r).grid x y = defaultCell) ∧
    ErasedTo w h (fun x y => y = r.cursor_y ∧ r.cursor_x ≤ x) r (parseCSI (ascii "0K") r) ∧
    ErasedTo w h (fun x y => y = r.cursor_y ∧ x ≤ r.cursor_x) r (parseCSI (ascii "1K") r) ∧
    ErasedTo w h (fun _ y => y = r.cursor_y) r (parseCSI (ascii "2K") r) ∧
    parseCSI (ascii "J") r = parseCSI (ascii "1J") r ∧
    parseCSI (ascii "K") r = parseCSI (ascii "1K") r ∧
    (∀ nums : List Int, nums.getD 0 0 ≠ 0 → nums.getD 0 0 ≠ 1 → nums.getD 0 0 ≠ 2 →
      csiDispatch 74 nums r = r ∧ csiDispatch 75 nums r = r) := by
  obtain ⟨e0, e1, e2, _, k0, k1, k2, _⟩ := parseCSI_erase_forms r
  rw [e0, e1, k0, k1, k2]
  refine ⟨eraseInDisplay_zero w h r hg hr, eraseInDisplay_one w h r hg hr,
    ⟨e2, rfl, rfl, rfl, rfl, rfl, (clear_cells w h r hg).1, (clear_cells w h r hg).2⟩,
    eraseInLine_zero w h r hg hr, eraseInLine_one w h r hg hr, eraseInLine_two w h r hg hr,
    rfl, rfl, ?_⟩
  intro nums n0 n1 n2
  constructor
  · show eraseInDisplay (nums.getD 0 0) r = r
    unfold eraseInDisplay
    rw [if_neg n0, if_neg n1, if_neg n2]
  · show eraseInLine (nums.getD 0 0) r = r
    unfold eraseInLine
    rw [if_neg n0, if_neg n1, if_neg n2]

/-- Witness for C5: a 4×3 grid holding `abcdefghij`, the cursor at (2, 2). -/
theorem C5_erase_operations_witness :
    parseCSI (ascii "J") (processSequence (ascii "abcdefghij") (Renderer.new 4 3)) =
      parseCSI (ascii "1J") (processSequence (ascii "abcdefghij") (Renderer.new 4 3)) :=
  (C5_erase_operations 4 3 (processSequence (ascii "abcdefghij") (Renderer.new 4 3))
    (by decide) (by decide)).2.2.2.2.2.2.1

end VT

namespace WebSocket

open VT

theorem helloStyled_step0 (r : Renderer) :
    processStep helloStyled 0 r = (3, parseCSI (ascii "2J") r) := rfl

theorem helloStyled_step4 (r : Renderer) :
    processStep helloStyled 4 r = (9, parseCSI (ascii "1;1H") r) := rfl

theorem helloStyled_step10 (r : Renderer) :
    processStep helloStyled 10 r = (14, parseCSI (ascii "31m") r) := rfl

theorem helloStyled_step15 (r : Renderer) :
    processStep helloStyled 15 r = (15, placeChar 65 r) := rfl

theorem helloStyled_step16 (r : Renderer) :
    processStep helloStyled 16 r = (16, placeChar 66 r) := rfl

theorem helloStyled_step17 (r : Renderer) :
    processStep helloStyled 17 r = (17, placeChar 67 r) := rfl

theorem helloStyled_step18 (r : Renderer) :
    processStep helloStyled 18 r = (21, parseCSI (ascii "0m") r) := rfl

end WebSocket

namespace VT

/-! ## Rendering rows of blank cells -/

theorem processLoop_step (fuel : Nat) (s : List Nat) (i : Nat) (r : Renderer)
    (hi : i < s.length) :
    processLoop (fuel + 1) s i r =
      processLoop fuel s ((processStep s i r).1 + 1) (processStep s i r).2 := by
  conv_lhs => unfold processLoop
  rw [if_pos hi]

theorem processLoop_end (fuel : Nat) (s : List Nat) (i : Nat) (r : Renderer)
    (hi : ¬i < s.length) : processLoop fuel s i r = r := by
  cases fuel with
  | zero => rfl
  | succ n => unfold processLoop; rw [if_neg hi]

theorem placeChar_grid (w h : Int) (cp : Nat) (r : Renderer) (hr : CursorOk w h r) :
    (placeChar cp r).grid =
      setCell r.grid r.cursor_x r.cursor_y { r.current_style with ch := cp } ∧
    (placeChar cp r).width = w ∧ (placeChar cp r).height = h := by
  obtain ⟨hrw, hrh, hx0, hx1, hy0, hy1⟩ := hr
  unfold placeChar
  rw [if_pos (by rw [hrw, hrh]; exact ⟨hy0, hy1, hx0, hx1⟩)]
  dsimp only
  split_ifs
  · exact ⟨rfl, hrw, hrh⟩
  · exact ⟨rfl, hrw, hrh⟩

theorem lineHasContent_blank (w : Int) (n : Nat) :
    lineHasContent w (List.replicate n defaultCell) = false := by
  unfold lineHasContent
  rw [List.any_eq_false]
  intro c hc
  have hc2 := List.eq_of_mem_replicate (List.mem_of_mem_take hc)
  subst hc2
  decide

/-- Between two cells without any style attribute the style does not change. -/
theorem styleChanged_plain (cell last_style : Cell) (hc : hasStyle cell = false)
    (hl : hasStyle last_style = false) : styleChanged cell last_style false = false := by
  simp only [hasStyle, Bool.or_eq_false_iff] at hc hl
  obtain ⟨⟨⟨⟨⟨h1, h2⟩, h3⟩, h4⟩, h5⟩, h6⟩ := hl
  obtain ⟨⟨⟨⟨⟨c1, c2⟩, c3⟩, c4⟩, c5⟩, c6⟩ := hc
  simp [styleChanged, h1, h2, h3, h4, h5, h6, c1, c2, c3, c4, c5, c6]

/-- The first cell of a row, when it has no style attribute, is written as its text
alone. -/
theorem renderCells_plain_first (cell last_style : Cell) (rest : List Cell)
    (hc : hasStyle cell = false) :
    renderCells (cell :: rest) last_style false true =
      cellText cell ++ renderCells rest cell false false := by
  rw [renderCells]
  simp [styleChanged, hc]

/-- A cell without style attribute after cells without style attribute is written as
its text alone. -/
theorem renderCells_plain_next (cell last_style : Cell) (rest : List Cell)
    (hc : hasStyle cell = false) (hl : hasStyle last_style = false) :
    renderCells (cell :: rest) last_style false false =
      cellText cell ++ renderCells rest last_style false false := by
  rw [renderCells, styleChanged_plain cell last_style hc hl]
  simp

/-- Blank cells after a cell without style attributes are written as spaces,
without any tag. -/
theorem renderCells_blank (last_style : Cell) (hl : hasStyle last_style = false) :
    ∀ n : Nat, renderCells (List.replicate n defaultCell) last_style false false =
      List.replicate n 0x20 := by
  intro n
  induction n with
  | zero => rfl
  | succ k ih =>
    rw [List.replicate_succ, renderCells_plain_next defaultCell last_style _ rfl hl, ih]
    rfl

/-- The search for the last line with content stops at row 0 when row 0 has content
and all the rows below it are blank. -/
theorem scanContent_first_row (w : Int) (row0 : List Cell) (n m : Nat) (d : Int)
    (h0 : lineHasContent w row0 = true) :
    ∀ k : Nat, k ≤ m →
      scanContent (row0 :: List.replicate m (List.replicate n defaultCell)) w (k + 1) d = 0 := by
  intro k
  induction k with
  | zero =>
    intro _
    simp only [scanContent, List.getD_cons_zero, h0, if_true]
    rfl
  | succ j ih =>
    intro hj
    have hjm : j < m := by omega
    have hrow : (List.replicate m (List.replicate n defaultCell)).getD j [] =
        List.replicate n defaultCell := by
      rw [List.getD_eq_getElem?_getD, List.getElem?_replicate, if_pos hjm]
      rfl
    rw [scanContent, List.getD_cons_succ, hrow, lineHasContent_blank]
    simp only [Bool.false_eq_true, if_false]
    exact ih (by omega)

end VT

namespace WebSocket

open VT

theorem helloStyled_run (r : Renderer) :
    processSequence helloStyled r =
      parseCSI (ascii "0m") (placeChar 67 (placeChar 66 (placeChar 65
        (parseCSI (ascii "31m") (parseCSI (ascii "1;1H") (parseCSI (ascii "2J") r)))))) := by
  have hlen : helloStyled.length = 22 := rfl
  unfold processSequence
  rw [hlen, processLoop_step 21 helloStyled 0 r (by decide), helloStyled_step0]
  show processLoop 21 helloStyled 4 (parseCSI (ascii "2J") r) = _
  rw [processLoop_step 20 helloStyled 4 _ (by decide), helloStyled_step4]
  show processLoop 20 helloStyled 10 (parseCSI (ascii "1;1H") (parseCSI (ascii "2J") r)) = _
  rw [processLoop_step 19 helloStyled 10 _ (by decide), helloStyled_step10]
  show processLoop 19 helloStyled 15 _ = _
  rw [processLoop_step 18 helloStyled 15 _ (by decide), helloStyled_step15]
  show processLoop 18 helloStyled 16 _ = _
  rw [processLoop_step 17 helloStyled 16 _ (by decide), helloStyled_step16]
  show processLoop 17 helloStyled 17 _ = _
  rw [processLoop_step 16 helloStyled 17 _ (by decide), helloStyled_step17]
  show processLoop 16 helloStyled 18 _ = _
  rw [processLoop_step 15 helloStyled 18 _ (by decide), helloStyled_step18]
  show processLoop 15 helloStyled 22 _ = _
  rw [processLoop_end 15 helloStyled 22 _ (by decide)]

theorem first_renderer (w h : Int) :
    (if vt_renderer0.width ≠ w ∨ vt_renderer0.height ≠ h then resize w h vt_renderer0
      else vt_renderer0) = Renderer.new w h := by
  split_ifs with hc
  · rfl
  · have h1 : w = 120 := by
      by_contra hne
      exact hc (Or.inl (fun e => hne e.symm))
    have h2 : h = 30 := by
      by_contra hne
      exact hc (Or.inr (fun e => hne e.symm))
    subst h1 h2
    rfl

theorem clear_new (w h : Int) : clear (Renderer.new w h) = Renderer.new w h := by
  unfold clear Renderer.new blankGrid
  simp only [List.map_replicate, List.map_const', List.length_replicate]
  rfl

theorem helloStyled_call (w h : Int) :
    processToResoniteHTML w h helloStyled vt_renderer0 =
      (renderToResoniteHTML (processSequence helloStyled (Renderer.new w h)),
        processSequence helloStyled (Renderer.new w h)) := by
  have hclear : (containsBytes (0x1B :: ascii "[2J") helloStyled ||
      containsBytes (0x1B :: ascii "[0J") helloStyled ||
      containsBytes (0x1B :: ascii "[1J") helloStyled ||
      (startsWith (0x1B :: ascii "[1;1") helloStyled ||
        startsWith (0x1B :: ascii "[0;0") helloStyled ||
        startsWith (0x1B :: ascii "[;") helloStyled)) = true := by decide
  unfold processToResoniteHTML
  dsimp only
  rw [if_pos hclear, first_renderer, clear_new]

end WebSocket

namespace WebSocket

open VT

theorem placeChar_inside (cp : Nat) (r : Renderer)
    (hin : 0 ≤ r.cursor_y ∧ r.cursor_y < r.height ∧ 0 ≤ r.cursor_x ∧ r.cursor_x < r.width)
    (hnext : r.cursor_x + 1 < r.width) :
    placeChar cp r =
      { r with
        grid := setCell r.grid r.cursor_x r.cursor_y { r.current_style with ch := cp },
        cursor_x := r.cursor_x + 1 } := by
  unfold placeChar
  rw [if_pos hin]
  dsimp only
  rw [if_neg (by omega)]

theorem blankGrid_cons (n m : Nat) :
    blankGrid ((n : Int) + 3) ((m : Int) + 1) =
      (defaultCell :: defaultCell :: defaultCell :: List.replicate n defaultCell) ::
        List.replicate m (List.replicate (n + 3) defaultCell) := by
  have h1 : ((n : Int) + 3).toNat = n + 3 := by omega
  have h2 : ((m : Int) + 1).toNat = m + 1 := by omega
  unfold blankGrid
  rw [h1, h2]
  rfl

/-- The grid after "Hello, styled" on a fresh renderer of `n + 3` columns and `m + 1`
rows: `A`, `B`, `C` in the default style at the start of row 0, every other cell
blank. -/
theorem helloStyled_grid (n m : Nat) :
    (processSequence helloStyled (Renderer.new ((n : Int) + 3) ((m : Int) + 1))).grid =
      ({ defaultCell with ch := 65 } :: { defaultCell with ch := 66 } ::
        { defaultCell with ch := 67 } :: List.replicate n defaultCell) ::
        List.replicate m (List.replicate (n + 3) defaultCell) ∧
    (processSequence helloStyled (Renderer.new ((n : Int) + 3) ((m : Int) + 1))).width
      = (n : Int) + 3 ∧
    (processSequence helloStyled (Renderer.new ((n : Int) + 3) ((m : Int) + 1))).height
      = (m : Int) + 1 := by
  have e1 : parseCSI (ascii "2J") (Renderer.new ((n : Int) + 3) ((m : Int) + 1)) =
      Renderer.new ((n : Int) + 3) ((m : Int) + 1) := clear_new _ _
  have e2 : parseCSI (ascii "1;1H") (Renderer.new ((n : Int) + 3) ((m : Int) + 1)) =
      Renderer.new ((n : Int) + 3) ((m : Int) + 1) := by
    have e2a : parseCSI (ascii "1;1H") (Renderer.new ((n : Int) + 3) ((m : Int) + 1)) =
        ensureValidCursor (Renderer.new ((n : Int) + 3) ((m : Int) + 1)) := rfl
    rw [e2a]
    exact ensureValidCursor_of_ok ((n : Int) + 3) ((m : Int) + 1) _
      ⟨rfl, rfl, le_refl 0, by show (0 : Int) < (n : Int) + 3; omega, le_refl 0,
        by show (0 : Int) < (m : Int) + 1; omega⟩
  have e3 : parseCSI (ascii "31m") (Renderer.new ((n : Int) + 3) ((m : Int) + 1)) =
      Renderer.new ((n : Int) + 3) ((m : Int) + 1) := rfl
  have p1 := placeChar_inside 65 (Renderer.new ((n : Int) + 3) ((m : Int) + 1))
    ⟨le_refl 0, by show (0 : Int) < (m : Int) + 1; omega, le_refl 0,
      by show (0 : Int) < (n : Int) + 3; omega⟩
    (by show (0 : Int) + 1 < (n : Int) + 3; omega)
  have p2 := placeChar_inside 66 (placeChar 65 (Renderer.new ((n : Int) + 3) ((m : Int) + 1)))
    (by rw [p1]; exact ⟨le_refl 0, by show (0 : Int) < (m : Int) + 1; omega,
      by show (0 : Int) ≤ 0 + 1; omega, by show (0 : Int) + 1 < (n : Int) + 3; omega⟩)
    (by rw [p1]; show (0 : Int) + 1 + 1 < (n : Int) + 3; omega)
  have c2 : CursorOk ((n : Int) + 3) ((m : Int) + 1)
      (placeChar 66 (placeChar 65 (Renderer.new ((n : Int) + 3) ((m : Int) + 1)))) := by
    rw [p2, p1]
    exact ⟨rfl, rfl, by show (0 : Int) ≤ 0 + 1 + 1; omega,
      by show (0 : Int) + 1 + 1 < (n : Int) + 3; omega, le_refl 0,
      by show (0 : Int) < (m : Int) + 1; omega⟩
  obtain ⟨g3, w3, h3⟩ := placeChar_grid _ _ 67 _ c2
  rw [helloStyled_run, e1, e2, e3]
  refine ⟨?_, w3, h3⟩
  show (placeChar 67 (placeChar 66 (placeChar 65
    (Renderer.new ((n : Int) + 3) ((m : Int) + 1))))).grid = _
  rw [g3, p2, p1]
  show setCell (setCell (setCell (blankGrid ((n : Int) + 3) ((m : Int) + 1)) 0 0 _)
    (0 + 1) 0 _) (0 + 1 + 1) 0 _ = _
  rw [blankGrid_cons]
  rfl

theorem helloStyled_render (n m : Nat) (r : Renderer)
    (hg : r.grid =
      ({ defaultCell with ch := 65 } :: { defaultCell with ch := 66 } ::
        { defaultCell with ch := 67 } :: List.replicate n defaultCell) ::
        List.replicate m (List.replicate (n + 3) defaultCell))
    (hw : r.width = (n : Int) + 3) (hh : r.height = (m : Int) + 1) :
    renderToResoniteHTML r = ascii "ABC" ++ List.replicate n 0x20 := by
  have h1 : ((n : Int) + 3).toNat = n + 3 := by omega
  have h2 : ((m : Int) + 1).toNat = m + 1 := by omega
  have hc : lineHasContent ((n : Int) + 3)
      ({ defaultCell with ch := 65 } :: { defaultCell with ch := 66 } ::
        { defaultCell with ch := 67 } :: List.replicate n defaultCell) = true := by
    unfold lineHasContent
    rw [h1]
    rfl
  have hlast : lastContentLine r = 0 := by
    unfold lastContentLine
    rw [hg, hw, hh, h2]
    exact scanContent_first_row _ _ (n + 3) m _ hc m (le_refl m)
  unfold renderToResoniteHTML
  rw [hlast, hg, hw]
  show renderRows _ _ 0 1 0 = _
  simp only [renderRows, lt_self_iff_false, if_false, List.append_nil]
  show renderRow _ ({ defaultCell with ch := 65 } :: { defaultCell with ch := 66 } ::
        { defaultCell with ch := 67 } :: List.replicate n defaultCell) = _
  unfold renderRow
  rw [h1, List.take_of_length_le (by simp)]
  rw [renderCells_plain_first { defaultCell with ch := 65 } _ _ rfl,
    renderCells_plain_next { defaultCell with ch := 66 } { defaultCell with ch := 65 } _ rfl rfl,
    renderCells_plain_next { defaultCell with ch := 67 } { defaultCell with ch := 65 } _ rfl rfl,
    renderCells_blank { defaultCell with ch := 65 } rfl n]
  rfl

end WebSocket

namespace WebSocket

open VT

theorem helloStyled_markup (w h : Int) :
    (processToResoniteHTML w h helloStyled vt_renderer0).1 =
      renderToResoniteHTML (processSequence helloStyled (Renderer.new w h)) := by
  rw [helloStyled_call]

theorem parseSGR_31 (r : Renderer) : parseSGR [31] r = r := by
  have h1 : sgrSimple 31 r.current_style = r.current_style := by
    unfold sgrSimple
    simp only [show ¬((31 : Int) = 0) by decide, show ¬((31 : Int) = 1) by decide,
      show ¬((31 : Int) = 22) by decide, show ¬((31 : Int) = 3) by decide,
      show ¬((31 : Int) = 23) by decide, show ¬((31 : Int) = 4) by decide,
      show ¬((31 : Int) = 24) by decide, show ¬((31 : Int) = 7) by decide,
      show ¬((31 : Int) = 27) by decide, show ¬((31 : Int) = 39) by decide,
      show ¬((31 : Int) = 49) by decide, if_false]
  have h2 : sgrLoop ([31] : List Int).length [31] 0 r.current_style = r.current_style := by
    show sgrLoop (0 + 1) [31] 0 _ = _
    rw [sgrLoop_succ_cons, sgrStep_simple 31 [] _ (by decide) (by decide)]
    simp only [List.drop_nil]
    rw [sgrLoop_nil, h1]
  unfold parseSGR
  rw [h2]

/-- C2, amended: from the freshly constructed renderer, with the terminal at any
size of at least 3 columns and 1 row, the markup returned for "Hello, styled" is
`ABC` followed by the spaces of the rest of row 0 (`width - 3` of them, 117 at the
initial size 120×30) and nothing else, without any tag and without `<br>`: SGR 31 is
not a code `parseSGR` handles and leaves every renderer unchanged, and a rendered
row is written at its full width. -/
theorem C2_hello_styled (w h : Int) (hw : 3 ≤ w) (hh : 1 ≤ h) :
    (processToResoniteHTML w h helloStyled vt_renderer0).1
      = ascii "ABC" ++ List.replicate (w - 3).toNat 0x20 ∧
    ∀ r : Renderer, parseSGR [31] r = r := by
  have key : ∀ n m : Nat,
      (processToResoniteHTML ((n : Int) + 3) ((m : Int) + 1) helloStyled vt_renderer0).1
        = ascii "ABC" ++ List.replicate n 0x20 := by
    intro n m
    rw [helloStyled_markup]
    exact helloStyled_render n m
      (processSequence helloStyled (Renderer.new ((n : Int) + 3) ((m : Int) + 1)))
      (helloStyled_grid n m).1 (helloStyled_grid n m).2.1 (helloStyled_grid n m).2.2
  refine ⟨?_, parseSGR_31⟩
  have hw2 : w = (((w - 3).toNat : Nat) : Int) + 3 := by omega
  have hh2 : h = (((h - 1).toNat : Nat) : Int) + 1 := by omega
  have hk := key (w - 3).toNat (h - 1).toNat
  rw [← hw2, ← hh2] at hk
  exact hk

/-- Witness for C2 (amended): the terminal at the initial size 120×30. -/
theorem C2_hello_styled_witness :
    (processToResoniteHTML 120 30 helloStyled vt_renderer0).1
      = ascii "ABC" ++ List.replicate 117 0x20 :=
  (C2_hello_styled 120 30 (by decide) (by decide)).1

end WebSocket

namespace VT

/-! ## The 256-colour palette and the hexadecimal form -/

/-- C15: for every n in 0..255 `ansi256ToRgb` returns the colour of the ANSI-256
definition (system-16 palette, 6x6x6 cube with levels 0 and 55 + 40x, grey ramp
8 + 10(n-232)), every channel is at most 255 and the result is below 2^24. -/
theorem C15_ansi256_palette (n : Nat) (hn : n ≤ 255) :
    ansi256ToRgb (n : Int) = packRgb (ansi256Channels n) ∧
    (ansi256Channels n).1 ≤ 255 ∧ (ansi256Channels n).2.1 ≤ 255 ∧
    (ansi256Channels n).2.2 ≤ 255 ∧ ansi256ToRgb (n : Int) < 2 ^ 24 := by
  have h : ∀ m : Nat, m < 256 →
      (ansi256ToRgb (m : Int) = packRgb (ansi256Channels m) ∧
      (ansi256Channels m).1 ≤ 255 ∧ (ansi256Channels m).2.1 ≤ 255 ∧
      (ansi256Channels m).2.2 ≤ 255 ∧ ansi256ToRgb (m : Int) < 2 ^ 24) := by
    decide!
  exact h n (by omega)

theorem C15_ansi256_palette_witness :
    (196 : Nat) ≤ 255 ∧ ansi256ToRgb ((196 : Nat) : Int) = packRgb (ansi256Channels 196) := by
  exact ⟨by decide, (C15_ansi256_palette 196 (by decide)).1⟩

end VT

namespace VT

theorem hexDigit_lower : ∀ d : Nat, d < 16 →
    (hexDigit d = lowerHexChar d ∧ isLowerHex (hexDigit d) = true) := by
  decide!

/-- The digits printed by `std::hex`, padded to width 6, are the six digits of the
number. -/
theorem hexDigits_padded (v : Nat) (hv : v < 16777216) :
    List.replicate (6 - (hexDigits 8 v []).length) 48 ++ hexDigits 8 v [] =
      (sixHexDigits v).map hexDigit := by
  have z : hexDigit 0 = 48 := rfl
  unfold sixHexDigits
  by_cases h1 : v / 16 = 0
  · have e1 : v / 1048576 % 16 = 0 := by omega
    have e2 : v / 65536 % 16 = 0 := by omega
    have e3 : v / 4096 % 16 = 0 := by omega
    have e4 : v / 256 % 16 = 0 := by omega
    have e5 : v / 16 % 16 = 0 := by omega
    simp [hexDigits, h1, e1, e2, e3, e4, e5, z]
  · by_cases h2 : v / 16 / 16 = 0
    · have e1 : v / 1048576 % 16 = 0 := by omega
      have e2 : v / 65536 % 16 = 0 := by omega
      have e3 : v / 4096 % 16 = 0 := by omega
      have e4 : v / 256 % 16 = 0 := by omega
      simp [hexDigits, h1, h2, e1, e2, e3, e4, z]
    · by_cases h3 : v / 16 / 16 / 16 = 0
      · have e1 : v / 1048576 % 16 = 0 := by omega
        have e2 : v / 65536 % 16 = 0 := by omega
        have e3 : v / 4096 % 16 = 0 := by omega
        have e4 : v / 16 / 16 % 16 = v / 256 % 16 := by omega
        simp [hexDigits, h1, h2, h3, e1, e2, e3, e4, z]
      · by_cases h4 : v / 16 / 16 / 16 / 16 = 0
        · have e1 : v / 1048576 % 16 = 0 := by omega
          have e2 : v / 65536 % 16 = 0 := by omega
          have e3 : v / 16 / 16 / 16 % 16 = v / 4096 % 16 := by omega
          have e4 : v / 16 / 16 % 16 = v / 256 % 16 := by omega
          simp [hexDigits, h1, h2, h3, h4, e1, e2, e3, e4, z]
        · by_cases h5 : v / 16 / 16 / 16 / 16 / 16 = 0
          · have e1 : v / 1048576 % 16 = 0 := by omega
            have e2 : v / 16 / 16 / 16 / 16 % 16 = v / 65536 % 16 := by omega
            have e3 : v / 16 / 16 / 16 % 16 = v / 4096 % 16 := by omega
            have e4 : v / 16 / 16 % 16 = v / 256 % 16 := by omega
            simp [hexDigits, h1, h2, h3, h4, h5, e1, e2, e3, e4, z]
          · have h6 : v / 16 / 16 / 16 / 16 / 16 / 16 = 0 := by omega
            have e1 : v / 16 / 16 / 16 / 16 / 16 % 16 = v / 1048576 % 16 := by omega
            have e2 : v / 16 / 16 / 16 / 16 % 16 = v / 65536 % 16 := by omega
            have e3 : v / 16 / 16 / 16 % 16 = v / 4096 % 16 := by omega
            have e4 : v / 16 / 16 % 16 = v / 256 % 16 := by omega
            simp [hexDigits, h1, h2, h3, h4, h5, h6, e1, e2, e3, e4, z]

/-- C16: `rgbToHex` returns `#` followed by the six lowercase hexadecimal digits of
`rgb mod 2^24`, zero-padded: seven characters in all, whatever the bits above the
low 24. -/
theorem C16_rgbToHex_six_digits (rgb : Nat) :
    rgbToHex rgb = 35 :: (sixHexDigits (rgb % 2 ^ 24)).map lowerHexChar ∧
    (rgbToHex rgb).length = 7 ∧
    (∀ b ∈ (rgbToHex rgb).tail, isLowerHex b = true) ∧
    (sixHexDigits (rgb % 2 ^ 24)).foldl (fun a d => a * 16 + d) 0 = rgb % 2 ^ 24 := by
  have hv : rgb % 2 ^ 24 < 16777216 := Nat.mod_lt _ (by decide)
  have hm : rgb &&& 0xFFFFFF = rgb % 2 ^ 24 := and_mask rgb 24 _ (by decide)
  have hd : ∀ d ∈ sixHexDigits (rgb % 2 ^ 24), d < 16 := by
    intro d hd
    simp only [sixHexDigits, List.mem_cons, List.mem_singleton, List.not_mem_nil, or_false] at hd
    omega
  have e : rgbToHex rgb = 35 :: (sixHexDigits (rgb % 2 ^ 24)).map hexDigit := by
    unfold rgbToHex
    simp only [hm]
    rw [hexDigits_padded _ hv]
  have e2 : (sixHexDigits (rgb % 2 ^ 24)).map hexDigit =
      (sixHexDigits (rgb % 2 ^ 24)).map lowerHexChar :=
    List.map_congr_left (fun d h => (hexDigit_lower d (hd d h)).1)
  refine ⟨by rw [e, e2], by rw [e]; simp [sixHexDigits], ?_, ?_⟩
  · intro b hb
    rw [e, List.tail_cons, List.mem_map] at hb
    obtain ⟨d, hd1, rfl⟩ := hb
    exact (hexDigit_lower d (hd d hd1)).2
  · simp only [sixHexDigits, List.foldl]
    omega

end VT

namespace VT

/-! ## The rows written by renderToResoniteHTML -/

theorem lineHasContent_eq (w : Int) (row : List Cell) (h : row.length = w.toNat) :
    lineHasContent w row = rowHasContent row := by
  unfold lineHasContent rowHasContent
  rw [← h, List.take_length]

/-- Without a row with content the search keeps its initial value. -/
theorem scanContent_none (grid : List (List Cell)) (w d : Int) :
    ∀ n : Nat, (∀ y, y < n → lineHasContent w (grid.getD y []) = false) →
      scanContent grid w n d = d := by
  intro n
  induction n with
  | zero => intro _; rfl
  | succ k ih =>
    intro h
    unfold scanContent
    rw [h k (by omega)]
    exact ih (fun y hy => h y (by omega))

/-- The search returns the greatest index of a row with content. -/
theorem scanContent_last (grid : List (List Cell)) (w d : Int) (L : Nat)
    (hL : lineHasContent w (grid.getD L []) = true) :
    ∀ n : Nat, L < n → (∀ y, y < n → L < y → lineHasContent w (grid.getD y []) = false) →
      scanContent grid w n d = (L : Int) := by
  intro n
  induction n with
  | zero => intro h; omega
  | succ k ih =>
    intro hk h
    unfold scanContent
    by_cases e : k = L
    · subst e
      rw [hL]
      rfl
    · rw [h k (by omega) (by omega)]
      exact ih (by omega) (fun y hy hy2 => h y (by omega) hy2)

theorem intercalate_cons_cons (sep a b : List Nat) (l : List (List Nat)) :
    List.intercalate sep (a :: b :: l) = a ++ sep ++ List.intercalate sep (b :: l) := by
  simp [List.intercalate, List.intersperse]

theorem intercalate_single (sep a : List Nat) : List.intercalate sep [a] = a := by
  simp [List.intercalate, List.intersperse]

/-- The loop over the rows writes the rows `j .. L` joined by line breaks. -/
theorem renderRows_join (grid : List (List Cell)) (w : Int) (L : Nat) (hL : L < grid.length) :
    ∀ k j : Nat, j + k = L + 1 →
      renderRows grid w (L : Int) k (j : Int) =
        List.intercalate (ascii "<br>") (((grid.drop j).take k).map (renderRow w)) := by
  intro k
  induction k with
  | zero => intro j _; rfl
  | succ n ih =>
    intro j hj
    have hjl : j < grid.length := by omega
    have hd : grid.drop j = grid.getD j [] :: grid.drop (j + 1) := by
      rw [List.getD_eq_getElem _ _ hjl]
      exact List.drop_eq_getElem_cons hjl
    unfold renderRows
    have e1 : ((j : Int) + 1) = ((j + 1 : Nat) : Int) := by push_cast; rfl
    rw [Int.toNat_ofNat, e1, ih (j + 1) (by omega), hd, List.take_succ_cons, List.map_cons]
    cases n with
    | zero =>
      rw [if_neg (by omega)]
      simp [List.intercalate]
    | succ m =>
      have hd2 : grid.drop (j + 1) = grid.getD (j + 1) [] :: grid.drop (j + 1 + 1) := by
        rw [List.getD_eq_getElem _ _ (by omega)]
        exact List.drop_eq_getElem_cons (by omega)
      rw [if_pos (by omega), hd2, List.take_succ_cons, List.map_cons, intercalate_cons_cons]

/-- The markup of a renderer whose last row with content is row `L`. -/
theorem render_rows_to (r : Renderer) (L : Nat) (hL : L < r.grid.length)
    (hl : lastContentLine r = (L : Int)) :
    renderToResoniteHTML r =
      List.intercalate (ascii "<br>") ((r.grid.take (L + 1)).map (renderRow r.width)) := by
  unfold renderToResoniteHTML
  rw [hl]
  have e : ((L : Int) + 1).toNat = L + 1 := by omega
  have := renderRows_join r.grid r.width L hL (L + 1) 0 (by omega)
  rw [e]
  simpa using this

/-- C13: when row `L` is the last row with content, the markup is the renderings of
the rows 0..L joined by `<br>`; a row of spaces without background colour has no
content whatever its other attributes, a row with a cell that has a background
colour has content. -/
theorem C13_trailing_rows_trimmed (w h : Int) (r : Renderer) (L : Nat)
    (hw : r.width = w) (hh : r.height = h) (hg : GridOk w h r.grid)
    (hL : L < h.toNat) (hc : rowHasContent (r.grid.getD L []) = true)
    (hlast : ∀ y, y < h.toNat → L < y → rowHasContent (r.grid.getD y []) = false) :
    renderToResoniteHTML r =
      List.intercalate (ascii "<br>") ((r.grid.take (L + 1)).map (renderRow w)) ∧
    (∀ row : List Cell, (∀ c ∈ row, c.ch = 0x20 ∧ c.has_bg_color = false) →
      lineHasContent w row = false) ∧
    (∀ (pre post : List Cell) (c : Cell), c.has_bg_color = true → pre.length < w.toNat →
      lineHasContent w (pre ++ c :: post) = true) := by
  have hrow : ∀ y, y < h.toNat →
      lineHasContent w (r.grid.getD y []) = rowHasContent (r.grid.getD y []) := by
    intro y hy
    apply lineHasContent_eq
    have hy2 : y < r.grid.length := by rw [hg.1]; exact hy
    rw [List.getD_eq_getElem _ _ hy2]
    exact hg.2 _ (List.getElem_mem _)
  have hl : lastContentLine r = (L : Int) := by
    unfold lastContentLine
    rw [hw, hh]
    apply scanContent_last _ _ _ _ (by rw [hrow L hL]; exact hc) _ hL
    intro y hy hy2
    rw [hrow y hy]
    exact hlast y hy hy2
  refine ⟨?_, ?_, ?_⟩
  · rw [render_rows_to r L (by rw [hg.1]; exact hL) hl, hw]
  · intro row hrow2
    unfold lineHasContent
    rw [List.any_eq_false]
    intro c hc2
    have := hrow2 c (List.mem_of_mem_take hc2)
    simp [this.1, this.2]
  · intro pre post c hbg hpre
    unfold lineHasContent
    rw [List.any_eq_true]
    refine ⟨c, ?_, by simp [hbg]⟩
    rw [List.take_append_eq_append_take]
    apply List.mem_append_right
    have : w.toNat - pre.length = (w.toNat - pre.length - 1) + 1 := by omega
    rw [this, List.take_succ_cons]
    exact List.mem_cons_self _ _

end VT

namespace VT

theorem C13_trailing_rows_trimmed_witness :
    GridOk 2 3 trimExample.grid ∧
    renderToResoniteHTML trimExample =
      List.intercalate (ascii "<br>") ((trimExample.grid.take 2).map (renderRow 2)) ∧
    renderToResoniteHTML trimExample = ascii "  <br><mark=#0000ff> </closeall> " := by
  have h := (C13_trailing_rows_trimmed 2 3 trimExample 1 rfl rfl (by decide) (by decide)
    (by decide) (by decide)).1
  exact ⟨by decide, h, by decide!⟩

theorem renderRow_blank (w : Int) (hw : 1 ≤ w) :
    renderRow w (List.replicate w.toNat defaultCell) = List.replicate w.toNat 0x20 := by
  unfold renderRow
  obtain ⟨k, hk⟩ : ∃ k, w.toNat = k + 1 := ⟨w.toNat - 1, by omega⟩
  rw [hk, List.take_replicate, Nat.min_self, List.replicate_succ,
    renderCells_plain_first defaultCell defaultCell _ rfl, renderCells_blank defaultCell rfl,
    List.replicate_succ]
  rfl

/-- Evaluation of `renderToResoniteHTML` on a blank grid: with no row that has
content the variable `last_content_line` keeps its initial value, and the rows up to
it are written as runs of `width` spaces joined by `<br>`. -/
theorem blank_grid_markup (w h : Int) (r : Renderer) (hw : 1 ≤ w) (hh : 1 ≤ h)
    (hrw : r.width = w) (hrh : r.height = h) (hg : r.grid = blankGrid w h) :
    renderToResoniteHTML r =
      List.intercalate (ascii "<br>") (List.replicate h.toNat (List.replicate w.toNat 0x20)) ∧
    renderToResoniteHTML r ≠ [] := by
  have hl : lastContentLine r = ((h.toNat - 1 : Nat) : Int) := by
    unfold lastContentLine
    rw [hrw, hrh, scanContent_none]
    · omega
    · intro y _
      rw [hg]
      unfold blankGrid
      by_cases hy : y < h.toNat
      · rw [List.getD_eq_getElem _ _ (by rw [List.length_replicate]; exact hy),
          List.getElem_replicate]
        exact lineHasContent_blank w _
      · rw [List.getD_eq_default _ _ (by rw [List.length_replicate]; omega)]
        exact lineHasContent_blank w 0
  have hlen : r.grid.length = h.toNat := by rw [hg]; unfold blankGrid; simp
  have e := render_rows_to r (h.toNat - 1) (by omega) hl
  have e1 : h.toNat - 1 + 1 = r.grid.length := by omega
  rw [e1, List.take_length, hrw, hg] at e
  unfold blankGrid at e
  rw [List.map_replicate, renderRow_blank w hw] at e
  refine ⟨e, ?_⟩
  rw [e]
  obtain ⟨m, hm⟩ : ∃ m, h.toNat = m + 1 := ⟨h.toNat - 1, by omega⟩
  obtain ⟨k, hk⟩ : ∃ k, w.toNat = k + 1 := ⟨w.toNat - 1, by omega⟩
  rw [hm, hk]
  cases m with
  | zero => simp [List.intercalate, List.replicate_succ]
  | succ j => simp [List.intercalate, List.replicate_succ, List.intersperse]

/-- C12, amended: a fully blank grid of width and height at least 1 is never rendered
as the empty string. The markup begins with row 0 written at its full width, `width`
spaces without any tag, and it consists of rows so written, at least one and at most
`height` of them, joined by `<br>`. -/
theorem C12_blank_grid_not_empty (w h : Int) (r : Renderer) (hw : 1 ≤ w) (hh : 1 ≤ h)
    (hrw : r.width = w) (hrh : r.height = h) (hg : r.grid = blankGrid w h) :
    renderToResoniteHTML r ≠ [] ∧
    (renderToResoniteHTML r).take w.toNat = List.replicate w.toNat 0x20 ∧
    ∃ k : Nat, 1 ≤ k ∧ k ≤ h.toNat ∧
      renderToResoniteHTML r =
        List.intercalate (ascii "<br>") (List.replicate k (List.replicate w.toNat 0x20)) := by
  obtain ⟨e, hne⟩ := blank_grid_markup w h r hw hh hrw hrh hg
  refine ⟨hne, ?_, h.toNat, by omega, le_refl _, e⟩
  rw [e]
  obtain ⟨m, hm⟩ : ∃ m, h.toNat = m + 1 := ⟨h.toNat - 1, by omega⟩
  rw [hm, List.replicate_succ]
  cases m with
  | zero =>
    rw [List.replicate_zero, intercalate_single]
    exact List.take_of_length_le (by simp)
  | succ j =>
    rw [List.replicate_succ, intercalate_cons_cons, List.append_assoc]
    exact List.take_left' (by simp)

theorem C12_blank_grid_not_empty_witness :
    renderToResoniteHTML (Renderer.new 2 1) ≠ [] ∧
    (renderToResoniteHTML (Renderer.new 2 1)).take 2 = [0x20, 0x20] ∧
    ∃ k : Nat, 1 ≤ k ∧ k ≤ 1 ∧
      renderToResoniteHTML (Renderer.new 2 1) =
        List.intercalate (ascii "<br>") (List.replicate k (List.replicate 2 0x20)) :=
  C12_blank_grid_not_empty 2 1 (Renderer.new 2 1) (by decide) (by decide) rfl rfl rfl

/-- C12 (as stated) fails: the blank grid of one cell is rendered as one space, the
blank 2x2 grid as two rows of two spaces with a `<br>` between them. -/
theorem C12_blank_grid_counterexample :
    (Renderer.new 1 1).grid = [[defaultCell]] ∧
    renderToResoniteHTML (Renderer.new 1 1) = ascii " " ∧
    renderToResoniteHTML (Renderer.new 2 2) = ascii "  <br>  " ∧
    renderToResoniteHTML (Renderer.new 1 1) ≠ [] := by
  decide!

end VT

namespace VT

/-! ## A CSI sequence without final byte -/

/-- Without a byte in `0x40..0x7E` the search for the final byte ends at the end of
the text. -/
theorem scanFinal_none : ∀ (rest : List Nat) (e : Nat),
    (∀ b ∈ rest, ¬(0x40 ≤ b ∧ b ≤ 0x7E)) → scanFinal rest e = e + rest.length := by
  intro rest
  induction rest with
  | nil => intro e _; rfl
  | cons t rest ih =>
    intro e h
    unfold scanFinal
    rw [if_neg (h t (List.mem_cons_self _ _)),
      ih (e + 1) (fun b hb => h b (List.mem_cons_of_mem _ hb)), List.length_cons]
    omega

/-- C11 (as stated) fails: `ESC [ 1 2` without final byte is not dropped. On a fresh
4x1 grid it writes `[`, `1` and `2` into the first three cells and moves the cursor
to column 3. -/
theorem C11_unterminated_csi_counterexample :
    (∀ b ∈ ascii "12", ¬(0x40 ≤ b ∧ b ≤ 0x7E)) ∧
    processSequence (esc "[12") (Renderer.new 4 1) ≠ Renderer.new 4 1 ∧
    ((processSequence (esc "[12") (Renderer.new 4 1)).grid.map (fun row => row.map Cell.ch))
      = [ascii "[12 "] ∧
    (processSequence (esc "[12") (Renderer.new 4 1)).cursor_x = 3 := by
  decide!

/-- C11, amended: when the loop of `processSequence` is at an `ESC [` after which no
byte up to the end of the text is in `0x40..0x7E`, the iteration at the `ESC` changes
nothing and does not move the index past the sequence; the next iteration prints
`[` as an ordinary character, and the loop goes on with the byte after it. -/
theorem C11_unterminated_csi_printed (s : List Nat) (i fuel : Nat) (r : Renderer)
    (h1 : s.getD i 0 = 0x1B) (h2 : i + 1 < s.length) (h3 : s.getD (i + 1) 0 = 0x5B)
    (h4 : ∀ b ∈ s.drop (i + 2), ¬(0x40 ≤ b ∧ b ≤ 0x7E)) :
    processStep s i r = (i, r) ∧
    processStep s (i + 1) r = (i + 1, placeChar 0x5B r) ∧
    processLoop (fuel + 2) s i r = processLoop fuel s (i + 2) (placeChar 0x5B r) := by
  have e1 : processStep s i r = (i, r) := by
    unfold processStep
    simp only []
    rw [if_pos ⟨h1, h2, h3⟩, scanFinal_none _ _ h4, List.length_drop, if_neg (by omega)]
  have e2 : processStep s (i + 1) r = (i + 1, placeChar 0x5B r) := by
    have := processStep_ascii s (i + 1) r (by rw [h3]; decide) (by rw [h3]; decide)
    rw [h3] at this
    exact this
  refine ⟨e1, e2, ?_⟩
  rw [processLoop_step (fuel + 1) s i r (by omega), e1, processLoop_step fuel s (i + 1) r h2, e2]

theorem C11_unterminated_csi_printed_witness :
    processStep (esc "[12") 0 (Renderer.new 4 1) = (0, Renderer.new 4 1) ∧
    processStep (esc "[12") (0 + 1) (Renderer.new 4 1) =
      (0 + 1, placeChar 0x5B (Renderer.new 4 1)) ∧
    processLoop (2 + 2) (esc "[12") 0 (Renderer.new 4 1) =
      processLoop 2 (esc "[12") (0 + 2) (placeChar 0x5B (Renderer.new 4 1)) :=
  C11_unterminated_csi_printed (esc "[12") 0 2 (Renderer.new 4 1) (by decide) (by decide)
    (by decide) (by decide)

end VT

namespace VT

/-! ## The extents of the grid are kept -/

end VT

namespace WebSocket

open VT

/-! ## Repeated calls with the same snapshot -/

end WebSocket

namespace WebSocket

open VT

/-! ## Text frames -/

theorem pushLength8_eq (n : Nat) : pushLength8 n = bigEndian 8 n := by
  simp only [pushLength8, bigEndian, List.map, Nat.shiftRight_eq_div_pow]
  norm_num

theorem fromBigEndian_two (n : Nat) (h : n < 65536) : fromBigEndian (bigEndian 2 n) = n := by
  simp only [fromBigEndian, bigEndian, List.foldl]
  omega

theorem fromBigEndian_eight (n : Nat) (h : n < 18446744073709551616) :
    fromBigEndian (bigEndian 8 n) = n := by
  simp only [fromBigEndian, bigEndian, List.foldl]
  norm_num
  omega

/-- The frame built by `sendFrame` is the frame of the specification. -/
theorem frameOf_eq (data : List Nat) :
    frameOf data = 0x81 :: (wsLengthField data.length ++ data) := by
  unfold frameOf wsLengthField
  dsimp only
  by_cases h1 : data.length < 126
  · rw [if_pos h1, if_pos h1, Nat.mod_eq_of_lt (by omega)]
    rfl
  · rw [if_neg h1, if_neg h1]
    by_cases h2 : data.length < 65536
    · rw [if_pos h2, if_pos h2]
      have e1 : (data.length &&& 0xFF) % 256 = data.length % 256 := by
        rw [and_mask data.length 8 _ (by decide)]
        omega
      have e2 : data.length >>> 8 % 256 = data.length / 256 ^ 1 % 256 := by
        rw [Nat.shiftRight_eq_div_pow]
        norm_num
      rw [e1, e2]
      simp [bigEndian]
    · rw [if_neg h2, if_neg h2, pushLength8_eq]
      rfl

theorem wsLengthField_length (n : Nat) :
    (wsLengthField n).length = if n < 126 then 1 else if n < 65536 then 3 else 9 := by
  unfold wsLengthField
  split_ifs <;> rfl

end WebSocket

namespace WebSocket

open VT

theorem frameOf_length (data : List Nat) :
    (frameOf data).length =
      data.length + (if data.length < 126 then 2 else if data.length < 65536 then 4 else 10) := by
  rw [frameOf_eq, List.length_cons, List.length_append, wsLengthField_length]
  split_ifs <;> omega

/-- A frame of less than 2^31 bytes is offered to the socket as a whole. -/
theorem sentBytes_small (data : List Nat) (h : data.length + 10 < 2147483648) :
    sentBytes data = frameOf data := by
  have hl := frameOf_length data
  have hb : (frameOf data).length < 2147483648 := by
    rw [hl]; split_ifs <;> omega
  unfold sentBytes wrap32
  have e : ((((frameOf data).length : Int) + 2147483648) % 4294967296 - 2147483648).toNat =
      (frameOf data).length := by omega
  rw [e, List.take_length]

/-- Of a frame of 2^32 + 5 bytes only the first five bytes are offered to the socket,
and `sendFrame` returns `true` when `send` accepts these five. -/
theorem sentBytes_huge (data : List Nat) (h : data.length = 4294967291) :
    (frameOf data).length = 4294967301 ∧
    sentBytes data = [0x81, 0x7F, 0, 0, 0] ∧ sendFrame 5 data = true := by
  have hl : (frameOf data).length = 4294967301 := by
    rw [frameOf_length, h]; rfl
  have hw : wrap32 (((frameOf data).length : Nat) : Int) = 5 := by
    rw [hl]; rfl
  refine ⟨hl, ?_, ?_⟩
  · unfold sentBytes
    rw [hw, frameOf_eq, h]
    rfl
  · unfold sendFrame
    rw [hw]
    rfl

/-- C17, the part that holds: for every payload of `n` bytes with `n + 10 < 2^31`
the bytes offered to the socket are `0x81`, the length field (the byte `n` below 126;
`0x7E` and `n` in 2 big-endian bytes below 65536; otherwise `0x7F` and `n` in 8
big-endian bytes), and the payload unchanged: `n + 2`, `n + 4` or `n + 10` bytes. -/
theorem C17_text_frame_encoding (data : List Nat) (h : data.length + 10 < 2147483648) :
    sentBytes data = 0x81 :: (wsLengthField data.length ++ data) ∧
    (sentBytes data).length =
      data.length + (if data.length < 126 then 2 else if data.length < 65536 then 4 else 10) ∧
    (data.length < 65536 → fromBigEndian (bigEndian 2 data.length) = data.length) ∧
    fromBigEndian (bigEndian 8 data.length) = data.length ∧
    sendFrame ((sentBytes data).length : Int) data = true := by
  have e := sentBytes_small data h
  have hl := frameOf_length data
  refine ⟨by rw [e, frameOf_eq], by rw [e, hl], fun h2 => fromBigEndian_two _ h2,
    fromBigEndian_eight _ (by omega), ?_⟩
  have hb : (frameOf data).length < 2147483648 := by
    rw [hl]; split_ifs <;> omega
  unfold sendFrame wrap32
  rw [e]
  have e2 : (((frameOf data).length : Int) + 2147483648) % 4294967296 - 2147483648 =
      ((frameOf data).length : Int) := by omega
  rw [e2]
  exact beq_self_eq_true _

theorem C17_text_frame_encoding_witness :
    sentBytes (ascii "hi") = [0x81, 0x02, 0x68, 0x69] ∧
    sendFrame 4 (ascii "hi") = true := by
  have h := C17_text_frame_encoding (ascii "hi") (by decide)
  exact ⟨h.1, by decide⟩

/-- C17 (as stated) fails for a payload of 2^32 - 5 bytes: the frame has 2^32 + 5
bytes, the cast `(int)frame.size()` gives 5, so only the bytes `81 7f 00 00 00` are
offered to the socket, and `sendFrame` reports success when those five are sent. -/
theorem C17_frame_size_truncated :
    (List.replicate 4294967291 0x78).length = 4294967291 ∧
    (frameOf (List.replicate 4294967291 0x78)).length = 4294967301 ∧
    sentBytes (List.replicate 4294967291 0x78) = [0x81, 0x7F, 0, 0, 0] ∧
    sendFrame 5 (List.replicate 4294967291 0x78) = true :=
  ⟨List.length_replicate _ _, sentBytes_huge _ (List.length_replicate _ _)⟩

end WebSocket

namespace WebSocket

open VT

/-! ## Frames with the MASK bit -/

theorem mask_bits : ∀ n : Nat, n < 126 →
    ((n + 128) &&& 128 = 128 ∧ (n + 128) &&& 127 = n) := by
  decide!

/-- A multiple of 256 combined by `|||` with a byte is their sum. -/
theorem or_low (x b : Nat) (hx : x % 256 = 0) (hb : b < 256) : x ||| b = x + b := by
  have e : x = 2 ^ 8 * (x / 256) := by norm_num; omega
  rw [e, Nat.mul_add_lt_is_or (by norm_num; exact hb)]

/-- One step of the loop that reads the 64-bit length. -/
theorem readLength_step (acc b : Nat) (hb : b < 256) :
    ((acc <<< 8) % 18446744073709551616) ||| b = (acc * 256) % 18446744073709551616 + b := by
  rw [Nat.shiftLeft_eq]
  norm_num
  exact or_low _ b (by omega) hb

theorem readLength8_eq (pre rest : List Nat) (n : Nat) (h : n < 18446744073709551616) :
    readLength8 (pre ++ bigEndian 8 n ++ rest) pre.length = n := by
  have hg : ∀ i, i < 8 → (pre ++ bigEndian 8 n ++ rest).getD (pre.length + i) 0 =
      (bigEndian 8 n).getD i 0 := by
    intro i hi
    rw [List.append_assoc, List.getD_append_right _ _ _ _ (by omega)]
    have : pre.length + i - pre.length = i := by omega
    rw [this, List.getD_append _ _ _ _ (by simp [bigEndian]; exact hi)]
  unfold readLength8
  simp only [List.range, List.range.loop, List.foldl]
  rw [hg 0 (by omega), hg 1 (by omega), hg 2 (by omega), hg 3 (by omega), hg 4 (by omega),
    hg 5 (by omega), hg 6 (by omega), hg 7 (by omega)]
  simp only [bigEndian, List.getD_cons_zero, List.getD_cons_succ]
  rw [readLength_step _ _ (Nat.mod_lt _ (by decide)), readLength_step _ _ (Nat.mod_lt _ (by decide)),
    readLength_step _ _ (Nat.mod_lt _ (by decide)), readLength_step _ _ (Nat.mod_lt _ (by decide)),
    readLength_step _ _ (Nat.mod_lt _ (by decide)), readLength_step _ _ (Nat.mod_lt _ (by decide)),
    readLength_step _ _ (Nat.mod_lt _ (by decide)), readLength_step _ _ (Nat.mod_lt _ (by decide))]
  norm_num
  omega

end WebSocket

namespace WebSocket

open VT

/-- The result of `parseFrame` on a frame with the MASK bit whose header, masking key
and payload are all there: the bytes after the masking key, unchanged. -/
theorem parseFrame_complete (data : List Nat) (len7 payload_len offset : Nat)
    (hlen : 2 ≤ data.length)
    (hm : data.getD 1 0 &&& 0x80 = 0x80) (h7 : data.getD 1 0 &&& 0x7F = len7)
    (hpl : (if len7 = 126 then (data.getD 2 0 <<< 8) ||| data.getD (2 + 1) 0
        else if len7 = 127 then readLength8 data 2 else len7) = payload_len)
    (hoff : (if len7 = 126 then 2 + 2 else if len7 = 127 then 2 + 8 else 2) = offset)
    (hfit : offset + 4 + payload_len ≤ data.length)
    (hsmall : offset + 4 + payload_len < 18446744073709551616) :
    parseFrame data = (data.drop (offset + 4)).take payload_len := by
  have c1 : ¬(len7 = 126 ∧ data.length < 2 + 2) := by
    rintro ⟨a, b⟩
    rw [if_pos a] at hoff
    omega
  have c2 : ¬(len7 = 127 ∧ data.length < 2 + 8) := by
    rintro ⟨a, b⟩
    rw [if_neg (by omega), if_pos a] at hoff
    omega
  have e : ((128 : Nat) != 0) = true := rfl
  unfold parseFrame
  rw [if_neg (by omega)]
  simp only [hm, h7]
  rw [hpl, hoff, if_neg c1, if_neg c2]
  simp only [e, true_and, if_true]
  rw [if_neg (by omega), if_neg (by rw [Nat.mod_eq_of_lt hsmall]; omega)]

theorem parseFrame_masked (b0 : Nat) (key p : List Nat) (hk : key.length = 4)
    (hn : p.length < 9223372036854775808) : parseFrame (maskedFrame b0 key p) = p := by
  have hdrop : ∀ (pre : List Nat) (k : Nat), k = pre.length + 4 →
      ((pre ++ key ++ p).drop k).take p.length = p := by
    intro pre k hk2
    rw [List.drop_left' (by rw [List.length_append, hk, hk2]), List.take_length]
  by_cases h1 : p.length < 126
  · have hf : maskedFrame b0 key p = [b0, p.length + 128] ++ key ++ p := by
      unfold maskedFrame wsLengthField
      rw [if_pos h1]
      rfl
    obtain ⟨m1, m2⟩ := mask_bits p.length h1
    have hl : ([b0, p.length + 128] ++ key ++ p).length = p.length + 6 := by
      simp [hk]; omega
    rw [hf, parseFrame_complete ([b0, p.length + 128] ++ key ++ p) p.length p.length 2
      (by omega) m1 m2
      (by rw [if_neg (by omega), if_neg (by omega)])
      (by rw [if_neg (by omega), if_neg (by omega)]) (by omega) (by omega)]
    exact hdrop _ _ rfl
  · by_cases h2 : p.length < 65536
    · have hf : maskedFrame b0 key p =
          [b0, 254, p.length / 256 % 256, p.length % 256] ++ key ++ p := by
        unfold maskedFrame wsLengthField
        rw [if_neg h1, if_pos h2]
        simp [bigEndian]
      have hl : ([b0, 254, p.length / 256 % 256, p.length % 256] ++ key ++ p).length =
          p.length + 8 := by
        simp [hk]; omega
      have hv : ((p.length / 256 % 256) <<< 8) ||| (p.length % 256) = p.length := by
        rw [shiftLeft_or_eq_add _ _ 8 (by norm_num; omega)]
        norm_num
        omega
      rw [hf, parseFrame_complete ([b0, 254, p.length / 256 % 256, p.length % 256] ++ key ++ p)
        126 p.length 4 (by omega) (by simp; decide!) (by simp; decide!)
        (by rw [if_pos rfl]; exact hv) rfl (by omega) (by omega)]
      exact hdrop _ _ rfl
    · have hf : maskedFrame b0 key p = [b0, 255] ++ bigEndian 8 p.length ++ [] ++ key ++ p := by
        unfold maskedFrame wsLengthField
        rw [if_neg h1, if_neg h2]
        simp [bigEndian]
      have hl : ([b0, 255] ++ bigEndian 8 p.length ++ [] ++ key ++ p).length =
          p.length + 14 := by
        simp [hk, bigEndian]; omega
      have hv : readLength8 ([b0, 255] ++ bigEndian 8 p.length ++ [] ++ key ++ p) 2 = p.length := by
        have := readLength8_eq [b0, 255] (key ++ p) p.length (by omega)
        simpa using this
      rw [hf, parseFrame_complete ([b0, 255] ++ bigEndian 8 p.length ++ [] ++ key ++ p)
        127 p.length 10 (by omega) (by simp; decide!) (by simp; decide!)
        (by rw [if_neg (by decide), if_pos rfl]; exact hv) rfl (by omega) (by omega)]
      have := hdrop ([b0, 255] ++ bigEndian 8 p.length) 14 (by simp [bigEndian])
      simpa using this

/-- C18 (as stated) fails: for the complete masked frame `81 85 37 fa 21 3d 7f 9f 4d
51 58` the XOR of the payload with the key is the text `Hello`, but `parseFrame`
returns the five payload bytes as they are on the wire. -/
theorem C18_masked_frame_counterexample :
    maskedFrame 0x81 helloKey helloMasked =
      [0x81, 0x85, 0x37, 0xfa, 0x21, 0x3d, 0x7f, 0x9f, 0x4d, 0x51, 0x58] ∧
    xorMask helloKey helloMasked = ascii "Hello" ∧
    parseFrame (maskedFrame 0x81 helloKey helloMasked) = helloMasked ∧
    parseFrame (maskedFrame 0x81 helloKey helloMasked) ≠ xorMask helloKey helloMasked := by
  decide!

/-- C18, amended: for every complete frame with the MASK bit set, whatever its first
byte, its 4-byte masking key and its payload bytes `p` (fewer than 2^63),
`parseFrame` skips the masking key and returns the payload bytes `p` as they are on
the wire, without applying the key. -/
theorem C18_masked_payload_returned_raw (b0 : Nat) (key p : List Nat) (hk : key.length = 4)
    (hn : p.length < 9223372036854775808) :
    parseFrame (maskedFrame b0 key p) = p :=
  parseFrame_masked b0 key p hk hn

theorem C18_masked_payload_returned_raw_witness :
    parseFrame [0x81, 0x85, 0x37, 0xfa, 0x21, 0x3d, 0x7f, 0x9f, 0x4d, 0x51, 0x58] =
      [0x7f, 0x9f, 0x4d, 0x51, 0x58] :=
  C18_masked_payload_returned_raw 0x81 helloKey helloMasked (by decide) (by decide)

end WebSocket

namespace WebSocket

open VT

/-! ## base64Encode is the standard encoding -/

theorem encodeLoop_cons (c : Nat) (rest : List Nat) (val valb : Int) (result : List Nat) :
    encodeLoop (c :: rest) val valb result =
      encodeLoop rest (wrap32 (wrap32 (val * 256) + (c : Int)))
        (emitLoop ((valb + 8) / 6 + 1).toNat (wrap32 (wrap32 (val * 256) + (c : Int)))
          (valb + 8) result).1
        (emitLoop ((valb + 8) / 6 + 1).toNat (wrap32 (wrap32 (val * 256) + (c : Int)))
          (valb + 8) result).2 := rfl

theorem emitLoop_first (val : Int) (result : List Nat) :
    emitLoop ((-6 + 8 : Int) / 6 + 1).toNat val (-6 + 8) result =
      (-4, result ++ [charsAt (val >>> (2 : Nat))]) := by
  have e1 : ((-6 + 8 : Int) / 6 + 1).toNat = 1 := by decide
  have e2 : (-6 + 8 : Int) = 2 := by decide
  rw [e1, e2]
  rfl

theorem emitLoop_second (val : Int) (result : List Nat) :
    emitLoop ((-4 + 8 : Int) / 6 + 1).toNat val (-4 + 8) result =
      (-2, result ++ [charsAt (val >>> (4 : Nat))]) := by
  have e1 : ((-4 + 8 : Int) / 6 + 1).toNat = 1 := by decide
  have e2 : (-4 + 8 : Int) = 4 := by decide
  rw [e1, e2]
  rfl

theorem emitLoop_third (val : Int) (result : List Nat) :
    emitLoop ((-2 + 8 : Int) / 6 + 1).toNat val (-2 + 8) result =
      (-6, result ++ [charsAt (val >>> (6 : Nat))] ++ [charsAt (val >>> (0 : Nat))]) := by
  have e1 : ((-2 + 8 : Int) / 6 + 1).toNat = 2 := by decide
  have e2 : (-2 + 8 : Int) = 6 := by decide
  rw [e1, e2]
  rfl

/-- The character of a 6-bit value in `chars` is its character in the alphabet. -/
theorem chars_alphabet : ∀ v : Nat, v < 64 → chars.getD v 0 = base64Alphabet v := by
  decide!

theorem charsAt_eq (v : Int) (k : Nat) (hk : k < 64) (h : v % 64 = (k : Int)) :
    charsAt v = base64Alphabet k := by
  unfold charsAt
  rw [h, Int.toNat_ofNat, chars_alphabet k hk]

/-- The four characters written for three input bytes, whatever the accumulator held
before. -/
theorem three_bytes (val : Int) (a b c : Nat) (ha : a < 256) (hb : b < 256) (hc : c < 256) :
    charsAt (wrap32 (wrap32 (val * 256) + (a : Int)) >>> (2 : Nat)) = base64Alphabet (a / 4) ∧
    charsAt (wrap32 (wrap32 (wrap32 (wrap32 (val * 256) + (a : Int)) * 256) + (b : Int)) >>> (4 : Nat))
      = base64Alphabet (a % 4 * 16 + b / 16) ∧
    charsAt (wrap32 (wrap32 (wrap32 (wrap32 (wrap32 (wrap32 (val * 256) + (a : Int)) * 256)
      + (b : Int)) * 256) + (c : Int)) >>> (6 : Nat)) = base64Alphabet (b % 16 * 4 + c / 64) ∧
    charsAt (wrap32 (wrap32 (wrap32 (wrap32 (wrap32 (wrap32 (val * 256) + (a : Int)) * 256)
      + (b : Int)) * 256) + (c : Int)) >>> (0 : Nat)) = base64Alphabet (c % 64) := by
  simp only [Int.shiftRight_eq_div_pow, wrap32]
  refine ⟨charsAt_eq _ _ (by omega) ?_, charsAt_eq _ _ (by omega) ?_,
    charsAt_eq _ _ (by omega) ?_, charsAt_eq _ _ (by omega) ?_⟩
  · push_cast; omega
  · push_cast; omega
  · push_cast; omega
  · push_cast; omega

end WebSocket

namespace WebSocket

open VT

/-- The character written after the loop for a last group of one byte or of two
bytes. -/
theorem last_bytes (val : Int) (a b : Nat) :
    charsAt (wrap32 (wrap32 (wrap32 (val * 256) + (a : Int)) * 256) >>> (4 : Nat))
      = base64Alphabet (a % 4 * 16) ∧
    charsAt (wrap32 (wrap32 (wrap32 (wrap32 (wrap32 (val * 256) + (a : Int)) * 256)
      + (b : Int)) * 256) >>> (6 : Nat)) = base64Alphabet (b % 16 * 4) := by
  simp only [Int.shiftRight_eq_div_pow, wrap32]
  refine ⟨charsAt_eq _ _ (by omega) ?_, charsAt_eq _ _ (by omega) ?_⟩
  · push_cast; omega
  · push_cast; omega

theorem padLoop_zero (l : List Nat) (h : l.length % 4 = 0) : padLoop 3 l = l := by
  unfold padLoop
  rw [if_neg (by omega)]

theorem padLoop_two (l : List Nat) (h : l.length % 4 = 0) (x y : Nat) :
    padLoop 3 (l ++ [x] ++ [y]) = l ++ [x, y, 61, 61] := by
  have h1 : (l ++ [x] ++ [y]).length % 4 ≠ 0 := by simp; omega
  have h2 : (l ++ [x] ++ [y] ++ [61]).length % 4 ≠ 0 := by simp; omega
  have h3 : ¬(l ++ [x] ++ [y] ++ [61] ++ [61]).length % 4 ≠ 0 := by simp; omega
  unfold padLoop
  rw [if_pos h1]
  unfold padLoop
  rw [if_pos h2]
  unfold padLoop
  rw [if_neg h3]
  simp

theorem padLoop_three (l : List Nat) (h : l.length % 4 = 0) (x y z : Nat) :
    padLoop 3 (l ++ [x] ++ [y] ++ [z]) = l ++ [x, y, z, 61] := by
  have h1 : (l ++ [x] ++ [y] ++ [z]).length % 4 ≠ 0 := by simp; omega
  have h2 : ¬(l ++ [x] ++ [y] ++ [z] ++ [61]).length % 4 ≠ 0 := by simp; omega
  unfold padLoop
  rw [if_pos h1]
  unfold padLoop
  rw [if_neg h2]
  simp

theorem encodeLoop_nil (val valb : Int) (result : List Nat) :
    encodeLoop [] val valb result = (val, valb, result) := rfl

theorem encodeEnd_eq (val valb : Int) (result : List Nat) :
    encodeEnd (val, valb, result) =
      padLoop 3 (if valb > -6 then
        result ++ [charsAt (wrap32 (val * 256) >>> (valb + 8).toNat)] else result) := rfl

/-- From a state between two groups of three bytes, whatever the accumulator holds,
the rest of `base64Encode` appends the standard encoding of the remaining input. -/
theorem encode_from : ∀ (n : Nat) (input : List Nat), input.length ≤ n →
    (∀ b ∈ input, b < 256) → ∀ (val : Int) (result : List Nat), result.length % 4 = 0 →
      encodeEnd (encodeLoop input val (-6) result) = result ++ base64Ref input := by
  intro n
  induction n using Nat.strong_induction_on with
  | _ n ih =>
    intro input hlen hbytes val result hres
    match input, hlen, hbytes with
    | [], _, _ =>
      rw [encodeLoop_nil, encodeEnd_eq, if_neg (by decide), padLoop_zero _ hres]
      simp [base64Ref]
    | [a], _, hbytes =>
      have ha : a < 256 := hbytes a (by simp)
      have e : ((-4 : Int) + 8).toNat = 4 := by decide
      rw [encodeLoop_cons, emitLoop_first]
      dsimp only
      rw [encodeLoop_nil, encodeEnd_eq, if_pos (by decide), e]
      rw [(three_bytes val a 0 0 ha (by decide) (by decide)).1, (last_bytes val a 0).1,
        padLoop_two _ hres]
      rfl
    | [a, b], _, hbytes =>
      have ha : a < 256 := hbytes a (by simp)
      have hb : b < 256 := hbytes b (by simp)
      have e : ((-2 : Int) + 8).toNat = 6 := by decide
      rw [encodeLoop_cons, emitLoop_first]
      dsimp only
      rw [encodeLoop_cons, emitLoop_second]
      dsimp only
      rw [encodeLoop_nil, encodeEnd_eq, if_pos (by decide), e]
      rw [(three_bytes val a b 0 ha hb (by decide)).1, (three_bytes val a b 0 ha hb (by decide)).2.1,
        (last_bytes val a b).2, padLoop_three _ hres]
      rfl
    | a :: b :: c :: rest, hlen, hbytes =>
      have ha : a < 256 := hbytes a (by simp)
      have hb : b < 256 := hbytes b (by simp)
      have hc : c < 256 := hbytes c (by simp)
      obtain ⟨t1, t2, t3, t4⟩ := three_bytes val a b c ha hb hc
      rw [encodeLoop_cons, emitLoop_first]
      dsimp only
      rw [encodeLoop_cons, emitLoop_second]
      dsimp only
      rw [encodeLoop_cons, emitLoop_third]
      dsimp only
      simp only [List.length_cons] at hlen
      rw [ih rest.length (by omega) rest (le_refl _)
        (fun x hx => hbytes x (by simp [hx])) _ _ (by simp; omega)]
      rw [t1, t2, t3, t4, base64Ref]
      simp

theorem base64Encode_eq_ref (input : List Nat) (hb : ∀ b ∈ input, b < 256) :
    base64Encode input = base64Ref input := by
  have := encode_from input.length input (le_refl _) hb 0 [] rfl
  simpa [base64Encode] using this

end WebSocket

namespace WebSocket

open VT

/-- Induction on a list of bytes by groups of three. -/
theorem induction_by_three (P : List Nat → Prop) (h0 : P []) (h1 : ∀ a, P [a])
    (h2 : ∀ a b, P [a, b]) (h3 : ∀ a b c rest, P rest → P (a :: b :: c :: rest)) :
    ∀ l, P l := by
  have key : ∀ (n : Nat) (l : List Nat), l.length ≤ n → P l := by
    intro n
    induction n using Nat.strong_induction_on with
    | _ n ih =>
      intro l hl
      match l, hl with
      | [], _ => exact h0
      | [a], _ => exact h1 a
      | [a, b], _ => exact h2 a b
      | a :: b :: c :: rest, hl =>
        simp only [List.length_cons] at hl
        exact h3 a b c rest (ih rest.length (by omega) rest (le_refl _))
  exact fun l => key l.length l (le_refl _)

theorem alphabet_value : ∀ v : Nat, v < 64 →
    (base64Value (base64Alphabet v) = some v ∧ base64Alphabet v ≠ 61) := by
  decide!

theorem base64Ref_length : ∀ l : List Nat, (base64Ref l).length = 4 * ((l.length + 2) / 3) := by
  apply induction_by_three
  · rfl
  · intro a; simp [base64Ref]
  · intro a b; simp [base64Ref]
  · intro a b c rest ih
    rw [base64Ref]
    simp only [List.length_cons, ih]
    omega

/-- The encoding is a run of characters of the alphabet followed by 0, 1 or 2 `=`
signs. -/
theorem base64Ref_shape : ∀ l : List Nat, (∀ b ∈ l, b < 256) →
    ∃ body, base64Ref l = body ++ List.replicate ((3 - l.length % 3) % 3) 61 ∧
      ∀ ch ∈ body, (base64Value ch).isSome = true := by
  apply induction_by_three
  · intro _
    exact ⟨[], rfl, by simp⟩
  · intro a ha
    have ha : a < 256 := ha a (by simp)
    refine ⟨[base64Alphabet (a / 4), base64Alphabet (a % 4 * 16)], rfl, ?_⟩
    intro ch hch
    simp only [List.mem_cons, List.mem_singleton, List.not_mem_nil, or_false] at hch
    rcases hch with rfl | rfl
    · rw [(alphabet_value _ (by omega)).1]; rfl
    · rw [(alphabet_value _ (by omega)).1]; rfl
  · intro a b hab
    have ha : a < 256 := hab a (by simp)
    have hb : b < 256 := hab b (by simp)
    refine ⟨[base64Alphabet (a / 4), base64Alphabet (a % 4 * 16 + b / 16),
      base64Alphabet (b % 16 * 4)], rfl, ?_⟩
    intro ch hch
    simp only [List.mem_cons, List.mem_singleton, List.not_mem_nil, or_false] at hch
    rcases hch with rfl | rfl | rfl
    · rw [(alphabet_value _ (by omega)).1]; rfl
    · rw [(alphabet_value _ (by omega)).1]; rfl
    · rw [(alphabet_value _ (by omega)).1]; rfl
  · intro a b c rest ih habc
    have ha : a < 256 := habc a (by simp)
    have hb : b < 256 := habc b (by simp)
    have hc : c < 256 := habc c (by simp)
    obtain ⟨body, hbody, hall⟩ := ih (fun x hx => habc x (by simp [hx]))
    refine ⟨base64Alphabet (a / 4) :: base64Alphabet (a % 4 * 16 + b / 16) ::
      base64Alphabet (b % 16 * 4 + c / 64) :: base64Alphabet (c % 64) :: body, ?_, ?_⟩
    · rw [base64Ref, hbody]
      have e : (a :: b :: c :: rest).length % 3 = rest.length % 3 := by
        simp only [List.length_cons]; omega
      rw [e]
      rfl
    · intro ch hch
      simp only [List.mem_cons] at hch
      rcases hch with rfl | rfl | rfl | rfl | h
      · rw [(alphabet_value _ (by omega)).1]; rfl
      · rw [(alphabet_value _ (by omega)).1]; rfl
      · rw [(alphabet_value _ (by omega)).1]; rfl
      · rw [(alphabet_value _ (by omega)).1]; rfl
      · exact hall ch h

/-- The decoder undoes the standard encoding. -/
theorem base64Decode_ref : ∀ l : List Nat, (∀ b ∈ l, b < 256) →
    base64Decode (base64Ref l) = some l := by
  apply induction_by_three
  · intro _; rfl
  · intro a ha
    have ha : a < 256 := ha a (by simp)
    rw [base64Ref, base64Decode, if_pos ⟨rfl, rfl, rfl⟩, (alphabet_value _ (by omega)).1,
      (alphabet_value (a % 4 * 16) (by omega)).1]
    simp only [Option.some.injEq, List.cons.injEq, and_true]
    omega
  · intro a b hab
    have ha : a < 256 := hab a (by simp)
    have hb : b < 256 := hab b (by simp)
    have h3 := (alphabet_value (b % 16 * 4) (by omega)).2
    rw [base64Ref, base64Decode, if_neg (fun h => h3 h.1), if_pos ⟨rfl, rfl⟩,
      (alphabet_value _ (by omega)).1, (alphabet_value (a % 4 * 16 + b / 16) (by omega)).1,
      (alphabet_value (b % 16 * 4) (by omega)).1]
    simp only [Option.some.injEq, List.cons.injEq, and_true]
    omega
  · intro a b c rest ih habc
    have ha : a < 256 := habc a (by simp)
    have hb : b < 256 := habc b (by simp)
    have hc : c < 256 := habc c (by simp)
    have h3 := (alphabet_value (b % 16 * 4 + c / 64) (by omega)).2
    have h4 := (alphabet_value (c % 64) (by omega)).2
    rw [base64Ref, base64Decode, if_neg (fun h => h3 h.1), if_neg (fun h => h4 h.1),
      (alphabet_value _ (by omega)).1, (alphabet_value (a % 4 * 16 + b / 16) (by omega)).1,
      (alphabet_value (b % 16 * 4 + c / 64) (by omega)).1,
      (alphabet_value (c % 64) (by omega)).1, ih (fun x hx => habc x (by simp [hx]))]
    simp only [Option.some.injEq, List.cons.injEq, and_true]
    omega

/-- C20: for every byte string `base64Encode` returns the standard Base64 encoding
with `=` padding, whatever the length (the wrap-around of the 32-bit accumulator has
no effect): the length is `4 * ceil(n / 3)`, the text is a run of characters of the
alphabet followed by 0, 1 or 2 `=` signs, and the decoder gives the input back. -/
theorem C20_base64_standard (input : List Nat) (hb : ∀ b ∈ input, b < 256) :
    base64Encode input = base64Ref input ∧
    (base64Encode input).length = 4 * ((input.length + 2) / 3) ∧
    (base64Encode input).length % 4 = 0 ∧
    (∃ body, base64Encode input = body ++ List.replicate ((3 - input.length % 3) % 3) 61 ∧
      ∀ ch ∈ body, (base64Value ch).isSome = true) ∧
    (3 - input.length % 3) % 3 ≤ 2 ∧
    base64Decode (base64Encode input) = some input := by
  have e := base64Encode_eq_ref input hb
  rw [e]
  refine ⟨rfl, base64Ref_length input, ?_, base64Ref_shape input hb, by omega,
    base64Decode_ref input hb⟩
  rw [base64Ref_length]
  omega

theorem C20_base64_standard_witness :
    (encodeLoop wrapSample 0 (-6) []).1 < 0 ∧
    base64Encode wrapSample = ascii "//79/IAB" ∧
    base64Decode (base64Encode wrapSample) = some wrapSample := by
  have h := C20_base64_standard wrapSample (by decide)
  exact ⟨by decide!, by decide!, h.2.2.2.2.2⟩

end WebSocket

namespace WebSocket

open VT

/-! ## The accept key -/

/-- The model of SHA-1 gives the digests of the standard test messages: the empty
message and `abc`. -/
theorem sha1_test_vectors :
    sha1 [] = [0xda, 0x39, 0xa3, 0xee, 0x5e, 0x6b, 0x4b, 0x0d, 0x32, 0x55,
               0xbf, 0xef, 0x95, 0x60, 0x18, 0x90, 0xaf, 0xd8, 0x07, 0x09] ∧
    sha1 (ascii "abc") = [0xa9, 0x99, 0x3e, 0x36, 0x47, 0x06, 0x81, 0x6a, 0xba, 0x3e,
                          0x25, 0x71, 0x78, 0x50, 0xc2, 0x6c, 0x9c, 0xd0, 0xd8, 0x9d] := by
  decide!

theorem sha1_sample :
    sha1 (sampleKey ++ WS_GUID) =
      [0xb3, 0x7a, 0x4f, 0x2c, 0xc0, 0x62, 0x4f, 0x16, 0x90, 0xf6,
       0x46, 0x06, 0xcf, 0x38, 0x59, 0x45, 0xb2, 0xbe, 0xc4, 0xea] := by
  decide!

end WebSocket

namespace WebSocket

open VT

theorem foldl_length_five {α : Type} (f : List Nat → α → List Nat)
    (hf : ∀ s t, s.length = 5 → (f s t).length = 5) :
    ∀ (l : List α) (h : List Nat), h.length = 5 → (l.foldl f h).length = 5 := by
  intro l
  induction l with
  | nil => intro h hh; exact hh
  | cons x xs ih => intro h hh; exact ih (f h x) (hf h x hh)

theorem sha1Block_length (padded h : List Nat) (i : Nat) (hh : h.length = 5) :
    (sha1Block padded h i).length = 5 := by
  unfold sha1Block
  rw [List.length_zipWith, foldl_length_five (sha1Round _) (fun s t _ => rfl) _ h hh, hh]
  rfl

/-- The digest has 20 bytes. -/
theorem sha1_bytes (msg : List Nat) : (sha1 msg).length = 20 ∧ ∀ b ∈ sha1 msg, b < 256 := by
  have h5 := foldl_length_five (fun h k => sha1Block (sha1Pad msg) h (64 * k))
    (fun s t hs => sha1Block_length (sha1Pad msg) s (64 * t) hs)
    (List.range ((sha1Pad msg).length / 64))
    [0x67452301, 0xEFCDAB89, 0x98BADCFE, 0x10325476, 0xC3D2E1F0] rfl
  unfold sha1
  generalize (List.range ((sha1Pad msg).length / 64)).foldl
    (fun h k => sha1Block (sha1Pad msg) h (64 * k))
    [0x67452301, 0xEFCDAB89, 0x98BADCFE, 0x10325476, 0xC3D2E1F0] = hfin at h5
  match hfin, h5 with
  | [a, b, c, d, e], _ =>
    refine ⟨rfl, ?_⟩
    intro x hx
    simp only [List.map, List.flatten, bigEndian, List.cons_append, List.nil_append,
      List.mem_cons, List.not_mem_nil, or_false] at hx
    omega

/-- C19: with the CryptoAPI calls succeeding and SHA-1 as in FIPS 180, for every
client key `generateAcceptKey` is the standard Base64 encoding of the 20-byte SHA-1
digest of the key followed by `258EAFA5-E914-47DA-95CA-C5AB0DC85B11`; for the key
`dGhlIHNhbXBsZSBub25jZQ==` it is `s3pPLMBiTxaQ9kYGzzhZRbK+xOo=`. -/
theorem C19_accept_key (client_key : List Nat) :
    generateAcceptKey true client_key = base64Ref (sha1 (client_key ++ WS_GUID)) ∧
    (sha1 (client_key ++ WS_GUID)).length = 20 ∧
    (generateAcceptKey true client_key).length = 28 ∧
    WS_GUID = ascii "258EAFA5-E914-47DA-95CA-C5AB0DC85B11" ∧
    generateAcceptKey true (ascii "dGhlIHNhbXBsZSBub25jZQ==") =
      ascii "s3pPLMBiTxaQ9kYGzzhZRbK+xOo=" := by
  have hb := sha1_bytes (client_key ++ WS_GUID)
  have e : generateAcceptKey true client_key = base64Ref (sha1 (client_key ++ WS_GUID)) := by
    unfold generateAcceptKey sha1Hash
    rw [if_pos rfl]
    exact base64Encode_eq_ref _ hb.2
  refine ⟨e, hb.1, ?_, rfl, ?_⟩
  · rw [e, base64Ref_length, hb.1]
  · have e2 := sha1_sample
    unfold sampleKey at e2
    unfold generateAcceptKey sha1Hash
    rw [if_pos rfl, e2]
    decide!

end WebSocket

namespace VT

/-! ## Text and control bytes outside escape sequences -/

/-- C27: on a grid of `w` columns and `h` rows (both at least 1) with the cursor in
bounds at `(x, y)`, the body of the loop of `processSequence` at a byte that does not
start a CSI sequence does this. A byte `>= 0x20` is decoded and the codepoint replaces
cell `(x, y)` by the current style with that codepoint, no other cell changes, and the
cursor goes to `(x+1, y)` if `x+1 < w`, else to `(0, min(y+1, h-1))`. Byte `0x0A` sets
the cursor to `(0, min(y+1, h-1))`, byte `0x0D` sets `cursor_x` to 0. Any other byte
below `0x20`, an `ESC` not followed by `[` included, changes nothing. -/
theorem C27_text_and_control_bytes (w h : Int) (s : List Nat) (i : Nat) (r : Renderer)
    (hw : 1 ≤ w) (hh : 1 ≤ h) (hg : GridOk w h r.grid) (hr : CursorOk w h r) :
    (0x20 ≤ s.getD i 0 →
      processStep s i r = (i + ((decodeUtf8 s i).2 - 1), placeChar (decodeUtf8 s i).1 r) ∧
      (processStep s i r).2.current_style = r.current_style ∧
      (∀ x y : Int, getCell (processStep s i r).2.grid x y =
        if x = r.cursor_x ∧ y = r.cursor_y then
          { r.current_style with ch := (decodeUtf8 s i).1 }
        else getCell r.grid x y) ∧
      (processStep s i r).2.cursor_x = (if r.cursor_x + 1 < w then r.cursor_x + 1 else 0) ∧
      (processStep s i r).2.cursor_y =
        (if r.cursor_x + 1 < w then r.cursor_y else min (r.cursor_y + 1) (h - 1))) ∧
    (s.getD i 0 = 0x0A →
      processStep s i r = (i, { r with cursor_x := 0, cursor_y := min (r.cursor_y + 1) (h - 1) })) ∧
    (s.getD i 0 = 0x0D → processStep s i r = (i, { r with cursor_x := 0 })) ∧
    (s.getD i 0 < 0x20 → s.getD i 0 ≠ 0x0A → s.getD i 0 ≠ 0x0D →
      ¬(s.getD i 0 = 0x1B ∧ i + 1 < s.length ∧ s.getD (i + 1) 0 = 0x5B) →
      processStep s i r = (i, r)) := by
  obtain ⟨hrw, hrh, hx0, hx1, hy0, hy1⟩ := hr
  refine ⟨?_, ?_, ?_, ?_⟩
  · intro hb
    have e := processStep_text s i r hb
    obtain ⟨p1, _, _, p4, p5, p6⟩ :=
      placeChar_spec w h (decodeUtf8 s i).1 r hg ⟨hrw, hrh, hx0, hx1, hy0, hy1⟩
    rw [e]
    exact ⟨rfl, p1, p4, p5, p6⟩
  · intro hb
    unfold processStep
    rw [if_neg (by omega), if_pos hb]
    have e1 : max 0 (min (0 : Int) (r.width - 1)) = 0 := by omega
    have e2 : max 0 (min (r.cursor_y + 1) (r.height - 1)) = min (r.cursor_y + 1) (h - 1) := by
      omega
    simp only [ensureValidCursor, e1, e2]
  · intro hb
    unfold processStep
    rw [if_neg (by omega), if_neg (by omega), if_pos hb]
  · intro hb h1 h2 h3
    unfold processStep
    rw [if_neg h3, if_neg h1, if_neg h2, if_neg (by omega)]

theorem C27_text_and_control_bytes_witness :
    processStep [0x41, 0x0A, 0x0D, 0x1B, 0x5A, 0x07] 0 (Renderer.new 3 2) =
      (0, placeChar 0x41 (Renderer.new 3 2)) ∧
    processStep [0x41, 0x0A, 0x0D, 0x1B, 0x5A, 0x07] 1 (Renderer.new 3 2) =
      (1, { Renderer.new 3 2 with cursor_x := 0, cursor_y := 1 }) ∧
    processStep [0x41, 0x0A, 0x0D, 0x1B, 0x5A, 0x07] 3 (Renderer.new 3 2) =
      (3, Renderer.new 3 2) := by
  have h0 := C27_text_and_control_bytes 3 2 [0x41, 0x0A, 0x0D, 0x1B, 0x5A, 0x07] 0
    (Renderer.new 3 2) (by decide) (by decide) (by decide) (by decide)
  have h1 := C27_text_and_control_bytes 3 2 [0x41, 0x0A, 0x0D, 0x1B, 0x5A, 0x07] 1
    (Renderer.new 3 2) (by decide) (by decide) (by decide) (by decide)
  have h3 := C27_text_and_control_bytes 3 2 [0x41, 0x0A, 0x0D, 0x1B, 0x5A, 0x07] 3
    (Renderer.new 3 2) (by decide) (by decide) (by decide) (by decide)
  exact ⟨(h0.1 (by decide)).1, h1.2.1 rfl, h3.2.2.2 (by decide) (by decide) (by decide)
    (by decide)⟩

end VT

namespace WebSocket

open VT

/-! ## The snapshot policy -/

theorem startsWith_iff (needle s : List Nat) : startsWith needle s = true ↔ needle <+: s := by
  unfold startsWith
  exact List.isPrefixOf_iff_prefix

theorem containsBytes_iff (needle : List Nat) :
    ∀ s : List Nat, containsBytes needle s = true ↔ needle <:+: s := by
  intro s
  induction s with
  | nil =>
    unfold containsBytes
    rw [List.isPrefixOf_iff_prefix, List.prefix_nil, List.infix_nil]
  | cons c rest ih =>
    unfold containsBytes
    rw [Bool.or_eq_true, List.isPrefixOf_iff_prefix, ih, List.infix_cons_iff]

/-- C28: `processToResoniteHTML` resizes the renderer iff the reported terminal size
differs from the renderer's, then calls `clear` iff the text contains `ESC[2J`,
`ESC[0J` or `ESC[1J` or begins with `ESC[1;1`, `ESC[0;0` or `ESC[;`, then parses the
text and returns the markup of the resulting state; without resize and clear the
parse starts from the state the previous call left. -/
theorem C28_snapshot_policy (w h : Int) (s : List Nat) (r : Renderer) :
    processToResoniteHTML w h s r =
      (renderToResoniteHTML (processSequence s
        (if triggersFullRedraw s = true then
          clear (if r.width ≠ w ∨ r.height ≠ h then resize w h r else r)
         else (if r.width ≠ w ∨ r.height ≠ h then resize w h r else r))),
       processSequence s
        (if triggersFullRedraw s = true then
          clear (if r.width ≠ w ∨ r.height ≠ h then resize w h r else r)
         else (if r.width ≠ w ∨ r.height ≠ h then resize w h r else r))) ∧
    (triggersFullRedraw s = true ↔
      (esc "[2J" <:+: s ∨ esc "[0J" <:+: s ∨ esc "[1J" <:+: s) ∨
      (esc "[1;1" <+: s ∨ esc "[0;0" <+: s ∨ esc "[;" <+: s)) ∧
    (r.width = w → r.height = h → triggersFullRedraw s = false →
      processToResoniteHTML w h s r =
        (renderToResoniteHTML (processSequence s r), processSequence s r)) := by
  have e : processToResoniteHTML w h s r =
      (renderToResoniteHTML (processSequence s
        (if triggersFullRedraw s = true then
          clear (if r.width ≠ w ∨ r.height ≠ h then resize w h r else r)
         else (if r.width ≠ w ∨ r.height ≠ h then resize w h r else r))),
       processSequence s
        (if triggersFullRedraw s = true then
          clear (if r.width ≠ w ∨ r.height ≠ h then resize w h r else r)
         else (if r.width ≠ w ∨ r.height ≠ h then resize w h r else r))) := rfl
  refine ⟨e, ?_, ?_⟩
  · unfold triggersFullRedraw
    simp only [Bool.or_eq_true, containsBytes_iff, startsWith_iff, or_assoc]
  · intro h1 h2 h3
    rw [e, h3, if_neg (by simp), if_neg (by rw [h1, h2]; simp)]

end WebSocket

namespace VT

/-! ## Extents after the constructor, resize, clear and processSequence -/

/-- C30, evaluation of the code at a failing input: the parameter text `38;5;-1` is
parsed to the numbers 38, 5, -1 (`std::stoi` accepts the sign), `parseSGR` calls
`ansi256ToRgb(-1)`, and for every `color < 16` that function reads `colors16[color]`,
which for a negative `color` is outside the table of 16 entries. For `0 <= color <
16` the read is inside the table. -/
theorem C30_palette_index_negative :
    stoi (ascii "-1") = some (-1) ∧
    parseParams (ascii "38;5;-1") = [38, 5, -1] ∧
    (∀ st : Cell, sgrStep [38, 5, -1] 0 st =
      (2, { st with fg_color := ansi256ToRgb (-1), has_fg_color := true })) ∧
    (∀ st : Cell, sgrStep [48, 5, -1] 0 st =
      (2, { st with bg_color := ansi256ToRgb (-1), has_bg_color := true })) ∧
    (∀ color : Int, color < 16 → ansi256ToRgb color = (colors16At color).getD 0) ∧
    (processSequence (esc "[38;5;-1m") (Renderer.new 2 1)).current_style =
      { defaultCell with fg_color := ansi256ToRgb (-1), has_fg_color := true } ∧
    colors16At (-1) = none ∧
    colors16At (-2147483648) = none ∧
    (∀ color : Int, color < 0 → colors16At color = none) ∧
    (∀ color : Int, 0 ≤ color → color < 16 → (colors16At color).isSome = true) := by
  refine ⟨by decide, by decide, fun st => rfl, fun st => rfl, ?_, by decide!, by decide,
    by decide, ?_, ?_⟩
  · intro color hc
    unfold ansi256ToRgb
    rw [if_pos hc]
  · intro color hc
    unfold colors16At
    rw [if_neg (by omega)]
  · intro color h0 h1
    unfold colors16At
    rw [if_pos h0]
    have h2 : color.toNat < 16 := by omega
    generalize color.toNat = n at h2
    interval_cases n <;> rfl

end VT

namespace VT

/-! ## The markup of a row by runs -/

theorem styleEq_iff (a b : Cell) :
    styleEq a b = true ↔
      a.bold = b.bold ∧ a.italic = b.italic ∧ a.underline = b.underline ∧
      a.reverse = b.reverse ∧ a.has_fg_color = b.has_fg_color ∧
      (a.has_fg_color = true → b.has_fg_color = true → a.fg_color = b.fg_color) ∧
      a.has_bg_color = b.has_bg_color ∧
      (a.has_bg_color = true → b.has_bg_color = true → a.bg_color = b.bg_color) := by
  unfold styleEq
  simp only [Bool.and_eq_true, beq_iff_eq, Bool.or_eq_true, Bool.not_eq_true',
    Bool.and_eq_false_imp, and_assoc]
  constructor
  · rintro ⟨h1, h2, h3, h4, h5, h6, h7, h8⟩
    refine ⟨h1, h2, h3, h4, h5, ?_, h7, ?_⟩
    · intro ha hb
      rcases h6 with h | h
      · rw [h ha] at hb; exact absurd hb (by decide)
      · exact h
    · intro ha hb
      rcases h8 with h | h
      · rw [h ha] at hb; exact absurd hb (by decide)
      · exact h
  · rintro ⟨h1, h2, h3, h4, h5, h6, h7, h8⟩
    refine ⟨h1, h2, h3, h4, h5, ?_, h7, ?_⟩
    · by_cases ha : a.has_fg_color = true
      · by_cases hb : b.has_fg_color = true
        · exact Or.inr (h6 ha hb)
        · exact Or.inl (fun _ => by simpa using hb)
      · exact Or.inl (fun h => absurd h ha)
    · by_cases ha : a.has_bg_color = true
      · by_cases hb : b.has_bg_color = true
        · exact Or.inr (h8 ha hb)
        · exact Or.inl (fun _ => by simpa using hb)
      · exact Or.inl (fun h => absurd h ha)

theorem styleChanged_iff (c s : Cell) :
    styleChanged c s false = false ↔
      s.bold = c.bold ∧ s.italic = c.italic ∧ s.underline = c.underline ∧
      s.reverse = c.reverse ∧ s.has_fg_color = c.has_fg_color ∧
      (s.has_fg_color = true → c.has_fg_color = true → s.fg_color = c.fg_color) ∧
      s.has_bg_color = c.has_bg_color ∧
      (s.has_bg_color = true → c.has_bg_color = true → s.bg_color = c.bg_color) := by
  unfold styleChanged
  simp only [Bool.false_or, Bool.or_eq_false_iff, bne_eq_false_iff_eq, Bool.and_eq_false_imp,
    Bool.and_eq_true, and_assoc, and_imp]
  constructor
  · rintro ⟨h1, h2, h3, h4, h5, h6, h7, h8⟩
    exact ⟨h1.symm, h2.symm, h3.symm, h4.symm, h5.symm, fun ha hb => (h7 hb ha).symm,
      h6.symm, fun ha hb => (h8 hb ha).symm⟩
  · rintro ⟨h1, h2, h3, h4, h5, h6, h7, h8⟩
    exact ⟨h1.symm, h2.symm, h3.symm, h4.symm, h5.symm, h7.symm, fun ha hb => (h6 hb ha).symm,
      fun ha hb => (h8 hb ha).symm⟩

end VT

namespace VT

theorem styleChanged_eq (c s : Cell) : styleChanged c s false = !styleEq s c := by
  cases h : styleEq s c
  · cases h2 : styleChanged c s false
    · rw [styleChanged_iff, ← styleEq_iff, h] at h2
      exact absurd h2 (by decide)
    · rfl
  · rw [Bool.not_true, styleChanged_iff, ← styleEq_iff]
    exact h

/-- Style equality is an equivalence relation. -/
theorem styleEq_equivalence :
    (∀ a : Cell, styleEq a a = true) ∧
    (∀ a b : Cell, styleEq a b = true → styleEq b a = true) ∧
    (∀ a b c : Cell, styleEq a b = true → styleEq b c = true → styleEq a c = true) := by
  refine ⟨?_, ?_, ?_⟩
  · intro a
    rw [styleEq_iff]
    exact ⟨rfl, rfl, rfl, rfl, rfl, fun _ _ => rfl, rfl, fun _ _ => rfl⟩
  · intro a b h
    rw [styleEq_iff] at h ⊢
    obtain ⟨h1, h2, h3, h4, h5, h6, h7, h8⟩ := h
    exact ⟨h1.symm, h2.symm, h3.symm, h4.symm, h5.symm, fun x y => (h6 y x).symm, h7.symm,
      fun x y => (h8 y x).symm⟩
  · intro a b c hab hbc
    rw [styleEq_iff] at hab hbc ⊢
    obtain ⟨h1, h2, h3, h4, h5, h6, h7, h8⟩ := hab
    obtain ⟨k1, k2, k3, k4, k5, k6, k7, k8⟩ := hbc
    refine ⟨h1.trans k1, h2.trans k2, h3.trans k3, h4.trans k4, h5.trans k5, ?_, h7.trans k7, ?_⟩
    · intro x y
      have hb : b.has_fg_color = true := by rw [← h5]; exact x
      exact (h6 x hb).trans (k6 hb y)
    · intro x y
      have hb : b.has_bg_color = true := by rw [← h7]; exact x
      exact (h8 x hb).trans (k8 hb y)

theorem renderCells_same (c s : Cell) (rest : List Cell) (style_open : Bool)
    (h : styleEq s c = true) :
    renderCells (c :: rest) s style_open false =
      cellText c ++ renderCells rest s style_open false := by
  rw [renderCells, styleChanged_eq, h]
  rfl

theorem renderCells_change (c s : Cell) (rest : List Cell) (style_open : Bool)
    (h : styleEq s c = false) :
    renderCells (c :: rest) s style_open false =
      (if style_open then ascii "</closeall>" else []) ++
        (if hasStyle c then openTags c ++ cellText c ++ renderCells rest c true false
         else cellText c ++ renderCells rest c false false) := by
  rw [renderCells, styleChanged_eq, h]
  cases style_open <;> rfl

/-- Inside a run of style `s`: the cells of the rest of the run are written as their
text, the run is closed when it was opened, and the remaining cells follow run by
run. -/
theorem renderCells_runs : ∀ (cs : List Cell) (s : Cell) (fuel : Nat), cs.length ≤ fuel →
    renderCells cs s (hasStyle s) false =
      (cs.takeWhile (styleEq s)).flatMap cellText ++
        (if hasStyle s then ascii "</closeall>" else []) ++
        rowMarkup fuel (cs.dropWhile (styleEq s)) := by
  intro cs
  induction cs with
  | nil =>
    intro s fuel _
    cases fuel <;> simp [renderCells, rowMarkup]
  | cons c rest ih =>
    intro s fuel hlen
    cases h : styleEq s c
    · obtain ⟨f, rfl⟩ : ∃ f, fuel = f + 1 := ⟨fuel - 1, by simp at hlen; omega⟩
      have hl : rest.length ≤ f := by simp at hlen; omega
      rw [renderCells_change c s rest _ h, List.takeWhile_cons_of_neg (by simp [h]),
        List.dropWhile_cons_of_neg (by simp [h]), rowMarkup, runMarkup]
      have e := ih c f hl
      cases hc : hasStyle c
      · rw [hc] at e
        simp only [Bool.false_eq_true, if_false, List.append_nil] at e
        simp [e, List.flatMap_cons]
      · rw [hc] at e
        simp only [if_true] at e
        simp [e, List.flatMap_cons]
    · rw [renderCells_same c s rest _ h, List.takeWhile_cons_of_pos h,
        List.dropWhile_cons_of_pos h, ih s fuel (by simp at hlen; omega)]
      simp [List.flatMap_cons]

/-- The markup of a row is the markup of its runs. -/
theorem renderRow_runs (w : Int) (row : List Cell) :
    renderRow w row = rowMarkup (row.take w.toNat).length (row.take w.toNat) := by
  unfold renderRow
  generalize row.take w.toNat = cells
  cases cells with
  | nil => rfl
  | cons c rest =>
    have e := renderCells_runs rest c rest.length (le_refl _)
    rw [renderCells]
    simp only [styleChanged, Bool.true_or, if_true, Bool.false_and, Bool.false_eq_true, if_false,
      List.nil_append, List.length_cons, rowMarkup, runMarkup]
    cases hc : hasStyle c
    · rw [hc] at e
      simp only [Bool.false_eq_true, if_false, List.append_nil] at e
      simp [e, List.flatMap_cons]
    · rw [hc] at e
      simp only [if_true] at e
      simp [e, List.flatMap_cons]

/-- C26: the markup of a rendered row is the concatenation, over the maximal runs of
consecutive style-equal cells from left to right, of the opening tags of the run's
style (in the order colour, mark, b, i, u, reverse; only when the style has an
attribute), the text of each cell of the run, and `</closeall>` exactly when tags were
opened; style equality is the equivalence of the claim, and every row is rendered by
itself. -/
theorem C26_run_length_tags (w : Int) (row : List Cell) :
    renderRow w row = rowMarkup (row.take w.toNat).length (row.take w.toNat) ∧
    ((∀ a : Cell, styleEq a a = true) ∧
      (∀ a b : Cell, styleEq a b = true → styleEq b a = true) ∧
      (∀ a b c : Cell, styleEq a b = true → styleEq b c = true → styleEq a c = true)) ∧
    (∀ c : Cell, openTags c =
      (if c.has_fg_color then ascii "<color=" ++ rgbToHex c.fg_color ++ ascii ">" else []) ++
      (if c.has_bg_color then ascii "<mark=" ++ rgbToHex c.bg_color ++ ascii ">" else []) ++
      (if c.bold then ascii "<b>" else []) ++ (if c.italic then ascii "<i>" else []) ++
      (if c.underline then ascii "<u>" else []) ++
      (if c.reverse then ascii "<reverse>" else [])) ∧
    (∀ c : Cell, hasStyle c = (c.bold || c.italic || c.underline || c.reverse ||
      c.has_fg_color || c.has_bg_color)) ∧
    (∀ c : Cell, cellText c = if c.ch = 0x20 then [0x20] else utf8FromCodepoint c.ch) ∧
    (∀ (r : Renderer) (L : Nat), L < r.grid.length → lastContentLine r = (L : Int) →
      renderToResoniteHTML r =
        List.intercalate (ascii "<br>") ((r.grid.take (L + 1)).map
          (fun cells => rowMarkup (cells.take r.width.toNat).length
            (cells.take r.width.toNat)))) := by
  refine ⟨renderRow_runs w row, styleEq_equivalence, fun c => rfl, fun c => rfl, fun c => rfl, ?_⟩
  intro r L hL hl
  rw [render_rows_to r L hL hl]
  congr 1
  exact List.map_congr_left (fun cells _ => renderRow_runs r.width cells)

theorem C26_run_length_tags_witness :
    renderRow 5 runsExample =
      ascii "<color=#ff0000><b>AA</closeall>B<mark=#0000ff>  </closeall>" := by
  rw [(C26_run_length_tags 5 runsExample).1]
  decide!

end VT

namespace WebSocket

open VT

/-! ## extractHeader -/

theorem findAt_first (needle : List Nat) : ∀ (a b : List Nat) (i : Nat),
    (∀ k, k < a.length → needle.isPrefixOf ((a ++ b).drop k) = false) →
    needle.isPrefixOf b = true → findAt needle (a ++ b) i = some (i + a.length) := by
  intro a
  induction a with
  | nil =>
    intro b i _ hb
    cases b with
    | nil => simp [findAt, hb]
    | cons c rest => simp [findAt, hb]
  | cons x a ih =>
    intro b i hno hb
    have h0 := hno 0 (by simp)
    simp only [List.drop_zero, List.cons_append] at h0
    rw [List.cons_append, findAt, h0]
    simp only [Bool.false_eq_true, if_false]
    rw [ih b (i + 1) (fun k hk => by
      have := hno (k + 1) (by simp; omega)
      simpa using this) hb]
    simp only [List.length_cons]
    congr 1
    omega

theorem findAt_none (needle : List Nat) : ∀ (s : List Nat) (i : Nat),
    containsBytes needle s = false → findAt needle s i = none := by
  intro s
  induction s with
  | nil =>
    intro i h
    unfold containsBytes at h
    simp [findAt, h]
  | cons c rest ih =>
    intro i h
    unfold containsBytes at h
    rw [Bool.or_eq_false_iff] at h
    rw [findAt, h.1]
    simp only [Bool.false_eq_true, if_false]
    exact ih (i + 1) h.2

/-- The value returned for a header line that is the first occurrence of the name
followed by a colon and a blank, the value ending at the first CR LF after it. -/
theorem extractHeader_found (name pre value post : List Nat)
    (hfirst : ∀ k, k < pre.length → (name ++ ascii ": ").isPrefixOf
      ((pre ++ (name ++ ascii ": " ++ (value ++ ([0x0D, 0x0A] ++ post)))).drop k) = false)
    (hval : ∀ k, k < value.length →
      [0x0D, 0x0A].isPrefixOf ((value ++ ([0x0D, 0x0A] ++ post)).drop k) = false) :
    extractHeader (pre ++ (name ++ ascii ": " ++ (value ++ ([0x0D, 0x0A] ++ post)))) name
      = value := by
  have h1 : findFrom (pre ++ (name ++ ascii ": " ++ (value ++ ([0x0D, 0x0A] ++ post))))
      (name ++ ascii ": ") 0 = some pre.length := by
    unfold findFrom
    rw [if_pos (Nat.zero_le _), List.drop_zero, findAt_first _ pre _ 0 hfirst
      (by rw [List.isPrefixOf_iff_prefix]; exact List.prefix_append _ _)]
    simp
  have hd : (pre ++ (name ++ ascii ": " ++ (value ++ ([0x0D, 0x0A] ++ post)))).drop
      (pre.length + name.length + 2) = value ++ ([0x0D, 0x0A] ++ post) := by
    rw [← List.append_assoc]
    exact List.drop_left' (by simp [ascii]; omega)
  have h2 : findFrom (pre ++ (name ++ ascii ": " ++ (value ++ ([0x0D, 0x0A] ++ post))))
      [0x0D, 0x0A] (pre.length + name.length + 2) =
      some (pre.length + name.length + 2 + value.length) := by
    unfold findFrom
    rw [if_pos (by simp [ascii]; omega), hd, findAt_first _ value _ _ hval
      (by rw [List.isPrefixOf_iff_prefix]; exact List.prefix_append _ _)]
  unfold extractHeader
  rw [h1]
  dsimp only
  rw [h2]
  dsimp only
  rw [hd]
  have e : pre.length + name.length + 2 + value.length - (pre.length + name.length + 2) =
      value.length := by omega
  rw [e, List.take_left']
  rfl

theorem extractHeader_absent (request name : List Nat)
    (h : ¬(name ++ ascii ": ") <:+: request) : extractHeader request name = [] := by
  have hc : containsBytes (name ++ ascii ": ") request = false := by
    rw [← Bool.not_eq_true, containsBytes_iff]
    exact h
  unfold extractHeader findFrom
  rw [if_pos (Nat.zero_le _), List.drop_zero, findAt_none _ _ _ hc]

/-- A header line that is not followed by CR LF gives the empty string. -/
theorem extractHeader_unterminated (name pre rest : List Nat)
    (hfirst : ∀ k, k < pre.length → (name ++ ascii ": ").isPrefixOf
      ((pre ++ (name ++ ascii ": " ++ rest)).drop k) = false)
    (hrest : ¬[0x0D, 0x0A] <:+: rest) :
    extractHeader (pre ++ (name ++ ascii ": " ++ rest)) name = [] := by
  have h1 : findFrom (pre ++ (name ++ ascii ": " ++ rest)) (name ++ ascii ": ") 0 =
      some pre.length := by
    unfold findFrom
    rw [if_pos (Nat.zero_le _), List.drop_zero, findAt_first _ pre _ 0 hfirst
      (by rw [List.isPrefixOf_iff_prefix]; exact List.prefix_append _ _)]
    simp
  have hd : (pre ++ (name ++ ascii ": " ++ rest)).drop (pre.length + name.length + 2) = rest := by
    rw [← List.append_assoc]
    exact List.drop_left' (by simp [ascii]; omega)
  have hc : containsBytes [0x0D, 0x0A] rest = false := by
    rw [← Bool.not_eq_true, containsBytes_iff]
    exact hrest
  have h2 : findFrom (pre ++ (name ++ ascii ": " ++ rest)) [0x0D, 0x0A]
      (pre.length + name.length + 2) = none := by
    unfold findFrom
    rw [if_pos (by simp [ascii]; omega), hd, findAt_none _ _ _ hc]
  unfold extractHeader
  rw [h1]
  dsimp only
  rw [h2]

/-- C21 (as stated) fails: a key header written in lower case is not found, and the
value of a header found is returned with the blanks around it. -/
theorem C21_header_lookup_counterexample :
    extractHeader lowerCaseRequest keyHeader = [] ∧
    extractHeader paddedRequest keyHeader = ascii "  dGhlIHNhbXBsZSBub25jZQ== " ∧
    extractHeader sampleRequest keyHeader = ascii "dGhlIHNhbXBsZSBub25jZQ==" := by
  decide!

/-- C21, amended: `extractHeader` looks for the first occurrence of the exact bytes of
the name followed by a colon and one blank (the letter case must match), and returns
the bytes from there up to the first CR LF after it, unchanged (no trimming); when the
request does not contain these bytes, or no CR LF follows them, the result is empty. -/
theorem C21_header_lookup_exact (name pre value post : List Nat)
    (hfirst : ∀ k, k < pre.length → (name ++ ascii ": ").isPrefixOf
      ((pre ++ (name ++ ascii ": " ++ (value ++ ([0x0D, 0x0A] ++ post)))).drop k) = false)
    (hval : ∀ k, k < value.length →
      [0x0D, 0x0A].isPrefixOf ((value ++ ([0x0D, 0x0A] ++ post)).drop k) = false) :
    extractHeader (pre ++ (name ++ ascii ": " ++ (value ++ ([0x0D, 0x0A] ++ post)))) name
      = value ∧
    (∀ request : List Nat, ¬(name ++ ascii ": ") <:+: request →
      extractHeader request name = []) ∧
    (∀ before rest : List Nat,
      (∀ k, k < before.length → (name ++ ascii ": ").isPrefixOf
        ((before ++ (name ++ ascii ": " ++ rest)).drop k) = false) →
      ¬[0x0D, 0x0A] <:+: rest →
      extractHeader (before ++ (name ++ ascii ": " ++ rest)) name = []) :=
  ⟨extractHeader_found name pre value post hfirst hval,
    fun request h => extractHeader_absent request name h,
    fun before rest h1 h2 => extractHeader_unterminated name before rest h1 h2⟩

theorem C21_header_lookup_exact_witness :
    extractHeader (ascii "GET / HTTP/1.1\r\n" ++ (keyHeader ++ ascii ": " ++
      (ascii "  k " ++ ([0x0D, 0x0A] ++ ascii "\r\n")))) keyHeader = ascii "  k " :=
  (C21_header_lookup_exact keyHeader (ascii "GET / HTTP/1.1\r\n") (ascii "  k ")
    (ascii "\r\n") (by decide) (by decide)).1

end WebSocket

namespace WebSocket

open VT

/-! ## performHandshake -/

theorem generateAcceptKey_length (api_ok : Bool) (k : List Nat) :
    (generateAcceptKey api_ok k).length ≤ 28 := by
  unfold generateAcceptKey sha1Hash
  cases api_ok
  · rw [if_neg (by decide)]
    decide
  · rw [if_pos rfl, base64Encode_eq_ref _ (sha1_bytes _).2, base64Ref_length, (sha1_bytes _).1]

theorem handshakeResponse_eq (accept_key : List Nat) :
    handshakeResponse accept_key =
      ascii "HTTP/1.1 101 Switching Protocols\r\nUpgrade: websocket\r\nConnection: Upgrade\r\nSec-WebSocket-Accept: "
        ++ accept_key ++ ascii "\r\n\r\n" := by
  unfold handshakeResponse
  simp only [List.append_assoc]
  rfl

theorem handshakeResponse_length (accept_key : List Nat) :
    (handshakeResponse accept_key).length = accept_key.length + 101 := by
  rw [handshakeResponse_eq]
  simp only [List.length_append]
  have e1 : (ascii "HTTP/1.1 101 Switching Protocols\r\nUpgrade: websocket\r\nConnection: Upgrade\r\nSec-WebSocket-Accept: ").length
      = 97 := by decide
  have e2 : (ascii "\r\n\r\n").length = 4 := by decide
  rw [e1, e2]
  omega

/-- What `performHandshake` does when a key is found. -/
theorem performHandshake_key (api_ok : Bool) (bytes_sent : Int) (request : List Nat)
    (hk : extractHeader request (ascii "Sec-WebSocket-Key") ≠ []) :
    performHandshake api_ok bytes_sent request =
      (some (handshakeResponse
        (generateAcceptKey api_ok (extractHeader request (ascii "Sec-WebSocket-Key")))),
       decide (bytes_sent = ((handshakeResponse (generateAcceptKey api_ok
         (extractHeader request (ascii "Sec-WebSocket-Key")))).length : Int))) := by
  have hl := handshakeResponse_length
    (generateAcceptKey api_ok (extractHeader request (ascii "Sec-WebSocket-Key")))
  have hb := generateAcceptKey_length api_ok (extractHeader request (ascii "Sec-WebSocket-Key"))
  have hw : wrap32 ((handshakeResponse (generateAcceptKey api_ok
      (extractHeader request (ascii "Sec-WebSocket-Key")))).length : Int) =
      ((handshakeResponse (generateAcceptKey api_ok
        (extractHeader request (ascii "Sec-WebSocket-Key")))).length : Int) := by
    unfold wrap32
    omega
  unfold performHandshake
  rw [if_neg hk, hw, Int.toNat_ofNat, List.take_length]
  refine congrArg (Prod.mk _) ?_
  by_cases hbs : bytes_sent = ((handshakeResponse (generateAcceptKey api_ok
      (extractHeader request (ascii "Sec-WebSocket-Key")))).length : Int)
  · simp [hbs]
  · simp [hbs]

/-- C22: when a non-empty key `k` is extracted from the request, the bytes that
`performHandshake` sends are the status line, the `Upgrade` and `Connection` headers,
`Sec-WebSocket-Accept: ` with `generateAcceptKey(k)`, and the empty line, and the
result is `true` iff `send` returns the length of that response; when no key is found
nothing is sent and the result is `false`. -/
theorem C22_handshake_response (api_ok : Bool) (bytes_sent : Int) (request : List Nat) :
    (extractHeader request (ascii "Sec-WebSocket-Key") ≠ [] →
      (performHandshake api_ok bytes_sent request).1 =
        some (ascii "HTTP/1.1 101 Switching Protocols\r\nUpgrade: websocket\r\nConnection: Upgrade\r\nSec-WebSocket-Accept: "
          ++ generateAcceptKey api_ok (extractHeader request (ascii "Sec-WebSocket-Key"))
          ++ ascii "\r\n\r\n") ∧
      ((performHandshake api_ok bytes_sent request).2 = true ↔
        bytes_sent = (((ascii "HTTP/1.1 101 Switching Protocols\r\nUpgrade: websocket\r\nConnection: Upgrade\r\nSec-WebSocket-Accept: "
          ++ generateAcceptKey api_ok (extractHeader request (ascii "Sec-WebSocket-Key"))
          ++ ascii "\r\n\r\n").length : Nat) : Int))) ∧
    (extractHeader request (ascii "Sec-WebSocket-Key") = [] →
      performHandshake api_ok bytes_sent request = (none, false)) := by
  refine ⟨?_, ?_⟩
  · intro hk
    rw [performHandshake_key api_ok bytes_sent request hk, handshakeResponse_eq]
    exact ⟨rfl, by simp⟩
  · intro hk
    unfold performHandshake
    rw [if_pos hk]

theorem C22_handshake_response_witness :
    (performHandshake true 129 sampleRequest).1 =
      some (ascii "HTTP/1.1 101 Switching Protocols\r\nUpgrade: websocket\r\nConnection: Upgrade\r\nSec-WebSocket-Accept: "
        ++ generateAcceptKey true (extractHeader sampleRequest (ascii "Sec-WebSocket-Key"))
        ++ ascii "\r\n\r\n") ∧
    (performHandshake true 129 sampleRequest).2 = true ∧
    performHandshake true 129 lowerCaseRequest = (none, false) := by
  have h1 := C22_handshake_response true 129 sampleRequest
  have h2 := C22_handshake_response true 129 lowerCaseRequest
  exact ⟨(h1.1 (by decide!)).1, (h1.1 (by decide!)).2.mpr (by decide!), h2.2 (by decide!)⟩

/-- C23, evaluation of the code when hashing fails: for every request with a
non-empty key, when the calls of `sha1Hash` fail the accept key is empty, yet
`performHandshake` sends the 101 response with an empty `Sec-WebSocket-Accept` value
and returns `true` as soon as `send` reports its 101 bytes written; `handleClient`
then registers the client and does not close the socket. -/
theorem C23_hash_failure_accepted (request : List Nat) (buffer : List Nat)
    (client_socket : Nat) (clients : List Client)
    (hk : extractHeader request (ascii "Sec-WebSocket-Key") ≠ [])
    (hreq : (buffer.take buffer.length).takeWhile (fun b => b != 0) = request)
    (hlen : 0 < buffer.length) :
    sha1Hash false (extractHeader request (ascii "Sec-WebSocket-Key") ++ WS_GUID) = [] ∧
    generateAcceptKey false (extractHeader request (ascii "Sec-WebSocket-Key")) = [] ∧
    performHandshake false 101 request =
      (some (ascii "HTTP/1.1 101 Switching Protocols\r\nUpgrade: websocket\r\nConnection: Upgrade\r\nSec-WebSocket-Accept: \r\n\r\n"),
       true) ∧
    handleClientOpen false 101 buffer (buffer.length : Int) client_socket clients =
      (clients ++ [{ socket := client_socket, connected := true }], false) := by
  have e1 : sha1Hash false (extractHeader request (ascii "Sec-WebSocket-Key") ++ WS_GUID) = [] :=
    rfl
  have e2 : generateAcceptKey false (extractHeader request (ascii "Sec-WebSocket-Key")) = [] := by
    unfold generateAcceptKey
    rw [e1]
    decide
  have e3 : performHandshake false 101 request =
      (some (ascii "HTTP/1.1 101 Switching Protocols\r\nUpgrade: websocket\r\nConnection: Upgrade\r\nSec-WebSocket-Accept: \r\n\r\n"),
       true) := by
    rw [performHandshake_key false 101 request hk, e2]
    exact Prod.ext (by decide) (by decide)
  refine ⟨e1, e2, e3, ?_⟩
  unfold handleClientOpen
  rw [if_neg (by omega), Int.toNat_ofNat, hreq, e3]
  rfl

theorem C23_hash_failure_accepted_witness :
    performHandshake false 101 sampleRequest =
      (some (ascii "HTTP/1.1 101 Switching Protocols\r\nUpgrade: websocket\r\nConnection: Upgrade\r\nSec-WebSocket-Accept: \r\n\r\n"),
       true) ∧
    handleClientOpen false 101 sampleRequest (sampleRequest.length : Int) 7 [] =
      ([{ socket := 7, connected := true }], false) := by
  have h := C23_hash_failure_accepted sampleRequest sampleRequest 7 [] (by decide!)
    (by decide!) (by decide)
  exact ⟨h.2.2.1, h.2.2.2⟩

end WebSocket

namespace WebSocket

open VT

/-! ## broadcast -/

/-- C24: with the server running, `broadcast` calls `sendFrame` with the data once
on each client whose `connected` flag is set, in the order of the vector, and on no
other client; afterwards the vector holds, in the original order, the clients that
were connected and whose send succeeded, and the sockets of the connected clients
whose send failed have been closed. With the server not running nothing is sent and
the vector is unchanged. -/
theorem C24_broadcast_fan_out (send_result : Nat → Int) (data : List Nat)
    (clients : List Client) :
    (broadcast true send_result data clients).1 =
      (clients.filter (fun c => c.connected)).map (fun c => (c.socket, data)) ∧
    (broadcast true send_result data clients).2.2 =
      clients.filter (fun c => c.connected && sendFrame (send_result c.socket) data) ∧
    (broadcast true send_result data clients).2.1 =
      (clients.filter (fun c => c.connected && !sendFrame (send_result c.socket) data)).map
        (fun c => c.socket) ∧
    broadcast false send_result data clients = ([], [], clients) := by
  have key : ∀ cs : List Client,
      broadcastLoop send_result data cs =
        ((cs.filter (fun c => c.connected)).map (fun c => (c.socket, data)),
         (cs.filter (fun c => c.connected && !sendFrame (send_result c.socket) data)).map
           (fun c => c.socket),
         cs.filter (fun c => c.connected && sendFrame (send_result c.socket) data)) := by
    intro cs
    induction cs with
    | nil => rfl
    | cons c rest ih =>
      unfold broadcastLoop
      rw [ih]
      cases hc : c.connected
      · simp [hc]
      · cases hs : sendFrame (send_result c.socket) data
        · simp [hc, hs]
        · simp [hc, hs]
  have e : broadcast true send_result data clients = broadcastLoop send_result data clients := rfl
  rw [e, key]
  exact ⟨rfl, rfl, rfl, rfl⟩

theorem C24_broadcast_fan_out_witness :
    broadcast true (fun s => if s = 3 then 4 else -1) (ascii "ok")
        [{ socket := 1, connected := false }, { socket := 2, connected := true },
         { socket := 3, connected := true }] =
      ([(2, ascii "ok"), (3, ascii "ok")], [2], [{ socket := 3, connected := true }]) ∧
    sentBytes (ascii "ok") = [0x81, 0x02, 0x6f, 0x6b] := by
  have h := C24_broadcast_fan_out (fun s => if s = 3 then 4 else -1) (ascii "ok")
    [{ socket := 1, connected := false }, { socket := 2, connected := true },
     { socket := 3, connected := true }]
  exact ⟨Prod.ext h.1 (Prod.ext h.2.2.1 h.2.1), by decide⟩

end WebSocket

namespace VT

/-! ## Operations up to the colours that are not set -/

theorem normCell_idem (c : Cell) : normCell (normCell c) = normCell c := by
  obtain ⟨ch, b, i, u, rv, fg, bg, hf, hb⟩ := c
  cases hf <;> cases hb <;> rfl

theorem normStyle_idem (c : Cell) : normStyle (normStyle c) = normStyle c := by
  obtain ⟨ch, b, i, u, rv, fg, bg, hf, hb⟩ := c
  cases hf <;> cases hb <;> rfl

theorem normCell_default : normCell defaultCell = defaultCell := rfl

theorem normCell_empty : normCell empty_cell = empty_cell := rfl

theorem normGrid_idem (g : List (List Cell)) :
    (g.map (fun row => row.map normCell)).map (fun row => row.map normCell) =
      g.map (fun row => row.map normCell) := by
  rw [List.map_map]
  apply List.map_congr_left
  intro row _
  simp only [Function.comp, List.map_map]
  apply List.map_congr_left
  intro c _
  exact normCell_idem c

/-- Two renderers with the same normalised fields have the same normal form. -/
theorem norm_of_fields (a b : Renderer)
    (hg : a.grid.map (fun row => row.map normCell) = b.grid.map (fun row => row.map normCell))
    (hs : normStyle a.current_style = normStyle b.current_style)
    (hw : a.width = b.width) (hh : a.height = b.height)
    (hx : a.cursor_x = b.cursor_x) (hy : a.cursor_y = b.cursor_y) :
    normRenderer a = normRenderer b := by
  unfold normRenderer
  rw [hg, hs, hw, hh, hx, hy]

theorem norm_fields (a b : Renderer) (h : normRenderer a = normRenderer b) :
    a.grid.map (fun row => row.map normCell) = b.grid.map (fun row => row.map normCell) ∧
    normStyle a.current_style = normStyle b.current_style ∧
    a.width = b.width ∧ a.height = b.height ∧
    a.cursor_x = b.cursor_x ∧ a.cursor_y = b.cursor_y := by
  have e1 := congrArg Renderer.grid h
  have e2 := congrArg Renderer.current_style h
  have e3 := congrArg Renderer.width h
  have e4 := congrArg Renderer.height h
  have e5 := congrArg Renderer.cursor_x h
  have e6 := congrArg Renderer.cursor_y h
  exact ⟨e1, e2, e3, e4, e5, e6⟩

theorem normRenderer_idem (r : Renderer) : normRenderer (normRenderer r) = normRenderer r :=
  norm_of_fields _ _ (normGrid_idem r.grid) (normStyle_idem _) rfl rfl rfl rfl

end VT

namespace VT

end VT

namespace VT

theorem clearCells_norm (lo hi : Int) : ∀ (row : List Cell) (x : Int),
    (clearCells lo hi x row).map normCell = clearCells lo hi x (row.map normCell) := by
  intro row
  induction row with
  | nil => intro x; rfl
  | cons c cs ih =>
    intro x
    simp only [clearCells, List.map_cons, ih]
    split_ifs
    · rw [normCell_default]
    · rfl

theorem clearGrid_sim (ga gb : List (List Cell))
    (hg : ga.map (fun row => row.map normCell) = gb.map (fun row => row.map normCell)) :
    (ga.map (fun row => row.map (fun _ => empty_cell))).map (fun row => row.map normCell) =
      (gb.map (fun row => row.map (fun _ => empty_cell))).map (fun row => row.map normCell) := by
  have h := congrArg (List.map (fun row : List Cell => row.map (fun _ => empty_cell))) hg
  simp only [List.map_map, Function.comp_def] at h ⊢
  exact h

/-- The relation "same renderer up to the colours that are not set", by fields. -/
theorem sim_cases (P : Renderer → Renderer → Prop)
    (h : ∀ (ga gb : List (List Cell)) (w h x y : Int) (sa sb : Cell),
      ga.map (fun row => row.map normCell) = gb.map (fun row => row.map normCell) →
      normStyle sa = normStyle sb →
      P ⟨ga, w, h, x, y, sa⟩ ⟨gb, w, h, x, y, sb⟩)
    (a b : Renderer) (hab : normRenderer a = normRenderer b) : P a b := by
  obtain ⟨hg, hs, hw, hh, hx, hy⟩ := norm_fields a b hab
  obtain ⟨ga, wa, ha, xa, ya, sa⟩ := a
  obtain ⟨gb, wb, hb, xb, yb, sb⟩ := b
  simp only at hg hs hw hh hx hy
  subst hw hh hx hy
  exact h ga gb _ _ _ _ sa sb hg hs

theorem eraseRow_norm (c : Prop) [Decidable c] (lo hi : Int) (row : List Cell) :
    (if c then clearCells lo hi 0 row else row).map normCell =
      if c then clearCells lo hi 0 (row.map normCell) else row.map normCell := by
  split_ifs
  · exact clearCells_norm lo hi row 0
  · rfl

theorem clear_sim (a b : Renderer) (hab : normRenderer a = normRenderer b) :
    normRenderer (clear a) = normRenderer (clear b) := by
  refine sim_cases (fun a b => normRenderer (clear a) = normRenderer (clear b)) ?_ a b hab
  intro ga gb w h x y sa sb hg hs
  exact norm_of_fields _ _ (clearGrid_sim ga gb hg) hs rfl rfl rfl rfl

end VT

namespace VT

/-! ## The markup does not look at colours that are not set -/

theorem norm_styleEq (a b : Cell) (h : normStyle a = normStyle b) : styleEq a b = true := by
  obtain ⟨ch, b1, i1, u1, rv1, fg1, bg1, hf1, hb1⟩ := a
  obtain ⟨ch2, b2, i2, u2, rv2, fg2, bg2, hf2, hb2⟩ := b
  simp only [normStyle, normCell, Cell.mk.injEq] at h
  obtain ⟨-, h1, h2, h3, h4, h5, h6, h7, h8⟩ := h
  subst h1 h2 h3 h4 h7 h8
  cases hf1 <;> cases hb1 <;> simp_all [styleEq]

end VT

namespace WebSocket

open VT

end WebSocket

namespace WebSocket

/-! ## The threads and the vector of clients -/

theorem kept_getElem (kept : List Client) (c : Client) (rest : List Client) :
    (kept ++ c :: rest)[kept.length]? = some c := by
  induction kept with
  | nil => simp
  | cons k ks ih => simpa using ih

theorem kept_end_getElem (kept : List Client) : (kept ++ [])[kept.length]? = none := by
  simp

theorem eraseIdx_kept (kept : List Client) (c : Client) (rest : List Client) :
    (kept ++ c :: rest).eraseIdx kept.length = kept ++ rest := by
  induction kept with
  | nil => rfl
  | cons k ks ih => simp only [List.cons_append, List.length_cons, List.eraseIdx_cons_succ, ih]

theorem sendsOf_append (a b : List Effect) : sendsOf (a ++ b) = sendsOf a ++ sendsOf b := by
  induction a with
  | nil => rfl
  | cons e es ih => cases e <;> simp [sendsOf, ih]

theorem closesOf_append (a b : List Effect) : closesOf (a ++ b) = closesOf a ++ closesOf b := by
  induction a with
  | nil => rfl
  | cons e es ih => cases e <;> simp [closesOf, ih]

theorem runSchedule_cons (send_result : Nat → Int) (data : List Nat) (s : Nat) (t : ThreadId)
    (ts : List ThreadId) (w : Shared) :
    runSchedule send_result data s (t :: ts) w =
      runSchedule send_result data s ts (stepThread send_result data s t w) := rfl

theorem runSchedule_append (send_result : Nat → Int) (data : List Nat) (s : Nat)
    (a b : List ThreadId) (w : Shared) :
    runSchedule send_result data s (a ++ b) w =
      runSchedule send_result data s b (runSchedule send_result data s a w) := by
  unfold runSchedule
  rw [List.foldl_append]

/-- After its loop the thread in `broadcast` does nothing more. -/
theorem broadcast_finished (send_result : Nat → Int) (data : List Nat) (s : Nat) :
    ∀ (n : Nat) (w : Shared), w.broadcast_at = BroadcastAt.finished →
      runSchedule send_result data s (List.replicate n ThreadId.broadcaster) w = w := by
  intro n
  induction n with
  | zero => intro w _; rfl
  | succ n ih =>
    intro w hw
    have hstep : stepThread send_result data s ThreadId.broadcaster w = w := by
      show broadcastStep send_result data w = w
      unfold broadcastStep
      rw [hw]
    rw [List.replicate_succ, runSchedule_cons, hstep]
    exact ih w hw

/-- The loop of `broadcast`, when no other thread steps in between, does what
`broadcastLoop` says on the records from `it` on. -/
theorem broadcast_alone (send_result : Nat → Int) (data : List Nat) (s : Nat) :
    ∀ (rem kept : List Client) (E : List Effect) (cat : ClientAt) (n : Nat),
      2 * rem.length + 1 ≤ n →
      (runSchedule send_result data s (List.replicate n ThreadId.broadcaster)
        ⟨kept ++ rem, E, BroadcastAt.check kept.length, cat⟩).clients =
          kept ++ (broadcastLoop send_result data rem).2.2 ∧
      sendsOf (runSchedule send_result data s (List.replicate n ThreadId.broadcaster)
        ⟨kept ++ rem, E, BroadcastAt.check kept.length, cat⟩).effects =
          sendsOf E ++ (broadcastLoop send_result data rem).1 ∧
      closesOf (runSchedule send_result data s (List.replicate n ThreadId.broadcaster)
        ⟨kept ++ rem, E, BroadcastAt.check kept.length, cat⟩).effects =
          closesOf E ++ (broadcastLoop send_result data rem).2.1 ∧
      (runSchedule send_result data s (List.replicate n ThreadId.broadcaster)
        ⟨kept ++ rem, E, BroadcastAt.check kept.length, cat⟩).broadcast_at =
          BroadcastAt.finished ∧
      (runSchedule send_result data s (List.replicate n ThreadId.broadcaster)
        ⟨kept ++ rem, E, BroadcastAt.check kept.length, cat⟩).client_at = cat := by
  intro rem
  induction rem with
  | nil =>
    intro kept E cat n hn
    obtain ⟨m, rfl⟩ : ∃ m, n = m + 1 := ⟨n - 1, by omega⟩
    have hstep : stepThread send_result data s ThreadId.broadcaster
        ⟨kept ++ [], E, BroadcastAt.check kept.length, cat⟩ =
        ⟨kept ++ [], E, BroadcastAt.finished, cat⟩ := by
      unfold stepThread broadcastStep
      simp only [kept_end_getElem]
    rw [List.replicate_succ, runSchedule_cons, hstep, broadcast_finished _ _ _ _ _ rfl]
    simp [broadcastLoop]
  | cons c rest ih =>
    intro kept E cat n hn
    simp only [List.length_cons] at hn
    obtain ⟨m, rfl⟩ : ∃ m, n = m + 1 := ⟨n - 1, by omega⟩
    by_cases hc : c.connected = true
    · obtain ⟨k, rfl⟩ : ∃ k, m = k + 1 := ⟨m - 1, by omega⟩
      have hstep1 : stepThread send_result data s ThreadId.broadcaster
          ⟨kept ++ c :: rest, E, BroadcastAt.check kept.length, cat⟩ =
          ⟨kept ++ c :: rest, E, BroadcastAt.send kept.length, cat⟩ := by
        unfold stepThread broadcastStep
        simp only [kept_getElem, hc]
        rfl
      by_cases hsend : sendFrame (send_result c.socket) data = true
      · have hstep2 : stepThread send_result data s ThreadId.broadcaster
            ⟨kept ++ c :: rest, E, BroadcastAt.send kept.length, cat⟩ =
            ⟨(kept ++ [c]) ++ rest, E ++ [Effect.sent c.socket data],
              BroadcastAt.check (kept ++ [c]).length, cat⟩ := by
          unfold stepThread broadcastStep
          simp only [kept_getElem, hsend]
          simp
        rw [List.replicate_succ, runSchedule_cons, hstep1, List.replicate_succ, runSchedule_cons,
          hstep2]
        obtain ⟨i1, i2, i3, i4, i5⟩ := ih (kept ++ [c]) (E ++ [Effect.sent c.socket data]) cat k
          (by omega)
        refine ⟨?_, ?_, ?_, i4, i5⟩
        · rw [i1]
          simp [broadcastLoop, hc, hsend]
        · rw [i2, sendsOf_append]
          simp [broadcastLoop, hc, hsend, sendsOf]
        · rw [i3, closesOf_append]
          simp [broadcastLoop, hc, hsend, closesOf]
      · have hstep2 : stepThread send_result data s ThreadId.broadcaster
            ⟨kept ++ c :: rest, E, BroadcastAt.send kept.length, cat⟩ =
            ⟨kept ++ rest, E ++ [Effect.sent c.socket data, Effect.closed c.socket],
              BroadcastAt.check kept.length, cat⟩ := by
          unfold stepThread broadcastStep
          simp only [kept_getElem, hsend, eraseIdx_kept]
          simp
        rw [List.replicate_succ, runSchedule_cons, hstep1, List.replicate_succ, runSchedule_cons,
          hstep2]
        obtain ⟨i1, i2, i3, i4, i5⟩ := ih kept
          (E ++ [Effect.sent c.socket data, Effect.closed c.socket]) cat k (by omega)
        refine ⟨?_, ?_, ?_, i4, i5⟩
        · rw [i1]
          simp [broadcastLoop, hc, hsend]
        · rw [i2, sendsOf_append]
          simp [broadcastLoop, hc, hsend, sendsOf]
        · rw [i3, closesOf_append]
          simp [broadcastLoop, hc, hsend, closesOf]
    · have hstep1 : stepThread send_result data s ThreadId.broadcaster
          ⟨kept ++ c :: rest, E, BroadcastAt.check kept.length, cat⟩ =
          ⟨kept ++ rest, E, BroadcastAt.check kept.length, cat⟩ := by
        unfold stepThread broadcastStep
        simp only [kept_getElem, hc, eraseIdx_kept]
        simp
      rw [List.replicate_succ, runSchedule_cons, hstep1]
      obtain ⟨i1, i2, i3, i4, i5⟩ := ih kept E cat m (by omega)
      refine ⟨?_, ?_, ?_, i4, i5⟩
      · rw [i1]
        simp [broadcastLoop, hc]
      · rw [i2]
        simp [broadcastLoop, hc]
      · rw [i3]
        simp [broadcastLoop, hc]

end WebSocket

namespace WebSocket

open VT

/-- C25 (as stated) fails: nothing serializes the accesses to `clients`. With one
connected client on socket 7, the thread in `broadcast` reads the record as connected
and is then inside its loop, before its call of `sendFrame`; the client thread writes
`connected = false` into the vector at that moment and closes the socket; `broadcast`
then calls `sendFrame` on the closed socket. With a `send` that returns the full
length the calls made are `closesocket(7)`, `sendFrame(7)`, which neither order of
the two accesses gives: the client thread first gives `closesocket(7)` alone,
`broadcast` first gives `sendFrame(7)`, `closesocket(7)`. -/
theorem C25_clients_counterexample :
    (runSchedule (fun _ => 4) (ascii "ok") 7 [ThreadId.broadcaster]
      (startOf [{ socket := 7, connected := true }])).broadcast_at = BroadcastAt.send 0 ∧
    (runSchedule (fun _ => 4) (ascii "ok") 7 [ThreadId.broadcaster, ThreadId.clientTask]
      (startOf [{ socket := 7, connected := true }])).clients =
        [{ socket := 7, connected := false }] ∧
    (runSchedule (fun _ => 4) (ascii "ok") 7 [ThreadId.broadcaster, ThreadId.clientTask]
      (startOf [{ socket := 7, connected := true }])).broadcast_at = BroadcastAt.send 0 ∧
    runSchedule (fun _ => 4) (ascii "ok") 7
      [ThreadId.broadcaster, ThreadId.clientTask, ThreadId.clientTask, ThreadId.broadcaster,
       ThreadId.broadcaster]
      (startOf [{ socket := 7, connected := true }]) =
        { clients := [{ socket := 7, connected := false }],
          effects := [Effect.closed 7, Effect.sent 7 (ascii "ok")],
          broadcast_at := BroadcastAt.finished, client_at := ClientAt.finished } ∧
    runSchedule (fun _ => 4) (ascii "ok") 7
      [ThreadId.clientTask, ThreadId.clientTask, ThreadId.broadcaster, ThreadId.broadcaster,
       ThreadId.broadcaster]
      (startOf [{ socket := 7, connected := true }]) =
        { clients := [], effects := [Effect.closed 7],
          broadcast_at := BroadcastAt.finished, client_at := ClientAt.finished } ∧
    runSchedule (fun _ => 4) (ascii "ok") 7
      [ThreadId.broadcaster, ThreadId.broadcaster, ThreadId.broadcaster, ThreadId.clientTask,
       ThreadId.clientTask]
      (startOf [{ socket := 7, connected := true }]) =
        { clients := [{ socket := 7, connected := false }],
          effects := [Effect.sent 7 (ascii "ok"), Effect.closed 7],
          broadcast_at := BroadcastAt.finished, client_at := ClientAt.finished } := by
  decide!

/-- C25, amended: the accesses to `clients` are not serialized, the statements of the
threads interleave. For every vector whose first record is a connected client on
socket `s`, every data and every result of `send`: the client thread of `s` can mark
the record as disconnected and close the socket after the thread in `broadcast` has
read the record as connected and before it calls `sendFrame`, and `broadcast` then
calls `sendFrame` on the closed socket. When the client thread does both statements
before the loop of `broadcast`, the record is erased and the calls of `sendFrame` are
those for the other records; when it does them after the loop, its `closesocket`
comes after all the calls of `broadcast`, the first of which is the `sendFrame` on
`s`. A loop of `broadcast` during which no other thread steps makes the calls and
leaves the vector that `broadcastLoop` gives. -/
theorem C25_clients_interleaved (send_result : Nat → Int) (data : List Nat) (s : Nat)
    (rest : List Client) :
    runSchedule send_result data s [ThreadId.broadcaster]
      (startOf ({ socket := s, connected := true } :: rest)) =
        { clients := { socket := s, connected := true } :: rest, effects := [],
          broadcast_at := BroadcastAt.send 0, client_at := ClientAt.mark } ∧
    runSchedule send_result data s
      [ThreadId.broadcaster, ThreadId.clientTask, ThreadId.clientTask]
      (startOf ({ socket := s, connected := true } :: rest)) =
        { clients := { socket := s, connected := false } :: rest,
          effects := [Effect.closed s],
          broadcast_at := BroadcastAt.send 0, client_at := ClientAt.finished } ∧
    (runSchedule send_result data s
      [ThreadId.broadcaster, ThreadId.clientTask, ThreadId.clientTask, ThreadId.broadcaster]
      (startOf ({ socket := s, connected := true } :: rest))).effects =
        Effect.closed s :: Effect.sent s data ::
          (if sendFrame (send_result s) data then [] else [Effect.closed s]) ∧
    (∀ n : Nat, 2 * rest.length + 3 ≤ n →
      (runSchedule send_result data s
        ([ThreadId.clientTask, ThreadId.clientTask] ++ List.replicate n ThreadId.broadcaster)
        (startOf ({ socket := s, connected := true } :: rest))).clients =
          (broadcastLoop send_result data rest).2.2 ∧
      sendsOf (runSchedule send_result data s
        ([ThreadId.clientTask, ThreadId.clientTask] ++ List.replicate n ThreadId.broadcaster)
        (startOf ({ socket := s, connected := true } :: rest))).effects =
          (broadcastLoop send_result data rest).1 ∧
      closesOf (runSchedule send_result data s
        ([ThreadId.clientTask, ThreadId.clientTask] ++ List.replicate n ThreadId.broadcaster)
        (startOf ({ socket := s, connected := true } :: rest))).effects =
          s :: (broadcastLoop send_result data rest).2.1) ∧
    (∀ n : Nat, 2 * rest.length + 3 ≤ n →
      (runSchedule send_result data s
        (List.replicate n ThreadId.broadcaster ++ [ThreadId.clientTask, ThreadId.clientTask])
        (startOf ({ socket := s, connected := true } :: rest))).effects =
          (runSchedule send_result data s (List.replicate n ThreadId.broadcaster)
            (startOf ({ socket := s, connected := true } :: rest))).effects ++
            [Effect.closed s] ∧
      sendsOf (runSchedule send_result data s (List.replicate n ThreadId.broadcaster)
        (startOf ({ socket := s, connected := true } :: rest))).effects =
          (s, data) :: (broadcastLoop send_result data rest).1) ∧
    (∀ (clients : List Client) (n : Nat), 2 * clients.length + 1 ≤ n →
      (runSchedule send_result data s (List.replicate n ThreadId.broadcaster)
        (startOf clients)).clients = (broadcastLoop send_result data clients).2.2 ∧
      sendsOf (runSchedule send_result data s (List.replicate n ThreadId.broadcaster)
        (startOf clients)).effects = (broadcastLoop send_result data clients).1 ∧
      closesOf (runSchedule send_result data s (List.replicate n ThreadId.broadcaster)
        (startOf clients)).effects = (broadcastLoop send_result data clients).2.1 ∧
      (runSchedule send_result data s (List.replicate n ThreadId.broadcaster)
        (startOf clients)).broadcast_at = BroadcastAt.finished) := by
  have hmark : markDisconnected s ({ socket := s, connected := true } :: rest) =
      { socket := s, connected := false } :: rest := by
    unfold markDisconnected
    rw [if_pos rfl]
  have h1 : runSchedule send_result data s [ThreadId.broadcaster]
      (startOf ({ socket := s, connected := true } :: rest)) =
        { clients := { socket := s, connected := true } :: rest, effects := [],
          broadcast_at := BroadcastAt.send 0, client_at := ClientAt.mark } := by
    simp [runSchedule, stepThread, broadcastStep, startOf]
  have h2 : runSchedule send_result data s
      [ThreadId.broadcaster, ThreadId.clientTask, ThreadId.clientTask]
      (startOf ({ socket := s, connected := true } :: rest)) =
        { clients := { socket := s, connected := false } :: rest,
          effects := [Effect.closed s],
          broadcast_at := BroadcastAt.send 0, client_at := ClientAt.finished } := by
    rw [runSchedule_cons]
    have e : stepThread send_result data s ThreadId.broadcaster
        (startOf ({ socket := s, connected := true } :: rest)) =
        { clients := { socket := s, connected := true } :: rest, effects := [],
          broadcast_at := BroadcastAt.send 0, client_at := ClientAt.mark } := by
      simp [stepThread, broadcastStep, startOf]
    rw [e]
    simp only [runSchedule, List.foldl_cons, List.foldl_nil, stepThread, clientStep, hmark,
      List.nil_append]
  have hall : ∀ (clients : List Client) (E : List Effect) (cat : ClientAt) (n : Nat),
      2 * clients.length + 1 ≤ n →
      (runSchedule send_result data s (List.replicate n ThreadId.broadcaster)
        ⟨clients, E, BroadcastAt.check 0, cat⟩).clients =
          (broadcastLoop send_result data clients).2.2 ∧
      sendsOf (runSchedule send_result data s (List.replicate n ThreadId.broadcaster)
        ⟨clients, E, BroadcastAt.check 0, cat⟩).effects =
          sendsOf E ++ (broadcastLoop send_result data clients).1 ∧
      closesOf (runSchedule send_result data s (List.replicate n ThreadId.broadcaster)
        ⟨clients, E, BroadcastAt.check 0, cat⟩).effects =
          closesOf E ++ (broadcastLoop send_result data clients).2.1 ∧
      (runSchedule send_result data s (List.replicate n ThreadId.broadcaster)
        ⟨clients, E, BroadcastAt.check 0, cat⟩).broadcast_at = BroadcastAt.finished := by
    intro clients E cat n hn
    obtain ⟨i1, i2, i3, i4, _⟩ := broadcast_alone send_result data s clients [] E cat n hn
    exact ⟨i1, i2, i3, i4⟩
  refine ⟨h1, h2, ?_, ?_, ?_, ?_⟩
  · have e : runSchedule send_result data s
        [ThreadId.broadcaster, ThreadId.clientTask, ThreadId.clientTask, ThreadId.broadcaster]
        (startOf ({ socket := s, connected := true } :: rest)) =
        runSchedule send_result data s [ThreadId.broadcaster]
          (runSchedule send_result data s
            [ThreadId.broadcaster, ThreadId.clientTask, ThreadId.clientTask]
            (startOf ({ socket := s, connected := true } :: rest))) :=
      runSchedule_append send_result data s
        [ThreadId.broadcaster, ThreadId.clientTask, ThreadId.clientTask] [ThreadId.broadcaster] _
    rw [e, h2]
    simp only [runSchedule, List.foldl_cons, List.foldl_nil, stepThread, broadcastStep]
    by_cases hsend : sendFrame (send_result s) data = true
    · simp [hsend]
    · simp [hsend]
  · intro n hn
    have e : runSchedule send_result data s [ThreadId.clientTask, ThreadId.clientTask]
        (startOf ({ socket := s, connected := true } :: rest)) =
        ⟨{ socket := s, connected := false } :: rest, [Effect.closed s], BroadcastAt.check 0,
          ClientAt.finished⟩ := by
      simp only [runSchedule, List.foldl_cons, List.foldl_nil, stepThread, clientStep, startOf,
        hmark, List.nil_append]
    rw [runSchedule_append, e]
    obtain ⟨i1, i2, i3, _⟩ := hall ({ socket := s, connected := false } :: rest)
      [Effect.closed s] ClientAt.finished n (by simp only [List.length_cons]; omega)
    refine ⟨?_, ?_, ?_⟩
    · rw [i1]
      simp [broadcastLoop]
    · rw [i2]
      simp [broadcastLoop, sendsOf]
    · rw [i3]
      simp [broadcastLoop, closesOf]
  · intro n hn
    obtain ⟨i1, i2, i3, i4, i5⟩ := broadcast_alone send_result data s
      ({ socket := s, connected := true } :: rest) [] [] ClientAt.mark n
      (by simp only [List.length_cons]; omega)
    have i5b : (runSchedule send_result data s (List.replicate n ThreadId.broadcaster)
        (startOf ({ socket := s, connected := true } :: rest))).client_at = ClientAt.mark := i5
    have i2b : sendsOf (runSchedule send_result data s (List.replicate n ThreadId.broadcaster)
        (startOf ({ socket := s, connected := true } :: rest))).effects =
        sendsOf [] ++ (broadcastLoop send_result data
          ({ socket := s, connected := true } :: rest)).1 := i2
    refine ⟨?_, ?_⟩
    · rw [runSchedule_append]
      generalize runSchedule send_result data s (List.replicate n ThreadId.broadcaster)
        (startOf ({ socket := s, connected := true } :: rest)) = w at i5b
      simp only [runSchedule, List.foldl_cons, List.foldl_nil, stepThread, clientStep, i5b]
    · rw [i2b]
      by_cases hsend : sendFrame (send_result s) data = true
      · simp [broadcastLoop, hsend, sendsOf]
      · simp [broadcastLoop, hsend, sendsOf]
  · intro clients n hn
    obtain ⟨i1, i2, i3, i4⟩ := hall clients [] ClientAt.mark n hn
    exact ⟨i1, i2, i3, i4⟩

theorem C25_clients_interleaved_witness :
    sendFrame (-1) (ascii "ok") = false ∧
    (runSchedule (fun _ => -1) (ascii "ok") 7
      [ThreadId.broadcaster, ThreadId.clientTask, ThreadId.clientTask, ThreadId.broadcaster]
      (startOf [{ socket := 7, connected := true }, { socket := 9, connected := true }])).effects =
        [Effect.closed 7, Effect.sent 7 (ascii "ok"), Effect.closed 7] :=
  ⟨by decide, (C25_clients_interleaved (fun _ => -1) (ascii "ok") 7
    [{ socket := 9, connected := true }]).2.2.1⟩

end WebSocket
